import Mathlib

/-!
# Verification of the MeowScript compiler front-end

Shallow embedding of the MeowScript compiler pipeline
(`src/lexer.py`, `src/parser.py`, `src/semantic.py`, `src/codegen.py`,
`src/main.py`) and proofs about it.

The embedding follows the Python source: the lexer and parser are modelled as
fuel-indexed state-passing functions (the fuel only replaces Python's
unbounded loops; all concrete runs are given ample fuel), the semantic
analyzer and the TAC generator are modelled as pure state-passing recursion
over the AST, exactly mirroring the visitor methods of the source.
-/

namespace MeowScript

/-! ## Decimal rendering of numbers

Python renders the counters of `CodeGenerator.new_temp` / `new_label` with
`f"t{n}"` / `f"L{n}"`, i.e. with decimal notation; Lean's `Nat.repr` produces
the same text.  We relate `Nat.repr` to a structurally recursive digit list
in order to prove injectivity and leading-digit facts about those names. -/

/-- Big-endian decimal digit list of a natural number; unfolds the fuelled
`Nat.toDigitsCore` used by `Nat.repr`. -/
def decDigits (n : Nat) : List Char :=
  if _h : n / 10 = 0 then [Nat.digitChar (n % 10)]
  else decDigits (n / 10) ++ [Nat.digitChar (n % 10)]
decreasing_by
  exact Nat.div_lt_self (Nat.pos_of_ne_zero (fun h0 => _h (by simp [h0]))) (by omega)

/-- The temporary names allocated by `CodeGenerator.new_temp` (`f"t{n}"`). -/
def tempName (n : Nat) : String := "t" ++ Nat.repr n

/-- The label names allocated by `CodeGenerator.new_label` (`f"L{n}"`). -/
def labelName (n : Nat) : String := "L" ++ Nat.repr n

/-! ## Tokens and lexer (src/lexer.py)

The lexer walks the source string left to right with a single-character peek.
We model the remaining input as a `List Char` plus the 1-based line/column
counters, and every lexer method as an explicit state-passing function
returning `Except LexerError α × LexerState`; returning `.error` leaves the
state where the raise happened, exactly as a Python exception does.  The fuel
argument only stands in for Python's unbounded `while` loops: every concrete
run below is given ample fuel, and `LexerError.outOfFuel` is never reached on
them. -/

inductive TokenType where
  | WAKE | SLEEP | HUNT | BOX | PAWS | PURR | HISS | CHASE | BRING | MEOW
  | INTEGER | FLOAT | STRING
  | IDENTIFIER
  | PLUS | MINUS | MULTIPLY | DIVIDE | MODULO
  | EQUAL | NOT_EQUAL | LESS | GREATER | LESS_EQUAL | GREATER_EQUAL
  | AND | OR | NOT
  | LPAREN | RPAREN | LBRACE | RBRACE | COMMA | SEMICOLON
  | EOF | NEWLINE
deriving DecidableEq

/-- Python's `Token.value` field is dynamically typed: `None` for EOF,
`int` / `float` for number literals, `str` for everything else.  A Python
float produced by the lexer is `float(num_str)`; we keep its integer and
fractional digit groups (their exact values never matter to the claims,
only that the rendered text starts with a digit). -/
inductive TokenValue where
  | vNone
  | vInt (n : Nat)
  | vFloat (ip fr : Nat)
  | vStr (s : String)
deriving DecidableEq

structure Token where
  type : TokenType
  value : TokenValue
  line : Nat
  column : Nat
deriving DecidableEq

inductive LexerError where
  | unterminatedComment (line col : Nat)
  | multipleDecimalPoints (line col : Nat)
  | trailingDecimalPoint (line col : Nat)
  | unterminatedString (line col : Nat)
  | newlineInString (line col : Nat)
  | unexpectedCharacter (c : Char) (line col : Nat)
  | outOfFuel
deriving DecidableEq

structure LexerState where
  chars : List Char
  line : Nat
  column : Nat
deriving DecidableEq

/-- `Lexer.advance`: consume one character, maintaining line/column.  The
returned character is the consumed one (callers mostly ignore it). -/
def lexAdvance (s : LexerState) : Option Char × LexerState :=
  match s.chars with
  | [] => (Option.none, s)
  | c :: rest =>
    (some c,
     { chars := rest,
       line := if c = '\n' then s.line + 1 else s.line,
       column := if c = '\n' then 1 else s.column + 1 })

/-- `Lexer.skip_whitespace`. -/
def skip_whitespace : Nat → LexerState → Except LexerError Unit × LexerState
  | 0, s => (.error .outOfFuel, s)
  | f + 1, s =>
    match s.chars.head? with
    | some c =>
      if c = ' ' ∨ c = '\t' ∨ c = '\n' ∨ c = '\r' then
        skip_whitespace f (lexAdvance s).2
      else (.ok (), s)
    | Option.none => (.ok (), s)

/-- The scan loop of `Lexer.skip_single_line_comment`. -/
def skip_single_line_comment_loop :
    Nat → LexerState → Except LexerError Unit × LexerState
  | 0, s => (.error .outOfFuel, s)
  | f + 1, s =>
    match s.chars.head? with
    | some c =>
      if c ≠ '\n' then skip_single_line_comment_loop f (lexAdvance s).2
      else (.ok (), s)
    | Option.none => (.ok (), s)

/-- `Lexer.skip_single_line_comment`. -/
def skip_single_line_comment (fuel : Nat) (s : LexerState) :
    Except LexerError Unit × LexerState :=
  skip_single_line_comment_loop fuel (lexAdvance (lexAdvance s).2).2

/-- The scan loop of `Lexer.skip_multi_line_comment`. -/
def skip_multi_line_comment_loop :
    Nat → LexerState → Except LexerError Unit × LexerState
  | 0, s => (.error .outOfFuel, s)
  | f + 1, s =>
    match s.chars.head? with
    | some c =>
      if c = '*' ∧ s.chars.get? 1 = some '/' then
        (.ok (), (lexAdvance (lexAdvance s).2).2)
      else skip_multi_line_comment_loop f (lexAdvance s).2
    | Option.none => (.error (.unterminatedComment s.line s.column), s)

/-- `Lexer.skip_multi_line_comment`. -/
def skip_multi_line_comment (fuel : Nat) (s : LexerState) :
    Except LexerError Unit × LexerState :=
  skip_multi_line_comment_loop fuel (lexAdvance (lexAdvance s).2).2

/-- Decimal value of a digit string, as computed by Python's `int`. -/
def digitsToNat (cs : List Char) : Nat :=
  cs.foldl (fun a c => a * 10 + (c.toNat - '0'.toNat)) 0

/-- Integer/fractional digit groups of a numeral with one `'.'` in it. -/
def floatPartsOf (cs : List Char) : Nat × Nat :=
  (digitsToNat (cs.takeWhile (· ≠ '.')),
   digitsToNat ((cs.dropWhile (· ≠ '.')).drop 1))

/-- The scanning loop of `Lexer.read_number`: a maximal run of digits and
dots, raising on a second dot. -/
def read_number_loop :
    Nat → List Char → Bool → LexerState →
      Except LexerError (List Char × Bool) × LexerState
  | 0, _, _, s => (.error .outOfFuel, s)
  | f + 1, acc, isf, s =>
    match s.chars.head? with
    | some c =>
      if c.isDigit ∨ c = '.' then
        if c = '.' ∧ isf then (.error (.multipleDecimalPoints s.line s.column), s)
        else read_number_loop f (acc ++ [c]) (isf ∨ c = '.') (lexAdvance s).2
      else (.ok (acc, isf), s)
    | Option.none => (.ok (acc, isf), s)

/-- `Lexer.read_number`. -/
def read_number (fuel : Nat) (s : LexerState) :
    Except LexerError Token × LexerState :=
  let startLine := s.line
  let startCol := s.column
  match read_number_loop fuel [] false s with
  | (.error e, s') => (.error e, s')
  | (.ok (num, isf), s') =>
    if isf then
      if num.getLast? = some '.' then
        match s'.chars.head? with
        | some c =>
          if c.isDigit then
            (.ok ⟨.FLOAT, .vFloat (floatPartsOf num).1 (floatPartsOf num).2,
              startLine, startCol⟩, s')
          else (.error (.trailingDecimalPoint startLine startCol), s')
        | Option.none => (.error (.trailingDecimalPoint startLine startCol), s')
      else
        (.ok ⟨.FLOAT, .vFloat (floatPartsOf num).1 (floatPartsOf num).2,
          startLine, startCol⟩, s')
    else (.ok ⟨.INTEGER, .vInt (digitsToNat num), startLine, startCol⟩, s')

/-- The scanning loop of `Lexer.read_string`, with the escape handling of the
source (`\n`, `\t`, `\"`, `\\` translated, any other escaped character kept
verbatim). -/
def read_string_loop :
    Nat → Nat → Nat → List Char → LexerState →
      Except LexerError (List Char) × LexerState
  | 0, _, _, _, s => (.error .outOfFuel, s)
  | f + 1, sl, sc, acc, s =>
    match s.chars.head? with
    | some c =>
      if c = '"' then (.ok acc, s)
      else if c = '\\' then
        let s1 := (lexAdvance s).2
        match s1.chars.head? with
        | some n =>
          let out := if n = 'n' then '\n'
            else if n = 't' then '\t'
            else if n = '"' then '"'
            else if n = '\\' then '\\'
            else n
          read_string_loop f sl sc (acc ++ [out]) (lexAdvance s1).2
        | Option.none => (.error (.unterminatedString sl sc), s1)
      else if c = '\n' then (.error (.newlineInString sl sc), s)
      else read_string_loop f sl sc (acc ++ [c]) (lexAdvance s).2
    | Option.none => (.ok acc, s)

/-- `Lexer.read_string`. -/
def read_string (fuel : Nat) (s : LexerState) :
    Except LexerError Token × LexerState :=
  let sl := s.line
  let sc := s.column
  match read_string_loop fuel sl sc [] (lexAdvance s).2 with
  | (.error e, s') => (.error e, s')
  | (.ok acc, s') =>
    match s'.chars.head? with
    | some '"' => (.ok ⟨.STRING, .vStr (String.mk acc), sl, sc⟩, (lexAdvance s').2)
    | _ => (.error (.unterminatedString sl sc), s')

/-- The keyword table `Lexer.KEYWORDS`. -/
def keywordType (s : String) : TokenType :=
  if s = "Wake" then .WAKE
  else if s = "Sleep" then .SLEEP
  else if s = "Hunt" then .HUNT
  else if s = "Box" then .BOX
  else if s = "paws" then .PAWS
  else if s = "Purr" then .PURR
  else if s = "Hiss" then .HISS
  else if s = "Chase" then .CHASE
  else if s = "Bring" then .BRING
  else if s = "Meow" then .MEOW
  else .IDENTIFIER

/-- The scan loop of `Lexer.read_identifier_or_keyword`. -/
def read_identifier_loop :
    Nat → List Char → LexerState → Except LexerError (List Char) × LexerState
  | 0, _, s => (.error .outOfFuel, s)
  | f + 1, acc, s =>
    match s.chars.head? with
    | some c =>
      if c.isAlphanum ∨ c = '_' then read_identifier_loop f (acc ++ [c]) (lexAdvance s).2
      else (.ok acc, s)
    | Option.none => (.ok acc, s)

/-- `Lexer.read_identifier_or_keyword`. -/
def read_identifier_or_keyword (fuel : Nat) (s : LexerState) :
    Except LexerError Token × LexerState :=
  let sl := s.line
  let sc := s.column
  match read_identifier_loop fuel [] s with
  | (.error e, s') => (.error e, s')
  | (.ok ident, s') =>
    (.ok ⟨keywordType (String.mk ident), .vStr (String.mk ident), sl, sc⟩, s')

/-- The `single_char_tokens` table of `Lexer.tokenize`. -/
def singleCharToken (c : Char) : Option TokenType :=
  if c = '+' then some .PLUS
  else if c = '-' then some .MINUS
  else if c = '*' then some .MULTIPLY
  else if c = '/' then some .DIVIDE
  else if c = '%' then some .MODULO
  else if c = '<' then some .LESS
  else if c = '>' then some .GREATER
  else if c = '!' then some .NOT
  else if c = '(' then some .LPAREN
  else if c = ')' then some .RPAREN
  else if c = '{' then some .LBRACE
  else if c = '}' then some .RBRACE
  else if c = ',' then some .COMMA
  else if c = ';' then some .SEMICOLON
  else Option.none

/-- Emission of a two-character operator token inside `Lexer.tokenize`. -/
def twoCharEmit (tt : TokenType) (lexeme : String) (sl sc : Nat) (s : LexerState) :
    Token × LexerState :=
  (⟨tt, .vStr lexeme, sl, sc⟩, (lexAdvance (lexAdvance s).2).2)

/-- The main loop of `Lexer.tokenize`. -/
def tokenize_loop :
    Nat → List Token → LexerState → Except LexerError (List Token) × LexerState
  | 0, _, s => (.error .outOfFuel, s)
  | f + 1, acc, s =>
    match s.chars.head? with
    | Option.none => (.ok (acc ++ [⟨.EOF, .vNone, s.line, s.column⟩]), s)
    | some c =>
      if c = ' ' ∨ c = '\t' ∨ c = '\n' ∨ c = '\r' then
        match skip_whitespace f s with
        | (.error e, s') => (.error e, s')
        | (.ok _, s') => tokenize_loop f acc s'
      else if c = '/' ∧ s.chars.get? 1 = some '/' then
        match skip_single_line_comment f s with
        | (.error e, s') => (.error e, s')
        | (.ok _, s') => tokenize_loop f acc s'
      else if c = '/' ∧ s.chars.get? 1 = some '*' then
        match skip_multi_line_comment f s with
        | (.error e, s') => (.error e, s')
        | (.ok _, s') => tokenize_loop f acc s'
      else if c.isDigit then
        match read_number f s with
        | (.error e, s') => (.error e, s')
        | (.ok t, s') => tokenize_loop f (acc ++ [t]) s'
      else if c = '"' then
        match read_string f s with
        | (.error e, s') => (.error e, s')
        | (.ok t, s') => tokenize_loop f (acc ++ [t]) s'
      else if c.isAlpha ∨ c = '_' then
        match read_identifier_or_keyword f s with
        | (.error e, s') => (.error e, s')
        | (.ok t, s') => tokenize_loop f (acc ++ [t]) s'
      else
        let sl := s.line
        let sc := s.column
        if c = '=' ∧ s.chars.get? 1 = some '=' then
          match twoCharEmit .EQUAL "==" sl sc s with
          | (t, s') => tokenize_loop f (acc ++ [t]) s'
        else if c = '!' ∧ s.chars.get? 1 = some '=' then
          match twoCharEmit .NOT_EQUAL "!=" sl sc s with
          | (t, s') => tokenize_loop f (acc ++ [t]) s'
        else if c = '<' ∧ s.chars.get? 1 = some '=' then
          match twoCharEmit .LESS_EQUAL "<=" sl sc s with
          | (t, s') => tokenize_loop f (acc ++ [t]) s'
        else if c = '>' ∧ s.chars.get? 1 = some '=' then
          match twoCharEmit .GREATER_EQUAL ">=" sl sc s with
          | (t, s') => tokenize_loop f (acc ++ [t]) s'
        else if c = '&' ∧ s.chars.get? 1 = some '&' then
          match twoCharEmit .AND "&&" sl sc s with
          | (t, s') => tokenize_loop f (acc ++ [t]) s'
        else if c = '|' ∧ s.chars.get? 1 = some '|' then
          match twoCharEmit .OR "||" sl sc s with
          | (t, s') => tokenize_loop f (acc ++ [t]) s'
        else
          match singleCharToken c with
          | some tt =>
            tokenize_loop f (acc ++ [⟨tt, .vStr (String.mk [c]), sl, sc⟩]) (lexAdvance s).2
          | Option.none => (.error (.unexpectedCharacter c s.line s.column), s)

/-- `Lexer.tokenize`, started on a fresh `Lexer(source_code)` state. -/
def tokenize (fuel : Nat) (source : String) : Except LexerError (List Token) :=
  (tokenize_loop fuel [] ⟨source.data, 1, 1⟩).1

/-! ## AST (src/parser.py dataclasses)

Python keeps the operator of `BinaryOpNode` / `UnaryOpNode` as a string, but
every constructed node carries one of the fixed operator lexemes put there by
the parser, so we model the operator as a closed enumeration together with
its lexeme (`BinOp.str`, `UnOp.str`). -/

inductive BinOp where
  | add | sub | mul | div | mod
  | eq | ne | lt | gt | le | ge
  | land | lor
deriving DecidableEq

/-- The operator lexeme stored in `BinaryOpNode.operator`. -/
def BinOp.str : BinOp → String
  | .add => "+"
  | .eq => "=="
  | .sub => "-"
  | .ne => "!="
  | .mul => "*"
  | .lt => "<"
  | .div => "/"
  | .gt => ">"
  | .mod => "%"
  | .le => "<="
  | .land => "&&"
  | .ge => ">="
  | .lor => "||"

inductive UnOp where
  | bang | neg
deriving DecidableEq

/-- The operator lexeme stored in `UnaryOpNode.operator`. -/
def UnOp.str : UnOp → String
  | .bang => "!"
  | .neg => "-"

/-- Expression nodes.  A Python float literal value is kept as its integer
and fractional digit groups (see `TokenValue.vFloat`). -/
inductive Expr where
  | intLit (value : Nat) (line col : Nat)
  | floatLit (ip fr : Nat) (line col : Nat)
  | strLit (value : String) (line col : Nat)
  | ident (name : String) (line col : Nat)
  | unary (op : UnOp) (operand : Expr) (line col : Nat)
  | binary (op : BinOp) (left right : Expr) (line col : Nat)
  | call (name : String) (args : List Expr) (line col : Nat)

/-- Statement nodes.  `callStmt` carries the fields of the wrapped
`FunctionCallNode` (the Python `FunctionCallStatementNode` shares the call's
coordinates).  An `if` statement's `else_block` is `some []` for a present
but empty `Hiss { }` block, mirroring that Python distinguishes `None` from
`[]` in the field (though `if node.else_block:` treats both as false). -/
inductive Stmt where
  | varDecl (identifier : String) (value : Expr) (line col : Nat)
  | assign (identifier : String) (value : Expr) (line col : Nat)
  | funcDef (name : String) (parameters : List String) (body : List Stmt) (line col : Nat)
  | ifStmt (condition : Expr) (then_block : List Stmt) (else_block : Option (List Stmt))
      (line col : Nat)
  | whileLoop (condition : Expr) (body : List Stmt) (line col : Nat)
  | ret (value : Expr) (line col : Nat)
  | printStmt (value : Expr) (line col : Nat)
  | callStmt (name : String) (args : List Expr) (line col : Nat)

/-- `ProgramNode`. -/
structure Program where
  statements : List Stmt
  line : Nat
  column : Nat

/-- Python truthiness of the `else_block` field (`if node.else_block:`):
false for `None` and for an empty list. -/
def elseTruthy : Option (List Stmt) → Bool
  | some (_ :: _) => true
  | _ => false

/-! ## Parser (src/parser.py)

A fuelled recursive-descent parser in `ExceptT ParserError (StateM
ParserState)`.  The state is the token buffer plus the cursor, exactly as in
the Python class; a raised `ParserError` leaves the cursor where the raise
happened (Python exceptions do not roll the object state back), which is what
`parse_statement_list`'s panic-mode recovery relies on. -/

inductive ParserError where
  | expected (want : TokenType) (got : Token)
  | unexpectedIdentifier (tok : Token)
  | unexpectedToken (tok : Token)
  | unexpectedExprToken (tok : Token)
  | outOfFuel
deriving DecidableEq

structure ParserState where
  tokens : List Token
  pos : Nat
deriving DecidableEq

/-- `self.current_token` (the Python parser never moves `pos` past the last
token; the default is only reachable on an empty token buffer, which the
lexer never produces). -/
def pCur (s : ParserState) : Token :=
  s.tokens.getD s.pos ⟨.EOF, .vNone, 0, 0⟩

/-- `Parser.advance`. -/
def pAdvance (s : ParserState) : ParserState :=
  if s.pos < s.tokens.length - 1 then { s with pos := s.pos + 1 } else s

/-- `Parser.peek` with the default offset 1. -/
def pPeek (s : ParserState) : Option Token :=
  s.tokens.get? (s.pos + 1)

/-- `Parser.expect`. -/
def pExpect (tt : TokenType) (s : ParserState) :
    Except ParserError Token × ParserState :=
  let t := pCur s
  if t.type = tt then (.ok t, pAdvance s)
  else (.error (.expected tt t), s)

/-- The string payload of a token value (`str` in all reachable uses). -/
def TokenValue.asString : TokenValue → String
  | .vStr s => s
  | _ => ""

def TokenValue.asNat : TokenValue → Nat
  | .vInt n => n
  | _ => 0

def TokenValue.asFloatParts : TokenValue → Nat × Nat
  | .vFloat a b => (a, b)
  | _ => (0, 0)

/-- `Parser.recover_from_error`: skip tokens until a synchronization token.
(The Python loop would spin forever if the buffer ran out without a sync
token; the fuel stands in for that partiality.) -/
def recover_from_error : Nat → ParserState → Except ParserError Unit × ParserState
  | 0, s => (.error .outOfFuel, s)
  | f + 1, s =>
    let t := pCur s
    if t.type = .BOX ∨ t.type = .HUNT ∨ t.type = .PURR ∨ t.type = .CHASE ∨
        t.type = .BRING ∨ t.type = .MEOW ∨ t.type = .RBRACE ∨ t.type = .SLEEP ∨
        t.type = .EOF then
      (.ok (), s)
    else recover_from_error f (pAdvance s)

mutual

/-- `Parser.parse_statement_list`: loop until `Sleep` / `}` / EOF, catching
a `ParserError` from each statement, printing it (no record of it is kept!)
and recovering. -/
def parse_statement_list : Nat → ParserState → Except ParserError (List Stmt) × ParserState
  | 0, s => (.error .outOfFuel, s)
  | f + 1, s =>
    let t := pCur s
    if t.type = .SLEEP ∨ t.type = .RBRACE ∨ t.type = .EOF then
      (.ok [], s)
    else
      match parse_statement f s with
      | (.ok stmt?, s1) =>
        (match parse_statement_list f s1 with
         | (.error e, s2) => (.error e, s2)
         | (.ok rest, s2) =>
           match stmt? with
           | some st => (.ok (st :: rest), s2)
           | Option.none => (.ok rest, s2))
      | (.error _, s1) =>
        match recover_from_error f s1 with
        | (.error e, s2) => (.error e, s2)
        | (.ok _, s2) =>
          match parse_statement_list f s2 with
          | (.error e, s3) => (.error e, s3)
          | (.ok rest, s3) => (.ok rest, s3)

/-- `Parser.parse_statement` (returns `none` exactly in the EOF branch). -/
def parse_statement : Nat → ParserState → Except ParserError (Option Stmt) × ParserState
  | 0, s => (.error .outOfFuel, s)
  | f + 1, s =>
    let t := pCur s
    if t.type = .BOX then
      match parse_var_declaration f s with
      | (.error e, s') => (.error e, s')
      | (.ok st, s') => (.ok (some st), s')
    else if t.type = .HUNT then
      match parse_function_def f s with
      | (.error e, s') => (.error e, s')
      | (.ok st, s') => (.ok (some st), s')
    else if t.type = .PURR then
      match parse_if_statement f s with
      | (.error e, s') => (.error e, s')
      | (.ok st, s') => (.ok (some st), s')
    else if t.type = .CHASE then
      match parse_while_loop f s with
      | (.error e, s') => (.error e, s')
      | (.ok st, s') => (.ok (some st), s')
    else if t.type = .BRING then
      match parse_return_statement f s with
      | (.error e, s') => (.error e, s')
      | (.ok st, s') => (.ok (some st), s')
    else if t.type = .MEOW then
      match parse_print_statement f s with
      | (.error e, s') => (.error e, s')
      | (.ok st, s') => (.ok (some st), s')
    else if t.type = .IDENTIFIER then
      match pPeek s with
      | some pt =>
        if pt.type = .PAWS then
          match parse_assignment f s with
          | (.error e, s') => (.error e, s')
          | (.ok st, s') => (.ok (some st), s')
        else if pt.type = .LPAREN then
          match parse_function_call f s with
          | (.error e, s') => (.error e, s')
          | (.ok (name, args, l, co), s') => (.ok (some (.callStmt name args l co)), s')
        else (.error (.unexpectedIdentifier t), s)
      | Option.none => (.error (.unexpectedIdentifier t), s)
    else if t.type = .EOF then
      (.ok Option.none, s)
    else (.error (.unexpectedToken t), s)

/-- `Parser.parse_var_declaration`. -/
def parse_var_declaration : Nat → ParserState → Except ParserError Stmt × ParserState
  | 0, s => (.error .outOfFuel, s)
  | f + 1, s =>
    match pExpect .BOX s with
    | (.error e, s') => (.error e, s')
    | (.ok box, s1) =>
      match pExpect .IDENTIFIER s1 with
      | (.error e, s') => (.error e, s')
      | (.ok idt, s2) =>
        match pExpect .PAWS s2 with
        | (.error e, s') => (.error e, s')
        | (.ok _, s3) =>
          match parse_expression f s3 with
          | (.error e, s') => (.error e, s')
          | (.ok v, s4) =>
            (.ok (.varDecl idt.value.asString v box.line box.column), s4)

/-- `Parser.parse_assignment`. -/
def parse_assignment : Nat → ParserState → Except ParserError Stmt × ParserState
  | 0, s => (.error .outOfFuel, s)
  | f + 1, s =>
    match pExpect .IDENTIFIER s with
    | (.error e, s') => (.error e, s')
    | (.ok idt, s1) =>
      match pExpect .PAWS s1 with
      | (.error e, s') => (.error e, s')
      | (.ok _, s2) =>
        match parse_expression f s2 with
        | (.error e, s') => (.error e, s')
        | (.ok v, s3) =>
          (.ok (.assign idt.value.asString v idt.line idt.column), s3)

/-- `Parser.parse_function_def`. -/
def parse_function_def : Nat → ParserState → Except ParserError Stmt × ParserState
  | 0, s => (.error .outOfFuel, s)
  | f + 1, s =>
    match pExpect .HUNT s with
    | (.error e, s') => (.error e, s')
    | (.ok hunt, s1) =>
      match pExpect .IDENTIFIER s1 with
      | (.error e, s') => (.error e, s')
      | (.ok nameTok, s2) =>
        match pExpect .LPAREN s2 with
        | (.error e, s') => (.error e, s')
        | (.ok _, s3) =>
          match parse_param_list f s3 with
          | (.error e, s') => (.error e, s')
          | (.ok ps, s4) =>
            match pExpect .RPAREN s4 with
            | (.error e, s') => (.error e, s')
            | (.ok _, s5) =>
              match pExpect .LBRACE s5 with
              | (.error e, s') => (.error e, s')
              | (.ok _, s6) =>
                match parse_statement_list f s6 with
                | (.error e, s') => (.error e, s')
                | (.ok body, s7) =>
                  match pExpect .RBRACE s7 with
                  | (.error e, s') => (.error e, s')
                  | (.ok _, s8) =>
                    (.ok (.funcDef nameTok.value.asString ps body hunt.line hunt.column), s8)

/-- `Parser.parse_param_list`. -/
def parse_param_list : Nat → ParserState → Except ParserError (List String) × ParserState
  | 0, s => (.error .outOfFuel, s)
  | f + 1, s =>
    let t := pCur s
    if t.type = .IDENTIFIER then
      parse_param_list_loop f [t.value.asString] (pAdvance s)
    else (.ok [], s)

/-- The `while self.match(COMMA)` loop of `parse_param_list`. -/
def parse_param_list_loop :
    Nat → List String → ParserState → Except ParserError (List String) × ParserState
  | 0, _, s => (.error .outOfFuel, s)
  | f + 1, acc, s =>
    let t := pCur s
    if t.type = .COMMA then
      match pExpect .IDENTIFIER (pAdvance s) with
      | (.error e, s') => (.error e, s')
      | (.ok p, s1) => parse_param_list_loop f (acc ++ [p.value.asString]) s1
    else (.ok acc, s)

/-- `Parser.parse_if_statement`. -/
def parse_if_statement : Nat → ParserState → Except ParserError Stmt × ParserState
  | 0, s => (.error .outOfFuel, s)
  | f + 1, s =>
    match pExpect .PURR s with
    | (.error e, s') => (.error e, s')
    | (.ok purr, s1) =>
      match pExpect .LPAREN s1 with
      | (.error e, s') => (.error e, s')
      | (.ok _, s2) =>
        match parse_expression f s2 with
        | (.error e, s') => (.error e, s')
        | (.ok cond, s3) =>
          match pExpect .RPAREN s3 with
          | (.error e, s') => (.error e, s')
          | (.ok _, s4) =>
            match pExpect .LBRACE s4 with
            | (.error e, s') => (.error e, s')
            | (.ok _, s5) =>
              match parse_statement_list f s5 with
              | (.error e, s') => (.error e, s')
              | (.ok thenB, s6) =>
                match pExpect .RBRACE s6 with
                | (.error e, s') => (.error e, s')
                | (.ok _, s7) =>
                  let t := pCur s7
                  if t.type = .HISS then
                    match pExpect .LBRACE (pAdvance s7) with
                    | (.error e, s') => (.error e, s')
                    | (.ok _, s8) =>
                      match parse_statement_list f s8 with
                      | (.error e, s') => (.error e, s')
                      | (.ok elseB, s9) =>
                        match pExpect .RBRACE s9 with
                        | (.error e, s') => (.error e, s')
                        | (.ok _, s10) =>
                          (.ok (.ifStmt cond thenB (some elseB) purr.line purr.column), s10)
                  else
                    (.ok (.ifStmt cond thenB Option.none purr.line purr.column), s7)

/-- `Parser.parse_while_loop`. -/
def parse_while_loop : Nat → ParserState → Except ParserError Stmt × ParserState
  | 0, s => (.error .outOfFuel, s)
  | f + 1, s =>
    match pExpect .CHASE s with
    | (.error e, s') => (.error e, s')
    | (.ok chase, s1) =>
      match pExpect .LPAREN s1 with
      | (.error e, s') => (.error e, s')
      | (.ok _, s2) =>
        match parse_expression f s2 with
        | (.error e, s') => (.error e, s')
        | (.ok cond, s3) =>
          match pExpect .RPAREN s3 with
          | (.error e, s') => (.error e, s')
          | (.ok _, s4) =>
            match pExpect .LBRACE s4 with
            | (.error e, s') => (.error e, s')
            | (.ok _, s5) =>
              match parse_statement_list f s5 with
              | (.error e, s') => (.error e, s')
              | (.ok body, s6) =>
                match pExpect .RBRACE s6 with
                | (.error e, s') => (.error e, s')
                | (.ok _, s7) =>
                  (.ok (.whileLoop cond body chase.line chase.column), s7)

/-- `Parser.parse_return_statement`. -/
def parse_return_statement : Nat → ParserState → Except ParserError Stmt × ParserState
  | 0, s => (.error .outOfFuel, s)
  | f + 1, s =>
    match pExpect .BRING s with
    | (.error e, s') => (.error e, s')
    | (.ok bring, s1) =>
      match parse_expression f s1 with
      | (.error e, s') => (.error e, s')
      | (.ok v, s2) => (.ok (.ret v bring.line bring.column), s2)

/-- `Parser.parse_print_statement`. -/
def parse_print_statement : Nat → ParserState → Except ParserError Stmt × ParserState
  | 0, s => (.error .outOfFuel, s)
  | f + 1, s =>
    match pExpect .MEOW s with
    | (.error e, s') => (.error e, s')
    | (.ok meow, s1) =>
      match pExpect .LPAREN s1 with
      | (.error e, s') => (.error e, s')
      | (.ok _, s2) =>
        match parse_expression f s2 with
        | (.error e, s') => (.error e, s')
        | (.ok v, s3) =>
          match pExpect .RPAREN s3 with
          | (.error e, s') => (.error e, s')
          | (.ok _, s4) => (.ok (.printStmt v meow.line meow.column), s4)

/-- `Parser.parse_expression`. -/
def parse_expression : Nat → ParserState → Except ParserError Expr × ParserState
  | 0, s => (.error .outOfFuel, s)
  | f + 1, s => parse_logical_or f s

/-- `Parser.parse_logical_or`. -/
def parse_logical_or : Nat → ParserState → Except ParserError Expr × ParserState
  | 0, s => (.error .outOfFuel, s)
  | f + 1, s =>
    match parse_logical_and f s with
    | (.error e, s') => (.error e, s')
    | (.ok left, s1) => parse_logical_or_loop f left s1

def parse_logical_or_loop :
    Nat → Expr → ParserState → Except ParserError Expr × ParserState
  | 0, _, s => (.error .outOfFuel, s)
  | f + 1, left, s =>
    let t := pCur s
    if t.type = .OR then
      match parse_logical_and f (pAdvance s) with
      | (.error e, s') => (.error e, s')
      | (.ok right, s1) =>
        parse_logical_or_loop f (.binary .lor left right t.line t.column) s1
    else (.ok left, s)

/-- `Parser.parse_logical_and`. -/
def parse_logical_and : Nat → ParserState → Except ParserError Expr × ParserState
  | 0, s => (.error .outOfFuel, s)
  | f + 1, s =>
    match parse_equality f s with
    | (.error e, s') => (.error e, s')
    | (.ok left, s1) => parse_logical_and_loop f left s1

def parse_logical_and_loop :
    Nat → Expr → ParserState → Except ParserError Expr × ParserState
  | 0, _, s => (.error .outOfFuel, s)
  | f + 1, left, s =>
    let t := pCur s
    if t.type = .AND then
      match parse_equality f (pAdvance s) with
      | (.error e, s') => (.error e, s')
      | (.ok right, s1) =>
        parse_logical_and_loop f (.binary .land left right t.line t.column) s1
    else (.ok left, s)

/-- `Parser.parse_equality`. -/
def parse_equality : Nat → ParserState → Except ParserError Expr × ParserState
  | 0, s => (.error .outOfFuel, s)
  | f + 1, s =>
    match parse_comparison f s with
    | (.error e, s') => (.error e, s')
    | (.ok left, s1) => parse_equality_loop f left s1

def parse_equality_loop :
    Nat → Expr → ParserState → Except ParserError Expr × ParserState
  | 0, _, s => (.error .outOfFuel, s)
  | f + 1, left, s =>
    let t := pCur s
    if t.type = .EQUAL ∨ t.type = .NOT_EQUAL then
      let op : BinOp := if t.type = .EQUAL then .eq else .ne
      match parse_comparison f (pAdvance s) with
      | (.error e, s') => (.error e, s')
      | (.ok right, s1) =>
        parse_equality_loop f (.binary op left right t.line t.column) s1
    else (.ok left, s)

/-- `Parser.parse_comparison`. -/
def parse_comparison : Nat → ParserState → Except ParserError Expr × ParserState
  | 0, s => (.error .outOfFuel, s)
  | f + 1, s =>
    match parse_addition f s with
    | (.error e, s') => (.error e, s')
    | (.ok left, s1) => parse_comparison_loop f left s1

def parse_comparison_loop :
    Nat → Expr → ParserState → Except ParserError Expr × ParserState
  | 0, _, s => (.error .outOfFuel, s)
  | f + 1, left, s =>
    let t := pCur s
    if t.type = .LESS ∨ t.type = .GREATER ∨ t.type = .LESS_EQUAL ∨
        t.type = .GREATER_EQUAL then
      let op : BinOp :=
        if t.type = .LESS then .lt
        else if t.type = .GREATER then .gt
        else if t.type = .LESS_EQUAL then .le
        else .ge
      match parse_addition f (pAdvance s) with
      | (.error e, s') => (.error e, s')
      | (.ok right, s1) =>
        parse_comparison_loop f (.binary op left right t.line t.column) s1
    else (.ok left, s)

/-- `Parser.parse_addition`. -/
def parse_addition : Nat → ParserState → Except ParserError Expr × ParserState
  | 0, s => (.error .outOfFuel, s)
  | f + 1, s =>
    match parse_multiplication f s with
    | (.error e, s') => (.error e, s')
    | (.ok left, s1) => parse_addition_loop f left s1

def parse_addition_loop :
    Nat → Expr → ParserState → Except ParserError Expr × ParserState
  | 0, _, s => (.error .outOfFuel, s)
  | f + 1, left, s =>
    let t := pCur s
    if t.type = .PLUS ∨ t.type = .MINUS then
      let op : BinOp := if t.type = .PLUS then .add else .sub
      match parse_multiplication f (pAdvance s) with
      | (.error e, s') => (.error e, s')
      | (.ok right, s1) =>
        parse_addition_loop f (.binary op left right t.line t.column) s1
    else (.ok left, s)

/-- `Parser.parse_multiplication`. -/
def parse_multiplication : Nat → ParserState → Except ParserError Expr × ParserState
  | 0, s => (.error .outOfFuel, s)
  | f + 1, s =>
    match parse_unary f s with
    | (.error e, s') => (.error e, s')
    | (.ok left, s1) => parse_multiplication_loop f left s1

def parse_multiplication_loop :
    Nat → Expr → ParserState → Except ParserError Expr × ParserState
  | 0, _, s => (.error .outOfFuel, s)
  | f + 1, left, s =>
    let t := pCur s
    if t.type = .MULTIPLY ∨ t.type = .DIVIDE ∨ t.type = .MODULO then
      let op : BinOp :=
        if t.type = .MULTIPLY then .mul
        else if t.type = .DIVIDE then .div
        else .mod
      match parse_unary f (pAdvance s) with
      | (.error e, s') => (.error e, s')
      | (.ok right, s1) =>
        parse_multiplication_loop f (.binary op left right t.line t.column) s1
    else (.ok left, s)

/-- `Parser.parse_unary`. -/
def parse_unary : Nat → ParserState → Except ParserError Expr × ParserState
  | 0, s => (.error .outOfFuel, s)
  | f + 1, s =>
    let t := pCur s
    if t.type = .NOT ∨ t.type = .MINUS then
      let op : UnOp := if t.type = .NOT then .bang else .neg
      match parse_unary f (pAdvance s) with
      | (.error e, s') => (.error e, s')
      | (.ok operand, s1) => (.ok (.unary op operand t.line t.column), s1)
    else parse_primary f s

/-- `Parser.parse_primary`. -/
def parse_primary : Nat → ParserState → Except ParserError Expr × ParserState
  | 0, s => (.error .outOfFuel, s)
  | f + 1, s =>
    let t := pCur s
    if t.type = .INTEGER then
      (.ok (.intLit t.value.asNat t.line t.column), pAdvance s)
    else if t.type = .FLOAT then
      (.ok (.floatLit t.value.asFloatParts.1 t.value.asFloatParts.2 t.line t.column),
        pAdvance s)
    else if t.type = .STRING then
      (.ok (.strLit t.value.asString t.line t.column), pAdvance s)
    else if t.type = .IDENTIFIER then
      match pPeek s with
      | some pt =>
        if pt.type = .LPAREN then
          match parse_function_call f s with
          | (.error e, s') => (.error e, s')
          | (.ok (name, args, l, co), s') => (.ok (.call name args l co), s')
        else (.ok (.ident t.value.asString t.line t.column), pAdvance s)
      | Option.none => (.ok (.ident t.value.asString t.line t.column), pAdvance s)
    else if t.type = .LPAREN then
      match parse_expression f (pAdvance s) with
      | (.error e, s') => (.error e, s')
      | (.ok e, s1) =>
        match pExpect .RPAREN s1 with
        | (.error e', s') => (.error e', s')
        | (.ok _, s2) => (.ok e, s2)
    else (.error (.unexpectedExprToken t), s)

/-- `Parser.parse_function_call` (returning the fields of the
`FunctionCallNode`). -/
def parse_function_call :
    Nat → ParserState → Except ParserError (String × List Expr × Nat × Nat) × ParserState
  | 0, s => (.error .outOfFuel, s)
  | f + 1, s =>
    match pExpect .IDENTIFIER s with
    | (.error e, s') => (.error e, s')
    | (.ok nameTok, s1) =>
      match pExpect .LPAREN s1 with
      | (.error e, s') => (.error e, s')
      | (.ok _, s2) =>
        match parse_arg_list f s2 with
        | (.error e, s') => (.error e, s')
        | (.ok args, s3) =>
          match pExpect .RPAREN s3 with
          | (.error e, s') => (.error e, s')
          | (.ok _, s4) =>
            (.ok (nameTok.value.asString, args, nameTok.line, nameTok.column), s4)

/-- `Parser.parse_arg_list`. -/
def parse_arg_list : Nat → ParserState → Except ParserError (List Expr) × ParserState
  | 0, s => (.error .outOfFuel, s)
  | f + 1, s =>
    let t := pCur s
    if t.type = .RPAREN then (.ok [], s)
    else
      match parse_expression f s with
      | (.error e, s') => (.error e, s')
      | (.ok first, s1) => parse_arg_list_loop f [first] s1

def parse_arg_list_loop :
    Nat → List Expr → ParserState → Except ParserError (List Expr) × ParserState
  | 0, _, s => (.error .outOfFuel, s)
  | f + 1, acc, s =>
    let t := pCur s
    if t.type = .COMMA then
      match parse_expression f (pAdvance s) with
      | (.error e, s') => (.error e, s')
      | (.ok e, s1) => parse_arg_list_loop f (acc ++ [e]) s1
    else (.ok acc, s)

end

/-- `Parser.parse_program`. -/
def parse_program (fuel : Nat) (s : ParserState) :
    Except ParserError Program × ParserState :=
  match pExpect .WAKE s with
  | (.error e, s') => (.error e, s')
  | (.ok wake, s1) =>
    match parse_statement_list fuel s1 with
    | (.error e, s') => (.error e, s')
    | (.ok stmts, s2) =>
      match pExpect .SLEEP s2 with
      | (.error e, s') => (.error e, s')
      | (.ok _, s3) =>
        match pExpect .EOF s3 with
        | (.error e, s') => (.error e, s')
        | (.ok _, s4) => (.ok ⟨stmts, wake.line, wake.column⟩, s4)

/-- `Parser.parse` started on `Parser(tokens)` (the Python `parse` wrapper
only re-prints a raised error and re-raises it). -/
def parseTokens (fuel : Nat) (ts : List Token) : Except ParserError Program :=
  (parse_program fuel ⟨ts, 0⟩).1

/-! ## Semantic analyzer (src/semantic.py)

The analyzer is a state-passing walk over the AST.  The state mirrors the
fields of the Python `SemanticAnalyzer` object: the scoped symbol table, the
ordered error list, and the current-function tracking.  Diagnostics are kept
structured (constructor per `add_error` call site) instead of as the
formatted message strings; each constructor carries exactly the data Python
interpolates into the message plus the reported line/column. -/

inductive DataType where
  | TREATS | WHISKERS | YARN | VOID | UNKNOWN
deriving DecidableEq

/-- `Symbol` (dataclass).  `parameters` is `some` iff the Python field is a
list (`None` for plain variables). -/
structure Symbol where
  name : String
  data_type : DataType
  scope_level : Nat
  is_function : Bool
  parameters : Option (List String)
  line : Nat
  column : Nat
deriving DecidableEq

/-- `SymbolTable`: the stack of scope frames plus the `current_scope` index.
A frame models a Python dict keyed by symbol name (insertion order kept,
names unique by construction through `declare`). -/
structure SymbolTable where
  scopes : List (List Symbol)
  current_scope : Nat
deriving DecidableEq

/-- A fresh `SymbolTable()`: one empty frame, `current_scope = 0`. -/
def initSymbolTable : SymbolTable := ⟨[[]], 0⟩

/-- `SymbolTable.enter_scope`. -/
def SymbolTable.enter_scope (t : SymbolTable) : SymbolTable :=
  ⟨t.scopes ++ [[]], t.current_scope + 1⟩

/-- `SymbolTable.exit_scope`: pops only under the `current_scope > 0` guard;
otherwise it returns with the table unchanged (no exception is raised). -/
def SymbolTable.exit_scope (t : SymbolTable) : SymbolTable :=
  if t.current_scope > 0 then ⟨t.scopes.dropLast, t.current_scope - 1⟩ else t

/-- Structured semantic diagnostics, one constructor per `SemanticError`
raise/`add_error` site of the source, carrying the data its message
interpolates and the reported position. -/
inductive SemErr where
  | alreadyDeclared (name : String) (prevLine : Nat) (line col : Nat)
  | undeclaredVar (name : String) (line col : Nat)
  | assignToFunction (name : String) (line col : Nat)
  | typeMismatchAssign (target value : DataType) (line col : Nat)
  | returnOutsideFunction (line col : Nat)
  | inconsistentReturn (expected got : DataType) (line col : Nat)
  | binTypeError (op : BinOp) (left right : DataType) (line col : Nat)
  | cmpTypeError (op : BinOp) (left right : DataType) (line col : Nat)
  | unaryTypeError (op : UnOp) (operand : DataType) (line col : Nat)
  | useFunctionAsVar (name : String) (line col : Nat)
  | undeclaredFunction (name : String) (line col : Nat)
  | notAFunction (name : String) (line col : Nat)
  | argCountMismatch (name : String) (expected got : Nat) (line col : Nat)
deriving DecidableEq

/-- Name lookup in a single frame (`name in scopes[i]` / `scopes[i][name]`). -/
def frameFind (fr : List Symbol) (name : String) : Option Symbol :=
  fr.find? (fun sy => sy.name == name)

/-- The frame at index `i` (Python indexes `self.scopes[i]`; all reachable
states have `current_scope = len(scopes) - 1`, where the default `[]` is
never used). -/
def frameAt (t : SymbolTable) (i : Nat) : List Symbol :=
  t.scopes.getD i []

/-- `SymbolTable.declare`: raises on a name collision in the current frame,
otherwise inserts into it. -/
def SymbolTable.declare (t : SymbolTable) (sym : Symbol) : Except SemErr SymbolTable :=
  match frameFind (frameAt t t.current_scope) sym.name with
  | some existing => .error (.alreadyDeclared sym.name existing.line sym.line sym.column)
  | Option.none =>
    .ok { t with scopes := t.scopes.set t.current_scope (frameAt t t.current_scope ++ [sym]) }

/-- The scan of `SymbolTable.lookup`: frames `i, i-1, …, 0`. -/
def lookupAux (scopes : List (List Symbol)) (name : String) : Nat → Option Symbol
  | 0 => frameFind (scopes.getD 0 []) name
  | i + 1 =>
    match frameFind (scopes.getD (i + 1) []) name with
    | some sy => some sy
    | Option.none => lookupAux scopes name i

/-- `SymbolTable.lookup`. -/
def SymbolTable.lookup (t : SymbolTable) (name : String) : Option Symbol :=
  lookupAux t.scopes name t.current_scope

/-- Replace the type of `name` in one frame (its names are unique). -/
def frameUpdate (fr : List Symbol) (name : String) (dt : DataType) : List Symbol :=
  fr.map (fun sy => if sy.name == name then { sy with data_type := dt } else sy)

def symbolAssignTypeAux (scopes : List (List Symbol)) (name : String) (dt : DataType) :
    Nat → List (List Symbol)
  | 0 =>
    if (frameFind (scopes.getD 0 []) name).isSome then
      scopes.set 0 (frameUpdate (scopes.getD 0 []) name dt)
    else scopes
  | i + 1 =>
    if (frameFind (scopes.getD (i + 1) []) name).isSome then
      scopes.set (i + 1) (frameUpdate (scopes.getD (i + 1) []) name dt)
    else symbolAssignTypeAux scopes name dt i

/-- Models the in-place mutation `symbol.data_type = return_type` performed
by `visit_return_statement` on the object returned by `lookup`: the innermost
frame holding `name` gets the updated symbol. -/
def symbolAssignType (t : SymbolTable) (name : String) (dt : DataType) : SymbolTable :=
  { t with scopes := symbolAssignTypeAux t.scopes name dt t.current_scope }

/-- The state of a `SemanticAnalyzer` object. -/
structure SemanticAnalyzer where
  symbol_table : SymbolTable
  errors : List SemErr
  current_function : Option String
  in_function : Bool
deriving DecidableEq

/-- A fresh `SemanticAnalyzer()`. -/
def initAnalyzer : SemanticAnalyzer := ⟨initSymbolTable, [], Option.none, false⟩

/-- `SemanticAnalyzer.add_error`. -/
def addError (st : SemanticAnalyzer) (e : SemErr) : SemanticAnalyzer :=
  { st with errors := st.errors ++ [e] }

/-- `SemanticAnalyzer.are_types_compatible`. -/
def are_types_compatible (t1 t2 : DataType) : Bool :=
  if t1 = t2 then true
  else if (t1 = .TREATS ∨ t1 = .WHISKERS) ∧ (t2 = .TREATS ∨ t2 = .WHISKERS) then true
  else false

/-- Membership of `[DataType.TREATS, DataType.WHISKERS]` used all over the
analyzer. -/
def isNumericType : DataType → Bool
  | .TREATS => true
  | .WHISKERS => true
  | _ => false

/-- `SemanticAnalyzer.visit_identifier`. -/
def visit_identifier (st : SemanticAnalyzer) (name : String) (l c : Nat) :
    DataType × SemanticAnalyzer :=
  match st.symbol_table.lookup name with
  | Option.none => (.UNKNOWN, addError st (.undeclaredVar name l c))
  | some sy =>
    if sy.is_function then (.UNKNOWN, addError st (.useFunctionAsVar name l c))
    else (sy.data_type, st)

mutual

/-- `SemanticAnalyzer.visit_expression`.  The bodies of the per-node-class
methods `visit_binary_op`, `visit_unary_op` and `visit_function_call` are
inlined into their dispatch branches so that the recursion is structural
(hence computable by the kernel); the standalone definitions of those
methods below are definitionally equal to the corresponding branches (see
`visit_expression_binary_def` and friends). -/
def visit_expression : SemanticAnalyzer → Expr → DataType × SemanticAnalyzer
  | st, .binary op a b l c =>
    (match visit_expression st a with
     | (lt, st1) =>
       match visit_expression st1 b with
       | (rt, st2) =>
         if op = .add ∨ op = .sub ∨ op = .mul ∨ op = .div ∨ op = .mod then
           if op = .add ∧ (lt = .YARN ∨ rt = .YARN) then (.YARN, st2)
           else if isNumericType lt && isNumericType rt then
             if op = .div then (.WHISKERS, st2)
             else if lt = .WHISKERS ∨ rt = .WHISKERS then (.WHISKERS, st2)
             else (.TREATS, st2)
           else if lt ≠ .UNKNOWN ∧ rt ≠ .UNKNOWN then
             (.UNKNOWN, addError st2 (.binTypeError op lt rt l c))
           else (.UNKNOWN, st2)
         else if op = .eq ∨ op = .ne ∨ op = .lt ∨ op = .gt ∨ op = .le ∨ op = .ge then
           if lt = rt then (.TREATS, st2)
           else if isNumericType lt && isNumericType rt then (.TREATS, st2)
           else if lt ≠ .UNKNOWN ∧ rt ≠ .UNKNOWN then
             (.TREATS, addError st2 (.cmpTypeError op lt rt l c))
           else (.TREATS, st2)
         else (.TREATS, st2))
  | st, .unary op e l c =>
    (match visit_expression st e with
     | (ot, st1) =>
       match op with
       | .bang => (.TREATS, st1)
       | .neg =>
         if isNumericType ot then (ot, st1)
         else if ot ≠ .UNKNOWN then (.UNKNOWN, addError st1 (.unaryTypeError op ot l c))
         else (.UNKNOWN, st1))
  | st, .intLit _ _ _ => (.TREATS, st)
  | st, .floatLit _ _ _ _ => (.WHISKERS, st)
  | st, .strLit _ _ _ => (.YARN, st)
  | st, .ident name l c => visit_identifier st name l c
  | st, .call name args l c =>
    (match st.symbol_table.lookup name with
     | Option.none => (.UNKNOWN, addError st (.undeclaredFunction name l c))
     | some sy =>
       if !sy.is_function then (.UNKNOWN, addError st (.notAFunction name l c))
       else
         let expected := (sy.parameters.getD []).length
         let actual := args.length
         let st1 :=
           if expected ≠ actual then addError st (.argCountMismatch name expected actual l c)
           else st
         (sy.data_type, visit_expression_list st1 args))

/-- The argument loop of `visit_function_call` (types are discarded). -/
def visit_expression_list : SemanticAnalyzer → List Expr → SemanticAnalyzer
  | st, [] => st
  | st, e :: es => visit_expression_list (visit_expression st e).2 es

end

/-- `SemanticAnalyzer.visit_binary_op`.  The operator tests follow the
source: arithmetic, then comparison, then logical (the enumeration is
closed, so the logical branch is the residue). -/
def visit_binary_op (st : SemanticAnalyzer) (op : BinOp) (a b : Expr) (l c : Nat) :
    DataType × SemanticAnalyzer :=
  match visit_expression st a with
  | (lt, st1) =>
    match visit_expression st1 b with
    | (rt, st2) =>
      if op = .add ∨ op = .sub ∨ op = .mul ∨ op = .div ∨ op = .mod then
        if op = .add ∧ (lt = .YARN ∨ rt = .YARN) then (.YARN, st2)
        else if isNumericType lt && isNumericType rt then
          if op = .div then (.WHISKERS, st2)
          else if lt = .WHISKERS ∨ rt = .WHISKERS then (.WHISKERS, st2)
          else (.TREATS, st2)
        else if lt ≠ .UNKNOWN ∧ rt ≠ .UNKNOWN then
          (.UNKNOWN, addError st2 (.binTypeError op lt rt l c))
        else (.UNKNOWN, st2)
      else if op = .eq ∨ op = .ne ∨ op = .lt ∨ op = .gt ∨ op = .le ∨ op = .ge then
        if lt = rt then (.TREATS, st2)
        else if isNumericType lt && isNumericType rt then (.TREATS, st2)
        else if lt ≠ .UNKNOWN ∧ rt ≠ .UNKNOWN then
          (.TREATS, addError st2 (.cmpTypeError op lt rt l c))
        else (.TREATS, st2)
      else (.TREATS, st2)

/-- `SemanticAnalyzer.visit_unary_op`. -/
def visit_unary_op (st : SemanticAnalyzer) (op : UnOp) (e : Expr) (l c : Nat) :
    DataType × SemanticAnalyzer :=
  match visit_expression st e with
  | (ot, st1) =>
    match op with
    | .bang => (.TREATS, st1)
    | .neg =>
      if isNumericType ot then (ot, st1)
      else if ot ≠ .UNKNOWN then (.UNKNOWN, addError st1 (.unaryTypeError op ot l c))
      else (.UNKNOWN, st1)

/-- `SemanticAnalyzer.visit_function_call`.  Note that
`len(symbol.parameters) if symbol.parameters else 0` equals the length for
both `None` and `[]`. -/
def visit_function_call (st : SemanticAnalyzer) (name : String) (args : List Expr)
    (l c : Nat) : DataType × SemanticAnalyzer :=
  match st.symbol_table.lookup name with
  | Option.none => (.UNKNOWN, addError st (.undeclaredFunction name l c))
  | some sy =>
    if !sy.is_function then (.UNKNOWN, addError st (.notAFunction name l c))
    else
      let expected := (sy.parameters.getD []).length
      let actual := args.length
      let st1 :=
        if expected ≠ actual then addError st (.argCountMismatch name expected actual l c)
        else st
      (sy.data_type, visit_expression_list st1 args)

/-- `SemanticAnalyzer.visit_var_declaration`. -/
def visit_var_declaration (st : SemanticAnalyzer) (name : String) (value : Expr)
    (l c : Nat) : SemanticAnalyzer :=
  match visit_expression st value with
  | (vt, st1) =>
    let sym : Symbol :=
      ⟨name, vt, st1.symbol_table.current_scope, false, Option.none, l, c⟩
    match st1.symbol_table.declare sym with
    | .ok tbl => { st1 with symbol_table := tbl }
    | .error e => addError st1 e

/-- `SemanticAnalyzer.visit_assignment`. -/
def visit_assignment (st : SemanticAnalyzer) (name : String) (value : Expr)
    (l c : Nat) : SemanticAnalyzer :=
  match st.symbol_table.lookup name with
  | Option.none => addError st (.undeclaredVar name l c)
  | some sy =>
    if sy.is_function then addError st (.assignToFunction name l c)
    else
      match visit_expression st value with
      | (vt, st1) =>
        if sy.data_type ≠ .UNKNOWN ∧ vt ≠ .UNKNOWN then
          if !are_types_compatible sy.data_type vt then
            addError st1 (.typeMismatchAssign sy.data_type vt l c)
          else st1
        else st1

/-- The parameter-declaration loop of `visit_function_def` (each parameter
declared with type `UNKNOWN` at the function node's coordinates, collisions
recorded and skipped). -/
def declare_params (st : SemanticAnalyzer) (l c : Nat) :
    List String → SemanticAnalyzer
  | [] => st
  | p :: ps =>
    let sym : Symbol :=
      ⟨p, .UNKNOWN, st.symbol_table.current_scope, false, Option.none, l, c⟩
    match st.symbol_table.declare sym with
    | .ok tbl => declare_params { st with symbol_table := tbl } l c ps
    | .error e => declare_params (addError st e) l c ps

/-- `SemanticAnalyzer.visit_return_statement`. -/
def visit_return_statement (st : SemanticAnalyzer) (value : Expr) (l c : Nat) :
    SemanticAnalyzer :=
  if !st.in_function then addError st (.returnOutsideFunction l c)
  else
    match visit_expression st value with
    | (rt, st1) =>
      match st1.current_function with
      | Option.none => st1
      | some f =>
        match st1.symbol_table.lookup f with
        | Option.none => st1
        | some sy =>
          if sy.data_type = .UNKNOWN then
            { st1 with symbol_table := symbolAssignType st1.symbol_table f rt }
          else if sy.data_type ≠ rt then
            if !are_types_compatible sy.data_type rt then
              addError st1 (.inconsistentReturn sy.data_type rt l c)
            else st1
          else st1

mutual

/-- `SemanticAnalyzer.visit_statement` (dispatch on the node class).  As with
`visit_expression`, the bodies of the recursive block methods
(`visit_function_def`, `visit_if_statement`, `visit_while_loop`) are inlined
into their branches so that the recursion is structural; the standalone
definitions below are definitionally equal to the branches. -/
def visit_statement : SemanticAnalyzer → Stmt → SemanticAnalyzer
  | st, .varDecl name value l c => visit_var_declaration st name value l c
  | st, .assign name value l c => visit_assignment st name value l c
  | st, .funcDef name params body l c =>
    (let sym : Symbol :=
      ⟨name, .UNKNOWN, st.symbol_table.current_scope, true, some params, l, c⟩
    match st.symbol_table.declare sym with
    | .error e => addError st e
    | .ok tbl =>
      let st1 := { st with symbol_table := tbl.enter_scope }
      let oldF := st1.current_function
      let oldIn := st1.in_function
      let st2 := { st1 with current_function := some name, in_function := true }
      let st3 := declare_params st2 l c params
      let st4 := visit_statement_list st3 body
      { st4 with symbol_table := st4.symbol_table.exit_scope,
                 current_function := oldF, in_function := oldIn })
  | st, .ifStmt cond thenB elseB _ _ =>
    (match visit_expression st cond with
     | (_, st1) =>
       let st2 := { st1 with symbol_table := st1.symbol_table.enter_scope }
       let st3 := visit_statement_list st2 thenB
       let st4 := { st3 with symbol_table := st3.symbol_table.exit_scope }
       match elseB with
       | some es2 =>
         (match es2 with
          | [] => st4
          | _ :: _ =>
            let st5 := { st4 with symbol_table := st4.symbol_table.enter_scope }
            let st6 := visit_statement_list st5 es2
            { st6 with symbol_table := st6.symbol_table.exit_scope })
       | Option.none => st4)
  | st, .whileLoop cond body _ _ =>
    (match visit_expression st cond with
     | (_, st1) =>
       let st2 := { st1 with symbol_table := st1.symbol_table.enter_scope }
       let st3 := visit_statement_list st2 body
       { st3 with symbol_table := st3.symbol_table.exit_scope })
  | st, .ret value l c => visit_return_statement st value l c
  | st, .printStmt value _ _ => (visit_expression st value).2
  | st, .callStmt name args l c => (visit_function_call st name args l c).2

/-- The statement loops of `visit_program` and of the block visitors. -/
def visit_statement_list : SemanticAnalyzer → List Stmt → SemanticAnalyzer
  | st, [] => st
  | st, s :: ss => visit_statement_list (visit_statement st s) ss

end

/-- `SemanticAnalyzer.visit_function_def`: on a redeclaration the method
records the error and returns before entering the scope. -/
def visit_function_def (st : SemanticAnalyzer) (name : String) (params : List String)
    (body : List Stmt) (l c : Nat) : SemanticAnalyzer :=
  let sym : Symbol :=
    ⟨name, .UNKNOWN, st.symbol_table.current_scope, true, some params, l, c⟩
  match st.symbol_table.declare sym with
  | .error e => addError st e
  | .ok tbl =>
    let st1 := { st with symbol_table := tbl.enter_scope }
    let oldF := st1.current_function
    let oldIn := st1.in_function
    let st2 := { st1 with current_function := some name, in_function := true }
    let st3 := declare_params st2 l c params
    let st4 := visit_statement_list st3 body
    { st4 with symbol_table := st4.symbol_table.exit_scope,
               current_function := oldF, in_function := oldIn }

/-- `SemanticAnalyzer.visit_if_statement`.  `if node.else_block:` is Python
truthiness: `None` and `[]` both skip the else scope. -/
def visit_if_statement (st : SemanticAnalyzer) (cond : Expr) (thenB : List Stmt)
    (elseB : Option (List Stmt)) : SemanticAnalyzer :=
  match visit_expression st cond with
  | (_, st1) =>
    let st2 := { st1 with symbol_table := st1.symbol_table.enter_scope }
    let st3 := visit_statement_list st2 thenB
    let st4 := { st3 with symbol_table := st3.symbol_table.exit_scope }
    match elseB with
    | some es2 =>
      (match es2 with
       | [] => st4
       | _ :: _ =>
         let st5 := { st4 with symbol_table := st4.symbol_table.enter_scope }
         let st6 := visit_statement_list st5 es2
         { st6 with symbol_table := st6.symbol_table.exit_scope })
    | Option.none => st4

/-- `SemanticAnalyzer.visit_while_loop`. -/
def visit_while_loop (st : SemanticAnalyzer) (cond : Expr) (body : List Stmt) :
    SemanticAnalyzer :=
  match visit_expression st cond with
  | (_, st1) =>
    let st2 := { st1 with symbol_table := st1.symbol_table.enter_scope }
    let st3 := visit_statement_list st2 body
    { st3 with symbol_table := st3.symbol_table.exit_scope }

/-- `SemanticAnalyzer.visit_program`. -/
def visit_program (st : SemanticAnalyzer) (p : Program) : SemanticAnalyzer :=
  visit_statement_list st p.statements

/-- `SemanticAnalyzer.analyze` on a fresh analyzer: the final object state
after the walk (`analyze` then raises `self.errors[0]` iff the list is
non-empty, which is what the driver observes). -/
def analyze (p : Program) : SemanticAnalyzer :=
  visit_program initAnalyzer p

/-- Whether `analyze` succeeds (raises nothing): no accumulated diagnostics. -/
def semanticOk (p : Program) : Bool :=
  (analyze p).errors.isEmpty

/-! ## TAC generator (src/codegen.py)

The generator state mirrors the fields of the Python `CodeGenerator` object.
Operands are the strings Python computes: identifiers and function names
verbatim, `str(int)` for integer literals, quoted text for string literals,
`f"t{n}"` / `f"L{n}"` for temporaries and labels.  For a float literal we
render `ip.fr` from its digit groups, which stands in for Python's
`str(float)`; like the real rendering it always starts with a digit, which is
the only fact the claims use. -/

structure TACInstruction where
  operation : String
  arg1 : Option String
  arg2 : Option String
  result : Option String
deriving DecidableEq

structure CodeGenerator where
  instructions : List TACInstruction
  temp_counter : Nat
  label_counter : Nat
  current_function : Option String
deriving DecidableEq

/-- A fresh `CodeGenerator()`. -/
def initCodeGenerator : CodeGenerator := ⟨[], 0, 0, Option.none⟩

/-- `CodeGenerator.new_temp`. -/
def new_temp (cg : CodeGenerator) : String × CodeGenerator :=
  (tempName cg.temp_counter, { cg with temp_counter := cg.temp_counter + 1 })

/-- `CodeGenerator.new_label`. -/
def new_label (cg : CodeGenerator) : String × CodeGenerator :=
  (labelName cg.label_counter, { cg with label_counter := cg.label_counter + 1 })

/-- `CodeGenerator.emit`. -/
def emit (cg : CodeGenerator) (op : String) (a1 a2 res : Option String) : CodeGenerator :=
  { cg with instructions := cg.instructions ++ [⟨op, a1, a2, res⟩] }

/-- Rendering of a float literal operand (see the section comment). -/
def floatRender (ip fr : Nat) : String := Nat.repr ip ++ "." ++ Nat.repr fr

/-- Rendering of a string literal operand (`f'"{node.value}"'`). -/
def strRender (s : String) : String := "\"" ++ s ++ "\""

namespace Codegen

mutual

/-- `CodeGenerator.visit_expression`.  The bodies of `visit_binary_op`,
`visit_unary_op` and `visit_function_call` are inlined into their dispatch
branches so that the recursion is structural; the standalone definitions of
those methods below are definitionally equal to the branches.  (The
defensive `else` branch of the source, for unknown node classes, is
unreachable over the closed AST.) -/
def visit_expression : CodeGenerator → Expr → String × CodeGenerator
  | cg, .binary op a b _ _ =>
    (match visit_expression cg a with
     | (lt, cg1) =>
       match visit_expression cg1 b with
       | (rt, cg2) =>
         match new_temp cg2 with
         | (t, cg3) => (t, emit cg3 op.str (some lt) (some rt) (some t)))
  | cg, .unary op e _ _ =>
    (match visit_expression cg e with
     | (ot, cg1) =>
       match new_temp cg1 with
       | (t, cg2) => (t, emit cg2 op.str (some ot) Option.none (some t)))
  | cg, .intLit n _ _ => (Nat.repr n, cg)
  | cg, .floatLit ip fr _ _ => (floatRender ip fr, cg)
  | cg, .strLit s _ _ => (strRender s, cg)
  | cg, .ident name _ _ => (name, cg)
  | cg, .call name args _ _ =>
    (match visit_call_args cg args with
     | cg1 =>
       match new_temp cg1 with
       | (t, cg2) =>
         (t, emit cg2 "call" (some name) (some (Nat.repr args.length)) (some t)))

/-- The `for arg in node.arguments` loop of `visit_function_call`: lower each
argument, emit `param`. -/
def visit_call_args : CodeGenerator → List Expr → CodeGenerator
  | cg, [] => cg
  | cg, e :: es =>
    match visit_expression cg e with
    | (v, cg1) => visit_call_args (emit cg1 "param" (some v) Option.none Option.none) es

end

/-- `CodeGenerator.visit_binary_op`. -/
def visit_binary_op (cg : CodeGenerator) (op : BinOp) (a b : Expr) :
    String × CodeGenerator :=
  match visit_expression cg a with
  | (lt, cg1) =>
    match visit_expression cg1 b with
    | (rt, cg2) =>
      match new_temp cg2 with
      | (t, cg3) => (t, emit cg3 op.str (some lt) (some rt) (some t))

/-- `CodeGenerator.visit_unary_op`. -/
def visit_unary_op (cg : CodeGenerator) (op : UnOp) (e : Expr) :
    String × CodeGenerator :=
  match visit_expression cg e with
  | (ot, cg1) =>
    match new_temp cg1 with
    | (t, cg2) => (t, emit cg2 op.str (some ot) Option.none (some t))

/-- `CodeGenerator.visit_function_call`. -/
def visit_function_call (cg : CodeGenerator) (name : String) (args : List Expr) :
    String × CodeGenerator :=
  match visit_call_args cg args with
  | cg1 =>
    match new_temp cg1 with
    | (t, cg2) =>
      (t, emit cg2 "call" (some name) (some (Nat.repr args.length)) (some t))

/-- `CodeGenerator.visit_var_declaration`. -/
def visit_var_declaration (cg : CodeGenerator) (name : String) (value : Expr) :
    CodeGenerator :=
  match visit_expression cg value with
  | (v, cg1) => emit cg1 "=" (some v) Option.none (some name)

/-- `CodeGenerator.visit_assignment`. -/
def visit_assignment (cg : CodeGenerator) (name : String) (value : Expr) :
    CodeGenerator :=
  match visit_expression cg value with
  | (v, cg1) => emit cg1 "=" (some v) Option.none (some name)

/-- `CodeGenerator.visit_return_statement`. -/
def visit_return_statement (cg : CodeGenerator) (value : Expr) : CodeGenerator :=
  match visit_expression cg value with
  | (v, cg1) => emit cg1 "return" (some v) Option.none Option.none

/-- `CodeGenerator.visit_print_statement`. -/
def visit_print_statement (cg : CodeGenerator) (value : Expr) : CodeGenerator :=
  match visit_expression cg value with
  | (v, cg1) => emit cg1 "print" (some v) Option.none Option.none

mutual

/-- `CodeGenerator.visit_statement`.  The bodies of `visit_function_def`,
`visit_if_statement` and `visit_while_loop` are inlined into their branches
so that the recursion is structural; the standalone definitions below are
definitionally equal to the branches. -/
def visit_statement : CodeGenerator → Stmt → CodeGenerator
  | cg, .varDecl name value _ _ => visit_var_declaration cg name value
  | cg, .assign name value _ _ => visit_assignment cg name value
  | cg, .funcDef name _ body _ _ =>
    (let old := cg.current_function
     let cg1 := { cg with current_function := some name }
     let cg2 := emit cg1 "begin_func" (some name) Option.none Option.none
     let cg3 := visit_statement_list cg2 body
     let cg4 := emit cg3 "end_func" (some name) Option.none Option.none
     { cg4 with current_function := old })
  | cg, .ifStmt cond thenB elseB _ _ =>
    (match visit_expression cg cond with
     | (c, cg1) =>
       match elseB with
       | some es2 =>
         (match es2 with
          | [] =>
            (match new_label cg1 with
             | (endL, cg2) =>
               let cg3 := emit cg2 "if_false" (some c) Option.none (some endL)
               let cg4 := visit_statement_list cg3 thenB
               emit cg4 "label" Option.none Option.none (some endL))
          | _ :: _ =>
            (match new_label cg1 with
             | (elseL, cg2) =>
               match new_label cg2 with
               | (endL, cg3) =>
                 let cg4 := emit cg3 "if_false" (some c) Option.none (some elseL)
                 let cg5 := visit_statement_list cg4 thenB
                 let cg6 := emit cg5 "goto" Option.none Option.none (some endL)
                 let cg7 := emit cg6 "label" Option.none Option.none (some elseL)
                 let cg8 := visit_statement_list cg7 es2
                 emit cg8 "label" Option.none Option.none (some endL)))
       | Option.none =>
         (match new_label cg1 with
          | (endL, cg2) =>
            let cg3 := emit cg2 "if_false" (some c) Option.none (some endL)
            let cg4 := visit_statement_list cg3 thenB
            emit cg4 "label" Option.none Option.none (some endL)))
  | cg, .whileLoop cond body _ _ =>
    (match new_label cg with
     | (startL, cg1) =>
       match new_label cg1 with
       | (endL, cg2) =>
         let cg3 := emit cg2 "label" Option.none Option.none (some startL)
         match visit_expression cg3 cond with
         | (c, cg4) =>
           let cg5 := emit cg4 "if_false" (some c) Option.none (some endL)
           let cg6 := visit_statement_list cg5 body
           let cg7 := emit cg6 "goto" Option.none Option.none (some startL)
           emit cg7 "label" Option.none Option.none (some endL))
  | cg, .ret value _ _ => visit_return_statement cg value
  | cg, .printStmt value _ _ => visit_print_statement cg value
  | cg, .callStmt name args _ _ => (visit_function_call cg name args).2

/-- The statement loops of `visit_program` and of the block visitors. -/
def visit_statement_list : CodeGenerator → List Stmt → CodeGenerator
  | cg, [] => cg
  | cg, s :: ss => visit_statement_list (visit_statement cg s) ss

end

/-- `CodeGenerator.visit_function_def`. -/
def visit_function_def (cg : CodeGenerator) (name : String) (body : List Stmt) :
    CodeGenerator :=
  let old := cg.current_function
  let cg1 := { cg with current_function := some name }
  let cg2 := emit cg1 "begin_func" (some name) Option.none Option.none
  let cg3 := visit_statement_list cg2 body
  let cg4 := emit cg3 "end_func" (some name) Option.none Option.none
  { cg4 with current_function := old }

/-- `CodeGenerator.visit_if_statement`.  The condition is lowered first; the
labels are allocated afterwards, and `if node.else_block:` is Python
truthiness (an empty else list takes the no-else shape). -/
def visit_if_statement (cg : CodeGenerator) (cond : Expr) (thenB : List Stmt)
    (elseB : Option (List Stmt)) : CodeGenerator :=
  match visit_expression cg cond with
  | (c, cg1) =>
    match elseB with
    | some es2 =>
      (match es2 with
       | [] =>
         (match new_label cg1 with
          | (endL, cg2) =>
            let cg3 := emit cg2 "if_false" (some c) Option.none (some endL)
            let cg4 := visit_statement_list cg3 thenB
            emit cg4 "label" Option.none Option.none (some endL))
       | _ :: _ =>
         (match new_label cg1 with
          | (elseL, cg2) =>
            match new_label cg2 with
            | (endL, cg3) =>
              let cg4 := emit cg3 "if_false" (some c) Option.none (some elseL)
              let cg5 := visit_statement_list cg4 thenB
              let cg6 := emit cg5 "goto" Option.none Option.none (some endL)
              let cg7 := emit cg6 "label" Option.none Option.none (some elseL)
              let cg8 := visit_statement_list cg7 es2
              emit cg8 "label" Option.none Option.none (some endL)))
    | Option.none =>
      (match new_label cg1 with
       | (endL, cg2) =>
         let cg3 := emit cg2 "if_false" (some c) Option.none (some endL)
         let cg4 := visit_statement_list cg3 thenB
         emit cg4 "label" Option.none Option.none (some endL))

/-- `CodeGenerator.visit_while_loop` (labels first, then the condition). -/
def visit_while_loop (cg : CodeGenerator) (cond : Expr) (body : List Stmt) :
    CodeGenerator :=
  match new_label cg with
  | (startL, cg1) =>
    match new_label cg1 with
    | (endL, cg2) =>
      let cg3 := emit cg2 "label" Option.none Option.none (some startL)
      match visit_expression cg3 cond with
      | (c, cg4) =>
        let cg5 := emit cg4 "if_false" (some c) Option.none (some endL)
        let cg6 := visit_statement_list cg5 body
        let cg7 := emit cg6 "goto" Option.none Option.none (some startL)
        emit cg7 "label" Option.none Option.none (some endL)

/-- `CodeGenerator.visit_program`. -/
def visit_program (cg : CodeGenerator) (p : Program) : CodeGenerator :=
  visit_statement_list cg p.statements

end Codegen

/-- `CodeGenerator.generate` on a fresh generator. -/
def generate (p : Program) : List TACInstruction :=
  (Codegen.visit_program initCodeGenerator p).instructions

/-! ## Driver (src/main.py)

`MeowScriptCompiler.compile` runs the four phases and returns `True` only if
none raised; `main` exits with status 1 on `False` and 0 otherwise.  The
code-generation phase is total over the closed AST (its `except` is dead
code), so the outcome is decided by the first three phases. -/

/-- `MeowScriptCompiler.compile` on an already-lexed token stream (phases
2-4): `true` means exit status 0. -/
def compileTokens (fuel : Nat) (ts : List Token) : Bool :=
  match parseTokens fuel ts with
  | .error _ => false
  | .ok prog => semanticOk prog

/-- `MeowScriptCompiler.compile` from source text (all four phases). -/
def compileSource (fuel : Nat) (source : String) : Bool :=
  match tokenize fuel source with
  | .error _ => false
  | .ok ts => compileTokens fuel ts

/-- The full pipeline's TAC output on success (`none` when a phase fails). -/
def pipelineTAC (fuel : Nat) (source : String) : Option (List TACInstruction) :=
  match tokenize fuel source with
  | .error _ => Option.none
  | .ok ts =>
    match parseTokens fuel ts with
    | .error _ => Option.none
    | .ok prog => if semanticOk prog then some (generate prog) else Option.none

/-! ## Notions used by the stated properties -/

/-- An instruction uses `s` as an argument operand. -/
abbrev usesOperand (i : TACInstruction) (s : String) : Prop :=
  i.arg1 = some s ∨ i.arg2 = some s

/-- An instruction has `s` as its result. -/
abbrev definesOperand (i : TACInstruction) (s : String) : Prop :=
  i.result = some s

/-- Number of instructions of `l` whose result is `s`. -/
def resCount (l : List TACInstruction) (s : String) : Nat :=
  l.countP (fun i => i.result == some s)

/-- The temporary `tN` occurs in the sequence (as a result or an argument). -/
abbrev occursTemp (l : List TACInstruction) (n : Nat) : Prop :=
  ∃ i ∈ l, definesOperand i (tempName n) ∨ usesOperand i (tempName n)

/-- Number of `label` instructions of `l`. -/
def labelOpCount (l : List TACInstruction) : Nat :=
  l.countP (fun i => i.operation == "label")

/-- Number of `label` instructions of `l` whose destination is `s`. -/
def labelDefCount (l : List TACInstruction) (s : String) : Nat :=
  l.countP (fun i => i.operation == "label" && i.result == some s)

/-- The label names appearing as targets of `goto` / `if_false` instructions,
in order and with multiplicity. -/
def jumpTargets (l : List TACInstruction) : List String :=
  (l.filter (fun i => i.operation == "goto" || i.operation == "if_false")).filterMap
    (·.result)

mutual

/-- All identifier-like names occurring in an expression: identifier uses and
callee names (exactly the strings the generator can put into an operand slot
from the expression). -/
def exprNames : Expr → List String
  | .intLit _ _ _ => []
  | .floatLit _ _ _ _ => []
  | .strLit _ _ _ => []
  | .ident name _ _ => [name]
  | .unary _ e _ _ => exprNames e
  | .binary _ a b _ _ => exprNames a ++ exprNames b
  | .call name args _ _ => name :: exprNamesList args
termination_by e => 2 * sizeOf e

def exprNamesList : List Expr → List String
  | [] => []
  | e :: es => exprNames e ++ exprNamesList es
termination_by es => 2 * sizeOf es

end

mutual

/-- All identifier-like names occurring in a statement: declaration and
assignment targets, function and parameter names, and the names of the
contained expressions. -/
def stmtNames : Stmt → List String
  | .varDecl name v _ _ => name :: exprNames v
  | .assign name v _ _ => name :: exprNames v
  | .funcDef name params body _ _ => name :: (params ++ stmtNamesList body)
  | .ifStmt cond thenB elseB _ _ =>
    exprNames cond ++ stmtNamesList thenB ++
      (match elseB with
       | some es => stmtNamesList es
       | Option.none => [])
  | .whileLoop cond body _ _ => exprNames cond ++ stmtNamesList body
  | .ret v _ _ => exprNames v
  | .printStmt v _ _ => exprNames v
  | .callStmt name args _ _ => name :: exprNamesList args
termination_by s => 2 * sizeOf s

def stmtNamesList : List Stmt → List String
  | [] => []
  | s :: ss => stmtNames s ++ stmtNamesList ss
termination_by ss => 2 * sizeOf ss

end

def progNames (p : Program) : List String := stmtNamesList p.statements

/-- The temporary `tN` is the result of some instruction of `l`. -/
def definedIn (l : List TACInstruction) (n : Nat) : Prop :=
  ∃ i, ∃ hi : i < l.length, definesOperand (l.get ⟨i, hi⟩) (tempName n)

/-- The single-assignment invariant on an instruction list `l` with temporary
counter `tc`: every occurring temporary index is below `tc`, no temporary is
the result of two instructions, and every argument use of a temporary has an
earlier defining instruction. -/
def TempInvL (l : List TACInstruction) (tc : Nat) : Prop :=
  (∀ n, occursTemp l n → n < tc) ∧
  (∀ n, resCount l (tempName n) ≤ 1) ∧
  (∀ n j, ∀ hj : j < l.length,
    usesOperand (l.get ⟨j, hj⟩) (tempName n) →
      ∃ i, i < j ∧ ∃ hi : i < l.length,
        definesOperand (l.get ⟨i, hi⟩) (tempName n))

/-- The invariant maintained by the generator on its state, for claim C5. -/
def TempInv (cg : CodeGenerator) : Prop :=
  TempInvL cg.instructions cg.temp_counter

/-- A block with no control-flow instructions (expression lowerings emit
only computation, `param` and `call` instructions). -/
def noControl (Δ : List TACInstruction) : Prop :=
  ∀ i ∈ Δ, i.operation ≠ "label" ∧ i.operation ≠ "goto" ∧ i.operation ≠ "if_false"

/-- What one statement lowering appends, as far as labels go: `label`
destinations are exactly the labels allocated during it (each once), and
`goto`/`if_false` targets are labels allocated during it, each targeted at
least once. -/
def LabelSpec (Δ : List TACInstruction) (lc lc2 : Nat) : Prop :=
  (Δ.countP (fun i => i.operation == "label") = lc2 - lc) ∧
  (∀ i ∈ Δ, i.operation = "label" →
    ∃ m, lc ≤ m ∧ m < lc2 ∧ i.result = some (labelName m)) ∧
  (∀ m, lc ≤ m → m < lc2 →
    Δ.countP (fun i => i.operation == "label" && i.result == some (labelName m)) = 1) ∧
  (∀ i ∈ Δ, i.operation = "goto" ∨ i.operation = "if_false" →
    ∃ m, lc ≤ m ∧ m < lc2 ∧ i.result = some (labelName m)) ∧
  (∀ m, lc ≤ m → m < lc2 →
    ∃ i ∈ Δ, (i.operation = "goto" ∨ i.operation = "if_false") ∧
      i.result = some (labelName m))

/-- Specification of one expression lowering: it only appends instructions
(none of them control-flow ones), does not touch the label counter, does not
decrease the temporary counter and, when no name of the expression collides
with a temporary name, preserves `TempInv`, with the returned operand
defined in the resulting sequence whenever it is a temporary name. -/
def ExprEmits (cg : CodeGenerator) (e : Expr) : Prop :=
  (∃ Δ, (Codegen.visit_expression cg e).2.instructions = cg.instructions ++ Δ ∧
    noControl Δ) ∧
  (Codegen.visit_expression cg e).2.label_counter = cg.label_counter ∧
  cg.temp_counter ≤ (Codegen.visit_expression cg e).2.temp_counter ∧
  ((∀ m, tempName m ∉ exprNames e) → TempInv cg →
    TempInv (Codegen.visit_expression cg e).2 ∧
    ∀ n, (Codegen.visit_expression cg e).1 = tempName n →
      definedIn (Codegen.visit_expression cg e).2.instructions n)

/-- `ExprEmits` for the argument loop of a call. -/
def ExprListEmits (cg : CodeGenerator) (es : List Expr) : Prop :=
  (∃ Δ, (Codegen.visit_call_args cg es).instructions = cg.instructions ++ Δ ∧
    noControl Δ) ∧
  (Codegen.visit_call_args cg es).label_counter = cg.label_counter ∧
  cg.temp_counter ≤ (Codegen.visit_call_args cg es).temp_counter ∧
  ((∀ m, tempName m ∉ exprNamesList es) → TempInv cg →
    TempInv (Codegen.visit_call_args cg es))

/-- Specification of one statement lowering: it appends a block satisfying
`LabelSpec` for the labels allocated during it, counters do not decrease and,
when no name of the statement collides with a temporary name, `TempInv` is
preserved. -/
def StmtEmits (cg : CodeGenerator) (s : Stmt) : Prop :=
  (∃ Δ, (Codegen.visit_statement cg s).instructions = cg.instructions ++ Δ ∧
    LabelSpec Δ cg.label_counter (Codegen.visit_statement cg s).label_counter) ∧
  cg.temp_counter ≤ (Codegen.visit_statement cg s).temp_counter ∧
  cg.label_counter ≤ (Codegen.visit_statement cg s).label_counter ∧
  ((∀ m, tempName m ∉ stmtNames s) → TempInv cg →
    TempInv (Codegen.visit_statement cg s))

/-- `StmtEmits` for a statement list. -/
def StmtListEmits (cg : CodeGenerator) (ss : List Stmt) : Prop :=
  (∃ Δ, (Codegen.visit_statement_list cg ss).instructions = cg.instructions ++ Δ ∧
    LabelSpec Δ cg.label_counter (Codegen.visit_statement_list cg ss).label_counter) ∧
  cg.temp_counter ≤ (Codegen.visit_statement_list cg ss).temp_counter ∧
  cg.label_counter ≤ (Codegen.visit_statement_list cg ss).label_counter ∧
  ((∀ m, tempName m ∉ stmtNamesList ss) → TempInv cg →
    TempInv (Codegen.visit_statement_list cg ss))

/-! ## Concrete inputs used by the counterexamples and witnesses -/

/-- The token stream of the source `Wake ; Meow(1) Sleep`: a stray `;` is a
syntax error inside the statement list, recovered by panic mode. -/
def c1Tokens : List Token :=
  [⟨.WAKE, .vStr "Wake", 1, 1⟩, ⟨.SEMICOLON, .vStr ";", 1, 6⟩,
   ⟨.MEOW, .vStr "Meow", 1, 8⟩, ⟨.LPAREN, .vStr "(", 1, 12⟩,
   ⟨.INTEGER, .vInt 1, 1, 13⟩, ⟨.RPAREN, .vStr ")", 1, 14⟩,
   ⟨.SLEEP, .vStr "Sleep", 1, 16⟩, ⟨.EOF, .vNone, 1, 21⟩]

/-- The AST of `Wake Box x paws "s" Hunt f() { } x paws f() Sleep`: `x` is a
string, `f` never returns so its type stays `UNKNOWN`, and `x paws f()`
assigns an `UNKNOWN`-typed value to a `YARN` variable. -/
def c3Program : Program :=
  ⟨[.varDecl "x" (.strLit "s" 1 16) 1 6,
    .funcDef "f" [] [] 1 21,
    .assign "x" (.call "f" [] 1 41) 1 34], 1, 1⟩

/-- The AST of `Wake Box t0 paws 1 Box y paws 1 + 2 Sleep`: the user variable
is named `t0`, the same name the generator's first temporary gets. -/
def c5Program : Program :=
  ⟨[.varDecl "t0" (.intLit 1 1 18) 1 6,
    .varDecl "y" (.binary .add (.intLit 1 1 31) (.intLit 2 1 35) 1 33) 1 20], 1, 1⟩

/-- An analyzer state in which `x` is declared as an `Int` variable in the
program scope (used by witnesses). -/
def witnessAnalyzerX : SemanticAnalyzer :=
  ⟨⟨[[⟨"x", .TREATS, 0, false, Option.none, 1, 6⟩]], 0⟩, [], Option.none, false⟩

/-- An analyzer state in which `f` is declared as a function in the program
scope (used by witnesses). -/
def witnessAnalyzerF : SemanticAnalyzer :=
  ⟨⟨[[⟨"f", .UNKNOWN, 0, true, some [], 1, 6⟩]], 0⟩, [], Option.none, false⟩

/-- The AST of `Wake Box y paws 1 + 2 Sleep`: one binary expression, so the
generator allocates exactly one temporary, and no user name collides with a
temporary name. -/
def c5WitnessProgram : Program :=
  ⟨[.varDecl "y" (.binary .add (.intLit 1 1 31) (.intLit 2 1 35) 1 33) 1 6], 1, 1⟩

/-- The AST of `Wake Pounce (1) { Meow(2) } Sleep`: one while loop, so the
generated TAC has two labels, one jumped to by `goto` and one by `if_false`. -/
def c6WitnessProgram : Program :=
  ⟨[.whileLoop (.intLit 1 1 14) [.printStmt (.intLit 2 1 25) 1 19] 1 6], 1, 1⟩

/-! # Theorems

First the lemmas about decimal renderings and the generated names, then the
supporting lemmas about the analyzer walk, then the claim theorems. -/

theorem decDigits_of_zero (n : Nat) (h : n / 10 = 0) :
    decDigits n = [Nat.digitChar (n % 10)] := by
  conv_lhs => rw [decDigits]
  simp [h]

theorem decDigits_of_pos (n : Nat) (h : ¬n / 10 = 0) :
    decDigits n = decDigits (n / 10) ++ [Nat.digitChar (n % 10)] := by
  conv_lhs => rw [decDigits]
  simp [h]

theorem toDigitsCore_eq_decDigits :
    ∀ (f n : Nat) (rest : List Char), n < f →
      Nat.toDigitsCore 10 f n rest = decDigits n ++ rest := by
  intro f
  induction f with
  | zero => intro n rest h; omega
  | succ f ih =>
    intro n rest h
    rw [Nat.toDigitsCore]
    by_cases hz : n / 10 = 0
    · simp only [hz, decDigits_of_zero n hz, List.singleton_append, if_true, eq_self_iff_true]
    · have hn : 0 < n := by omega
      have hlt : n / 10 < f := by
        have := Nat.div_lt_self hn (show 1 < 10 by omega)
        omega
      simp only [if_neg hz, ih (n / 10) (Nat.digitChar (n % 10) :: rest) hlt]
      rw [decDigits_of_pos n hz, List.append_assoc, List.singleton_append]

theorem repr_eq_decDigits (n : Nat) : Nat.repr n = String.mk (decDigits n) := by
  have h := toDigitsCore_eq_decDigits (n + 1) n [] (Nat.lt_succ_self n)
  simp only [Nat.repr, Nat.toDigits, h, List.append_nil, List.asString]

theorem decDigits_shape (n : Nat) :
    ∃ d l, decDigits n = Nat.digitChar d :: l ∧ d < 10 := by
  induction n using Nat.strong_induction_on with
  | _ n ih =>
    by_cases hz : n / 10 = 0
    · exact ⟨n % 10, [], by rw [decDigits_of_zero n hz], Nat.mod_lt n (by omega)⟩
    · have hn : 0 < n := by omega
      obtain ⟨d, l, hdl, hd⟩ := ih (n / 10) (Nat.div_lt_self hn (by omega))
      exact ⟨d, l ++ [Nat.digitChar (n % 10)],
        by rw [decDigits_of_pos n hz, hdl]; rfl, hd⟩

theorem digitChar_lt_inj :
    ∀ a < 10, ∀ b < 10, Nat.digitChar a = Nat.digitChar b → a = b := by decide

theorem digitChar_lt_ne_t : ∀ d < 10, Nat.digitChar d ≠ 't' := by decide

theorem digitChar_lt_ne_L : ∀ d < 10, Nat.digitChar d ≠ 'L' := by decide

theorem decDigits_injective : ∀ m n : Nat, decDigits m = decDigits n → m = n := by
  intro m
  induction m using Nat.strong_induction_on with
  | _ m ih =>
    intro n h
    by_cases hm : m / 10 = 0 <;> by_cases hn : n / 10 = 0
    · rw [decDigits_of_zero m hm, decDigits_of_zero n hn] at h
      have h1 : m % 10 = n % 10 :=
        digitChar_lt_inj _ (Nat.mod_lt m (by omega)) _ (Nat.mod_lt n (by omega))
          (List.head_eq_of_cons_eq h)
      omega
    · rw [decDigits_of_zero m hm, decDigits_of_pos n hn] at h
      obtain ⟨d, l, hdl, _⟩ := decDigits_shape (n / 10)
      rw [hdl] at h
      simp at h
    · rw [decDigits_of_pos m hm, decDigits_of_zero n hn] at h
      obtain ⟨d, l, hdl, _⟩ := decDigits_shape (m / 10)
      rw [hdl] at h
      simp at h
    · rw [decDigits_of_pos m hm, decDigits_of_pos n hn] at h
      have hlen : ([Nat.digitChar (m % 10)] : List Char).length =
          ([Nat.digitChar (n % 10)] : List Char).length := rfl
      obtain ⟨h1, h2⟩ := List.append_inj' h hlen
      have hmpos : 0 < m := by omega
      have hmn : m / 10 = n / 10 :=
        ih (m / 10) (Nat.div_lt_self hmpos (by omega)) (n / 10) h1
      have hmod : m % 10 = n % 10 :=
        digitChar_lt_inj _ (Nat.mod_lt m (by omega)) _ (Nat.mod_lt n (by omega))
          (List.head_eq_of_cons_eq h2)
      omega

theorem natRepr_injective : ∀ m n : Nat, Nat.repr m = Nat.repr n → m = n := by
  intro m n h
  rw [repr_eq_decDigits, repr_eq_decDigits] at h
  exact decDigits_injective m n (by injection h)

theorem natRepr_data (n : Nat) : (Nat.repr n).data = decDigits n := by
  rw [repr_eq_decDigits]

theorem tempName_data (n : Nat) : (tempName n).data = 't' :: decDigits n := by
  have : (tempName n).data = ("t" : String).data ++ (Nat.repr n).data := by
    simp [tempName]
  rw [this, natRepr_data]
  rfl

theorem labelName_data (n : Nat) : (labelName n).data = 'L' :: decDigits n := by
  have : (labelName n).data = ("L" : String).data ++ (Nat.repr n).data := by
    simp [labelName]
  rw [this, natRepr_data]
  rfl

theorem tempName_injective : ∀ m n : Nat, tempName m = tempName n → m = n := by
  intro m n h
  have hd : (tempName m).data = (tempName n).data := by rw [h]
  rw [tempName_data, tempName_data] at hd
  exact decDigits_injective m n (List.tail_eq_of_cons_eq hd)

theorem labelName_injective : ∀ m n : Nat, labelName m = labelName n → m = n := by
  intro m n h
  have hd : (labelName m).data = (labelName n).data := by rw [h]
  rw [labelName_data, labelName_data] at hd
  exact decDigits_injective m n (List.tail_eq_of_cons_eq hd)

theorem labelName_ne_tempName (m n : Nat) : labelName m ≠ tempName n := by
  intro h
  have hd : (labelName m).data = (tempName n).data := by rw [h]
  rw [labelName_data, tempName_data] at hd
  exact absurd (List.head_eq_of_cons_eq hd) (by decide)

theorem natRepr_ne_tempName (k n : Nat) : Nat.repr k ≠ tempName n := by
  intro h
  have hd : (Nat.repr k).data = (tempName n).data := by rw [h]
  rw [natRepr_data, tempName_data] at hd
  obtain ⟨d, l, hdl, hlt⟩ := decDigits_shape k
  rw [hdl] at hd
  exact digitChar_lt_ne_t d hlt (List.head_eq_of_cons_eq hd)

theorem natRepr_ne_labelName (k n : Nat) : Nat.repr k ≠ labelName n := by
  intro h
  have hd : (Nat.repr k).data = (labelName n).data := by rw [h]
  rw [natRepr_data, labelName_data] at hd
  obtain ⟨d, l, hdl, hlt⟩ := decDigits_shape k
  rw [hdl] at hd
  exact digitChar_lt_ne_L d hlt (List.head_eq_of_cons_eq hd)

theorem addError_fields (st : SemanticAnalyzer) (e : SemErr) :
    (addError st e).symbol_table = st.symbol_table ∧
    (addError st e).current_function = st.current_function ∧
    (addError st e).in_function = st.in_function := by
  simp [addError]

theorem sem_ident_pres (st : SemanticAnalyzer) (name : String) (l c : Nat) :
    (visit_identifier st name l c).2.symbol_table = st.symbol_table ∧
    (visit_identifier st name l c).2.current_function = st.current_function ∧
    (visit_identifier st name l c).2.in_function = st.in_function := by
  unfold visit_identifier
  cases st.symbol_table.lookup name with
  | none => simp [addError]
  | some sy =>
    by_cases hf : sy.is_function <;> simp [hf, addError]

mutual

theorem sem_expr_pres : ∀ (st : SemanticAnalyzer) (e : Expr),
    (visit_expression st e).2.symbol_table = st.symbol_table ∧
    (visit_expression st e).2.current_function = st.current_function ∧
    (visit_expression st e).2.in_function = st.in_function
  | st, .intLit n l c => by simp [visit_expression]
  | st, .floatLit ip fr l c => by simp [visit_expression]
  | st, .strLit s l c => by simp [visit_expression]
  | st, .ident name l c => by
    simp only [visit_expression]
    exact sem_ident_pres st name l c
  | st, .unary op e l c => by
    simp only [visit_expression]
    exact sem_unop_pres st op e l c
  | st, .binary op a b l c => by
    simp only [visit_expression]
    exact sem_binop_pres st op a b l c
  | st, .call name args l c => by
    simp only [visit_expression]
    exact sem_call_pres st name args l c
termination_by _ e => 2 * sizeOf e

theorem sem_binop_pres (st : SemanticAnalyzer) (op : BinOp) (a b : Expr) (l c : Nat) :
    (visit_binary_op st op a b l c).2.symbol_table = st.symbol_table ∧
    (visit_binary_op st op a b l c).2.current_function = st.current_function ∧
    (visit_binary_op st op a b l c).2.in_function = st.in_function := by
  have ha := sem_expr_pres st a
  have hb := sem_expr_pres (visit_expression st a).2 b
  rw [visit_binary_op]
  rcases hpa : visit_expression st a with ⟨lt, st1⟩
  rw [hpa] at ha hb
  dsimp only at ha hb ⊢
  rcases hpb : visit_expression st1 b with ⟨rt, st2⟩
  rw [hpb] at hb
  dsimp only at hb ⊢
  split_ifs <;> simp_all [addError]
termination_by 2 * (sizeOf a + sizeOf b) + 1

theorem sem_unop_pres (st : SemanticAnalyzer) (op : UnOp) (e : Expr) (l c : Nat) :
    (visit_unary_op st op e l c).2.symbol_table = st.symbol_table ∧
    (visit_unary_op st op e l c).2.current_function = st.current_function ∧
    (visit_unary_op st op e l c).2.in_function = st.in_function := by
  have he := sem_expr_pres st e
  rw [visit_unary_op]
  rcases hpe : visit_expression st e with ⟨ot, st1⟩
  rw [hpe] at he
  dsimp only at he ⊢
  cases op with
  | bang => simpa using he
  | neg => split_ifs <;> simp_all [addError]
termination_by 2 * sizeOf e + 1

theorem sem_call_pres (st : SemanticAnalyzer) (name : String) (args : List Expr)
    (l c : Nat) :
    (visit_function_call st name args l c).2.symbol_table = st.symbol_table ∧
    (visit_function_call st name args l c).2.current_function = st.current_function ∧
    (visit_function_call st name args l c).2.in_function = st.in_function := by
  rw [visit_function_call]
  cases hl : st.symbol_table.lookup name with
  | none => simp [addError]
  | some sy =>
    by_cases hf : sy.is_function
    · have h1 := sem_exprlist_pres
        (if (sy.parameters.getD []).length ≠ args.length then
          addError st (.argCountMismatch name (sy.parameters.getD []).length args.length l c)
         else st) args
      by_cases hc : (sy.parameters.getD []).length ≠ args.length <;>
        simp_all [addError]
    · simp [hf, addError]
termination_by 2 * sizeOf args + 1

theorem sem_exprlist_pres : ∀ (st : SemanticAnalyzer) (es : List Expr),
    (visit_expression_list st es).symbol_table = st.symbol_table ∧
    (visit_expression_list st es).current_function = st.current_function ∧
    (visit_expression_list st es).in_function = st.in_function
  | st, [] => by simp [visit_expression_list]
  | st, e :: es => by
    have h1 := sem_expr_pres st e
    have h2 := sem_exprlist_pres (visit_expression st e).2 es
    rw [visit_expression_list]
    exact ⟨h2.1.trans h1.1, h2.2.1.trans h1.2.1, h2.2.2.trans h1.2.2⟩
termination_by _ es => 2 * sizeOf es

end

theorem declare_scopes (t : SymbolTable) (sym : Symbol) (t' : SymbolTable)
    (h : t.declare sym = .ok t') :
    t'.scopes.length = t.scopes.length ∧ t'.current_scope = t.current_scope := by
  unfold SymbolTable.declare at h
  cases hf : frameFind (frameAt t t.current_scope) sym.name with
  | none =>
    rw [hf] at h
    cases h
    simp
  | some existing =>
    rw [hf] at h
    cases h

theorem symbolAssignTypeAux_length (scopes : List (List Symbol)) (name : String)
    (dt : DataType) : ∀ i, (symbolAssignTypeAux scopes name dt i).length = scopes.length := by
  intro i
  induction i with
  | zero =>
    unfold symbolAssignTypeAux
    split <;> simp
  | succ i ih =>
    unfold symbolAssignTypeAux
    split <;> simp [ih]

theorem symbolAssignType_scopes (t : SymbolTable) (name : String) (dt : DataType) :
    (symbolAssignType t name dt).scopes.length = t.scopes.length ∧
    (symbolAssignType t name dt).current_scope = t.current_scope := by
  simp [symbolAssignType, symbolAssignTypeAux_length]

theorem enter_scope_scopes_length (t : SymbolTable) :
    t.enter_scope.scopes.length = t.scopes.length + 1 := by
  simp [SymbolTable.enter_scope]

theorem enter_scope_current_scope (t : SymbolTable) :
    t.enter_scope.current_scope = t.current_scope + 1 := by
  simp [SymbolTable.enter_scope]

theorem exit_scope_of_pos (t : SymbolTable) (h : 0 < t.current_scope) :
    t.exit_scope.scopes.length = t.scopes.length - 1 ∧
    t.exit_scope.current_scope = t.current_scope - 1 := by
  simp [SymbolTable.exit_scope, h, List.length_dropLast]

theorem visit_var_declaration_scopes (st : SemanticAnalyzer) (name : String)
    (value : Expr) (l c : Nat) :
    (visit_var_declaration st name value l c).symbol_table.scopes.length =
      st.symbol_table.scopes.length ∧
    (visit_var_declaration st name value l c).symbol_table.current_scope =
      st.symbol_table.current_scope := by
  have hp := (sem_expr_pres st value).1
  unfold visit_var_declaration
  rcases hpv : visit_expression st value with ⟨vt, st1⟩
  rw [hpv] at hp
  dsimp only at hp ⊢
  cases hd : st1.symbol_table.declare
      ⟨name, vt, st1.symbol_table.current_scope, false, Option.none, l, c⟩ with
  | ok tbl =>
    have := declare_scopes _ _ _ hd
    simp_all
  | error e => simp_all [addError]

theorem visit_assignment_scopes (st : SemanticAnalyzer) (name : String)
    (value : Expr) (l c : Nat) :
    (visit_assignment st name value l c).symbol_table.scopes.length =
      st.symbol_table.scopes.length ∧
    (visit_assignment st name value l c).symbol_table.current_scope =
      st.symbol_table.current_scope := by
  have hp := (sem_expr_pres st value).1
  unfold visit_assignment
  cases hl : st.symbol_table.lookup name with
  | none => simp [addError]
  | some sy =>
    by_cases hf : sy.is_function
    · simp [hf, addError]
    · rcases hpv : visit_expression st value with ⟨vt, st1⟩
      rw [hpv] at hp
      dsimp only at hp ⊢
      simp only [hf, if_false, Bool.false_eq_true]
      split_ifs <;> simp_all [addError]

theorem visit_return_statement_scopes (st : SemanticAnalyzer) (value : Expr)
    (l c : Nat) :
    (visit_return_statement st value l c).symbol_table.scopes.length =
      st.symbol_table.scopes.length ∧
    (visit_return_statement st value l c).symbol_table.current_scope =
      st.symbol_table.current_scope := by
  have hp := (sem_expr_pres st value).1
  unfold visit_return_statement
  by_cases hin : st.in_function
  · rcases hpv : visit_expression st value with ⟨rt, st1⟩
    rw [hpv] at hp
    dsimp only at hp ⊢
    simp only [hin, Bool.not_true, Bool.false_eq_true, if_false]
    cases hcf : st1.current_function with
    | none => exact ⟨by rw [hp], by rw [hp]⟩
    | some f =>
      dsimp only
      cases hlf : st1.symbol_table.lookup f with
      | none => exact ⟨by rw [hp], by rw [hp]⟩
      | some sy =>
        have hup := symbolAssignType_scopes st1.symbol_table f rt
        dsimp only
        split_ifs
        all_goals try simp only [addError]
        all_goals first
          | exact ⟨hup.1.trans (by rw [hp]), hup.2.trans (by rw [hp])⟩
          | exact ⟨by rw [hp], by rw [hp]⟩
  · simp [hin, addError]

theorem declare_params_scopes (l c : Nat) :
    ∀ (ps : List String) (st : SemanticAnalyzer),
    (declare_params st l c ps).symbol_table.scopes.length =
      st.symbol_table.scopes.length ∧
    (declare_params st l c ps).symbol_table.current_scope =
      st.symbol_table.current_scope := by
  intro ps
  induction ps with
  | nil => intro st; simp [declare_params]
  | cons p ps ih =>
    intro st
    unfold declare_params
    cases hd : st.symbol_table.declare
        ⟨p, .UNKNOWN, st.symbol_table.current_scope, false, Option.none, l, c⟩ with
    | ok tbl =>
      have h1 := declare_scopes _ _ _ hd
      have h2 := ih { st with symbol_table := tbl }
      simp_all
    | error e =>
      have h2 := ih (addError st e)
      simp_all [addError]

theorem sem_stmtlist_scopes (st0 : SemanticAnalyzer) (ss0 : List Stmt) :
    (visit_statement_list st0 ss0).symbol_table.scopes.length =
      st0.symbol_table.scopes.length ∧
    (visit_statement_list st0 ss0).symbol_table.current_scope =
      st0.symbol_table.current_scope := by
  refine visit_statement_list.induct
    (fun st s =>
      (visit_statement st s).symbol_table.scopes.length =
        st.symbol_table.scopes.length ∧
      (visit_statement st s).symbol_table.current_scope =
        st.symbol_table.current_scope)
    (fun st ss =>
      (visit_statement_list st ss).symbol_table.scopes.length =
        st.symbol_table.scopes.length ∧
      (visit_statement_list st ss).symbol_table.current_scope =
        st.symbol_table.current_scope)
    ?_ ?_ ?_ ?_ ?_ ?_ ?_ ?_ ?_ ?_ ?_ ?_ ?_ st0 ss0
  · intro st name value l c
    simp only [visit_statement]
    exact visit_var_declaration_scopes st name value l c
  · intro st name value l c
    simp only [visit_statement]
    exact visit_assignment_scopes st name value l c
  · intro st name params body l c
    dsimp only
    intro e hd
    simp only [visit_statement]
    rw [hd]
    simp [addError]
  · intro st name params body l c
    dsimp only
    intro tbl hd ih
    obtain ⟨hdL, hdC⟩ := declare_scopes _ _ _ hd
    simp only [visit_statement]
    rw [hd]
    dsimp only
    set st2 : SemanticAnalyzer :=
      { symbol_table := tbl.enter_scope, errors := st.errors,
        current_function := some name, in_function := true } with hst2
    have hps := declare_params_scopes l c params st2
    have hlen : (visit_statement_list (declare_params st2 l c params) body).symbol_table.scopes.length
        = tbl.scopes.length + 1 := by
      rw [ih.1, hps.1, hst2]
      simp [SymbolTable.enter_scope]
    have hcs : (visit_statement_list (declare_params st2 l c params) body).symbol_table.current_scope
        = tbl.current_scope + 1 := by
      rw [ih.2, hps.2, hst2]
      simp [SymbolTable.enter_scope]
    have hex := exit_scope_of_pos
      (visit_statement_list (declare_params st2 l c params) body).symbol_table (by omega)
    refine ⟨?_, ?_⟩
    · show (visit_statement_list (declare_params st2 l c params) body).symbol_table.exit_scope.scopes.length
        = st.symbol_table.scopes.length
      rw [hex.1, hlen]
      omega
    · show (visit_statement_list (declare_params st2 l c params) body).symbol_table.exit_scope.current_scope
        = st.symbol_table.current_scope
      rw [hex.2, hcs]
      omega
  · intro st cond thenB line col rt st1 hpc
    dsimp only
    intro ih
    have hp := (sem_expr_pres st cond).1
    rw [hpc] at hp
    dsimp only at hp
    simp only [visit_statement]
    rw [hpc]
    dsimp only
    have hlen : (visit_statement_list
        { symbol_table := st1.symbol_table.enter_scope, errors := st1.errors,
          current_function := st1.current_function, in_function := st1.in_function }
        thenB).symbol_table.scopes.length = st1.symbol_table.scopes.length + 1 := by
      rw [ih.1]
      simp [SymbolTable.enter_scope]
    have hcs : (visit_statement_list
        { symbol_table := st1.symbol_table.enter_scope, errors := st1.errors,
          current_function := st1.current_function, in_function := st1.in_function }
        thenB).symbol_table.current_scope = st1.symbol_table.current_scope + 1 := by
      rw [ih.2]
      simp [SymbolTable.enter_scope]
    have hex := exit_scope_of_pos _ (show 0 < (visit_statement_list
        { symbol_table := st1.symbol_table.enter_scope, errors := st1.errors,
          current_function := st1.current_function, in_function := st1.in_function }
        thenB).symbol_table.current_scope by omega)
    refine ⟨?_, ?_⟩
    · rw [hex.1, hlen, hp]
      omega
    · rw [hex.2, hcs, hp]
      omega
  · intro st cond thenB line col rt st1 hpc
    dsimp only
    intro head tail ihThen ihElse
    have hp := (sem_expr_pres st cond).1
    rw [hpc] at hp
    dsimp only at hp
    simp only [visit_statement]
    rw [hpc]
    dsimp only
    have hlen : (visit_statement_list
        { symbol_table := st1.symbol_table.enter_scope, errors := st1.errors,
          current_function := st1.current_function, in_function := st1.in_function }
        thenB).symbol_table.scopes.length = st1.symbol_table.scopes.length + 1 := by
      rw [ihThen.1, enter_scope_scopes_length]
    have hcs : (visit_statement_list
        { symbol_table := st1.symbol_table.enter_scope, errors := st1.errors,
          current_function := st1.current_function, in_function := st1.in_function }
        thenB).symbol_table.current_scope = st1.symbol_table.current_scope + 1 := by
      rw [ihThen.2, enter_scope_current_scope]
    have hex := exit_scope_of_pos _ (show 0 < (visit_statement_list
        { symbol_table := st1.symbol_table.enter_scope, errors := st1.errors,
          current_function := st1.current_function, in_function := st1.in_function }
        thenB).symbol_table.current_scope by omega)
    have hlen6 := ihElse.1
    have hcs6 := ihElse.2
    rw [enter_scope_scopes_length, hex.1, hlen] at hlen6
    rw [enter_scope_current_scope, hex.2, hcs] at hcs6
    have hex6 := exit_scope_of_pos
      (visit_statement_list
        { symbol_table :=
            (visit_statement_list
              { symbol_table := st1.symbol_table.enter_scope, errors := st1.errors,
                current_function := st1.current_function, in_function := st1.in_function }
              thenB).symbol_table.exit_scope.enter_scope,
          errors :=
            (visit_statement_list
              { symbol_table := st1.symbol_table.enter_scope, errors := st1.errors,
                current_function := st1.current_function, in_function := st1.in_function }
              thenB).errors,
          current_function :=
            (visit_statement_list
              { symbol_table := st1.symbol_table.enter_scope, errors := st1.errors,
                current_function := st1.current_function, in_function := st1.in_function }
              thenB).current_function,
          in_function :=
            (visit_statement_list
              { symbol_table := st1.symbol_table.enter_scope, errors := st1.errors,
                current_function := st1.current_function, in_function := st1.in_function }
              thenB).in_function }
        (head :: tail)).symbol_table (by omega)
    refine ⟨?_, ?_⟩
    · rw [hex6.1, hlen6, hp]
      omega
    · rw [hex6.2, hcs6, hp]
      omega
  · intro st cond thenB line col rt st1 hpc
    dsimp only
    intro ih
    have hp := (sem_expr_pres st cond).1
    rw [hpc] at hp
    dsimp only at hp
    simp only [visit_statement]
    rw [hpc]
    dsimp only
    have hlen : (visit_statement_list
        { symbol_table := st1.symbol_table.enter_scope, errors := st1.errors,
          current_function := st1.current_function, in_function := st1.in_function }
        thenB).symbol_table.scopes.length = st1.symbol_table.scopes.length + 1 := by
      rw [ih.1]
      simp [SymbolTable.enter_scope]
    have hcs : (visit_statement_list
        { symbol_table := st1.symbol_table.enter_scope, errors := st1.errors,
          current_function := st1.current_function, in_function := st1.in_function }
        thenB).symbol_table.current_scope = st1.symbol_table.current_scope + 1 := by
      rw [ih.2]
      simp [SymbolTable.enter_scope]
    have hex := exit_scope_of_pos _ (show 0 < (visit_statement_list
        { symbol_table := st1.symbol_table.enter_scope, errors := st1.errors,
          current_function := st1.current_function, in_function := st1.in_function }
        thenB).symbol_table.current_scope by omega)
    refine ⟨?_, ?_⟩
    · rw [hex.1, hlen, hp]
      omega
    · rw [hex.2, hcs, hp]
      omega
  · intro st cond body line col rt st1 hpc
    dsimp only
    intro ih
    have hp := (sem_expr_pres st cond).1
    rw [hpc] at hp
    dsimp only at hp
    simp only [visit_statement]
    rw [hpc]
    dsimp only
    have hlen : (visit_statement_list
        { symbol_table := st1.symbol_table.enter_scope, errors := st1.errors,
          current_function := st1.current_function, in_function := st1.in_function }
        body).symbol_table.scopes.length = st1.symbol_table.scopes.length + 1 := by
      rw [ih.1]
      simp [SymbolTable.enter_scope]
    have hcs : (visit_statement_list
        { symbol_table := st1.symbol_table.enter_scope, errors := st1.errors,
          current_function := st1.current_function, in_function := st1.in_function }
        body).symbol_table.current_scope = st1.symbol_table.current_scope + 1 := by
      rw [ih.2]
      simp [SymbolTable.enter_scope]
    have hex := exit_scope_of_pos _ (show 0 < (visit_statement_list
        { symbol_table := st1.symbol_table.enter_scope, errors := st1.errors,
          current_function := st1.current_function, in_function := st1.in_function }
        body).symbol_table.current_scope by omega)
    refine ⟨?_, ?_⟩
    · rw [hex.1, hlen, hp]
      omega
    · rw [hex.2, hcs, hp]
      omega
  · intro st value l c
    simp only [visit_statement]
    exact visit_return_statement_scopes st value l c
  · intro st value line col
    simp only [visit_statement]
    have h := (sem_expr_pres st value).1
    exact ⟨by rw [h], by rw [h]⟩
  · intro st name args l c
    simp only [visit_statement]
    have h := (sem_call_pres st name args l c).1
    exact ⟨by rw [h], by rw [h]⟩
  · intro st
    simp [visit_statement_list]
  · intro st s ss ih1 ih2
    rw [visit_statement_list]
    exact ⟨ih2.1.trans ih1.1, ih2.2.trans ih1.2⟩

/-! ## Claim C8 -/

/-- C8: for every program AST, after the semantic walk completes (whether or
not diagnostics were accumulated), the scope stack has depth exactly 1, its
initial depth — every `enter_scope` during the walk is matched by an
`exit_scope` on every exit path, including error paths. -/
theorem C8_scope_balance (p : Program) :
    (analyze p).symbol_table.scopes.length = 1 ∧
    (analyze p).symbol_table.current_scope = 0 := by
  have h := sem_stmtlist_scopes initAnalyzer p.statements
  simpa [analyze, visit_program, initAnalyzer, initSymbolTable] using h

/-! ## Claim C2 -/

/-- C2 counterexample: the claim says `exit_scope` on the depth-1 stack (only
the program frame) panics with a fatal internal error "rather than returning
normally with the stack unchanged".  The source has no `InternalError` at
all: under the guard `current_scope > 0` the method simply does nothing, so
on the fresh table it returns normally with the stack unchanged — which is
exactly what this evaluation shows (the embedded `exit_scope` is a total
function; the Python method has no raise statement). -/
theorem C2_counterexample :
    SymbolTable.exit_scope ⟨[[]], 0⟩ = (⟨[[]], 0⟩ : SymbolTable) := by decide

/-- C2 amended: calling `exit_scope` when `current_scope = 0` (the depth-1
state, where popping would empty the stack) is a silent no-op: it returns
normally with the table — stack included — completely unchanged. -/
theorem C2_exit_scope_depth_one_noop (t : SymbolTable) (h : t.current_scope = 0) :
    t.exit_scope = t := by
  simp [SymbolTable.exit_scope, h]

/-- Witness for C2: the fresh symbol table has `current_scope = 0` and
`exit_scope` leaves it unchanged. -/
theorem C2_witness :
    (⟨[[]], 0⟩ : SymbolTable).current_scope = 0 ∧
    SymbolTable.exit_scope ⟨[[]], 0⟩ = (⟨[[]], 0⟩ : SymbolTable) :=
  ⟨by decide, C2_exit_scope_depth_one_noop ⟨[[]], 0⟩ (by decide)⟩

/-! ## Claim C4 -/

/-- C4 counterexample: the claim says every `/` expression gets type `Float`
"regardless of the inferred types of its two operands".  For `"a" / 1` the
analyzer reports a type error and infers `UNKNOWN`, not `WHISKERS`. -/
theorem C4_counterexample :
    (visit_expression initAnalyzer
        (.binary .div (.strLit "a" 1 10) (.intLit 1 1 16) 1 14)).1 ≠
      DataType.WHISKERS := by decide

/-- C4 amended: for every `/` expression, with `L` and `R` the operand types
inferred in evaluation order, (1) the result type is `WHISKERS` (Float) iff
both `L` and `R` are numeric, (2) the result type is always `WHISKERS` or
`UNKNOWN` (so with any non-numeric operand it is `UNKNOWN`), and (3) the
type-error diagnostic is recorded exactly when the operands are not both
numeric **and** neither is `UNKNOWN` — with an `UNKNOWN` operand (e.g. a
call of a never-returning function) the analyzer stays silent and infers
`UNKNOWN`. -/
theorem C4_div_typing (st : SemanticAnalyzer) (a b : Expr) (l c : Nat) :
    ((visit_binary_op st .div a b l c).1 = DataType.WHISKERS ↔
      (isNumericType (visit_expression st a).1 = true ∧
       isNumericType (visit_expression (visit_expression st a).2 b).1 = true)) ∧
    ((visit_binary_op st .div a b l c).1 = DataType.WHISKERS ∨
     (visit_binary_op st .div a b l c).1 = DataType.UNKNOWN) ∧
    ((visit_binary_op st .div a b l c).2.errors =
      if isNumericType (visit_expression st a).1 &&
          isNumericType (visit_expression (visit_expression st a).2 b).1 then
        (visit_expression (visit_expression st a).2 b).2.errors
      else if (visit_expression st a).1 ≠ DataType.UNKNOWN ∧
          (visit_expression (visit_expression st a).2 b).1 ≠ DataType.UNKNOWN then
        (visit_expression (visit_expression st a).2 b).2.errors ++
          [SemErr.binTypeError .div (visit_expression st a).1
            (visit_expression (visit_expression st a).2 b).1 l c]
      else (visit_expression (visit_expression st a).2 b).2.errors) := by
  rw [visit_binary_op]
  rcases hpa : visit_expression st a with ⟨lt, st1⟩
  dsimp only
  rcases hpb : visit_expression st1 b with ⟨rt, st2⟩
  dsimp only
  cases lt <;> cases rt <;> simp [isNumericType, addError]

/-- The numeric-to-Float direction of the `/` typing rule on its own (used
by the concrete division example below). -/
theorem C4_div_numeric_yields_float (st : SemanticAnalyzer) (a b : Expr) (l c : Nat)
    (ha : isNumericType (visit_expression st a).1 = true)
    (hb : isNumericType (visit_expression (visit_expression st a).2 b).1 = true) :
    (visit_binary_op st .div a b l c).1 = DataType.WHISKERS := by
  rw [visit_binary_op]
  rcases hpa : visit_expression st a with ⟨lt, st1⟩
  rw [hpa] at ha hb
  dsimp only at ha hb ⊢
  rcases hpb : visit_expression st1 b with ⟨rt, st2⟩
  rw [hpb] at hb
  dsimp only at hb ⊢
  have hlt : lt ≠ DataType.YARN := by
    cases lt <;> simp_all [isNumericType]
  have hrt : rt ≠ DataType.YARN := by
    cases rt <;> simp_all [isNumericType]
  simp [ha, hb, hlt, hrt]

/-- A concrete division: `1 / 2` has numeric operands and infers `Float`. -/
theorem div_example_float :
    isNumericType (visit_expression initAnalyzer (.intLit 1 1 1)).1 = true ∧
    isNumericType (visit_expression (visit_expression initAnalyzer (.intLit 1 1 1)).2
        (.intLit 2 1 5)).1 = true ∧
    (visit_binary_op initAnalyzer .div (.intLit 1 1 1) (.intLit 2 1 5) 1 3).1 =
      DataType.WHISKERS :=
  ⟨by decide, by decide,
    C4_div_numeric_yields_float initAnalyzer (.intLit 1 1 1) (.intLit 2 1 5) 1 3
      (by decide) (by decide)⟩

/-! ## Claim C9 -/

/-- C9: when the assignment target is undeclared, or declared as a function,
`visit_assignment` records exactly one diagnostic and returns immediately:
the resulting state is the input state plus that single error, and in
particular the right-hand side is never visited (the result does not depend
on `value`, so semantic errors inside it are never reported). -/
theorem C9_bad_target_one_error_rhs_unvisited (st : SemanticAnalyzer)
    (name : String) (value : Expr) (l c : Nat)
    (h : st.symbol_table.lookup name = Option.none ∨
      ∃ sy, st.symbol_table.lookup name = some sy ∧ sy.is_function = true) :
    visit_assignment st name value l c =
      { st with errors := st.errors ++
          [match st.symbol_table.lookup name with
           | Option.none => SemErr.undeclaredVar name l c
           | some _ => SemErr.assignToFunction name l c] } := by
  rcases h with h | ⟨sy, hsy, hfn⟩
  · simp [visit_assignment, h, addError]
  · simp [visit_assignment, hsy, hfn, addError]

/-- Witness for C9: assigning to the undeclared `q`, with a right-hand side
that itself contains an undeclared identifier, records exactly the one
target diagnostic. -/
theorem C9_witness :
    (initAnalyzer.symbol_table.lookup "q" = Option.none ∨
      ∃ sy, initAnalyzer.symbol_table.lookup "q" = some sy ∧ sy.is_function = true) ∧
    visit_assignment initAnalyzer "q" (.ident "alsoUndeclared" 1 12) 1 1 =
      { initAnalyzer with errors := initAnalyzer.errors ++
          [match initAnalyzer.symbol_table.lookup "q" with
           | Option.none => SemErr.undeclaredVar "q" 1 1
           | some _ => SemErr.assignToFunction "q" 1 1] } :=
  ⟨Or.inl (by decide),
    C9_bad_target_one_error_rhs_unvisited initAnalyzer "q"
      (.ident "alsoUndeclared" 1 12) 1 1 (Or.inl (by decide))⟩

/-! ## Claim C10 -/

/-- C10: when the function name collides with a declaration in the current
scope, `visit_function_def` records the redeclaration diagnostic and returns
immediately: the result is the input state plus that one error — no scope is
entered, no parameter is declared, and the body is never analyzed (the
result does not depend on `params` or `body`). -/
theorem C10_redeclared_function_body_unanalyzed (st : SemanticAnalyzer)
    (name : String) (params : List String) (body : List Stmt) (l c : Nat)
    (sy : Symbol)
    (h : frameFind (frameAt st.symbol_table st.symbol_table.current_scope) name =
      some sy) :
    visit_function_def st name params body l c =
      { st with errors := st.errors ++ [SemErr.alreadyDeclared name sy.line l c] } := by
  rw [visit_function_def]
  simp [SymbolTable.declare, h, addError]

/-- Witness for C10: redefining `f` (already a function in scope 0) with a
parameter and a body whose statement would be a semantic error records only
the redeclaration diagnostic. -/
theorem C10_witness :
    (frameFind (frameAt witnessAnalyzerF.symbol_table
        witnessAnalyzerF.symbol_table.current_scope) "f" =
      some ⟨"f", .UNKNOWN, 0, true, some [], 1, 6⟩) ∧
    visit_function_def witnessAnalyzerF "f" ["p"]
        [.ret (.ident "nope" 2 9) 2 3] 2 1 =
      { witnessAnalyzerF with errors := witnessAnalyzerF.errors ++
          [SemErr.alreadyDeclared "f" 1 2 1] } :=
  ⟨by decide,
    C10_redeclared_function_body_unanalyzed witnessAnalyzerF "f" ["p"]
      [.ret (.ident "nope" 2 9) 2 3] 2 1 ⟨"f", .UNKNOWN, 0, true, some [], 1, 6⟩
      (by decide)⟩

/-! ## Claim C3 -/

/-- C3 counterexample: in `c3Program` the assignment target `x` has type
`YARN`, the right-hand side `f()` infers `UNKNOWN` (so `T ≠ V`, not both
numeric, `T ≠ UNKNOWN`), yet the analyzer accumulates no diagnostic at all —
the claim's "in particular" case says this assignment must be rejected. -/
theorem C3_counterexample :
    ((visit_statement_list initAnalyzer (c3Program.statements.take 2)).symbol_table.lookup
        "x").map (fun sy => sy.data_type) = some DataType.YARN ∧
    (visit_expression (visit_statement_list initAnalyzer (c3Program.statements.take 2))
        (.call "f" [] 1 41)).1 = DataType.UNKNOWN ∧
    (analyze c3Program).errors = [] := by decide

/-- C3 amended: with the target declared as a non-function of type `T` and
the right-hand side inferring `V`, the assignment check adds no diagnostic
iff `T = V`, or both are numeric, or `T = UNKNOWN`, **or `V = UNKNOWN`** —
the guard `value_type != UNKNOWN` in the source also waves through every
assignment whose right-hand side type is unknown. -/
theorem C3_assignment_accepts_iff (st : SemanticAnalyzer) (name : String)
    (value : Expr) (l c : Nat) (sy : Symbol)
    (hlook : st.symbol_table.lookup name = some sy) (hfn : sy.is_function = false) :
    ((visit_assignment st name value l c).errors =
        (visit_expression st value).2.errors ↔
      (sy.data_type = (visit_expression st value).1 ∨
       (isNumericType sy.data_type = true ∧
         isNumericType (visit_expression st value).1 = true) ∨
       sy.data_type = DataType.UNKNOWN ∨
       (visit_expression st value).1 = DataType.UNKNOWN)) := by
  unfold visit_assignment
  rw [hlook]
  dsimp only
  rw [hfn]
  simp only [Bool.false_eq_true, if_false]
  rcases hpv : visit_expression st value with ⟨vt, st1⟩
  dsimp only
  rcases sy with ⟨nm, dt, sl, fn, ps, li, co⟩
  dsimp only at hfn ⊢
  cases dt <;> cases vt <;>
    simp [are_types_compatible, isNumericType, addError]

/-- Witness for C3: assigning the `Int` literal `2` to the `Int` variable
`x` adds no diagnostic, and the amended acceptance condition holds. -/
theorem C3_witness :
    (witnessAnalyzerX.symbol_table.lookup "x" =
      some ⟨"x", .TREATS, 0, false, Option.none, 1, 6⟩) ∧
    ((visit_assignment witnessAnalyzerX "x" (.intLit 2 1 12) 1 1).errors =
        (visit_expression witnessAnalyzerX (.intLit 2 1 12)).2.errors ↔
      ((⟨"x", .TREATS, 0, false, Option.none, 1, 6⟩ : Symbol).data_type =
          (visit_expression witnessAnalyzerX (.intLit 2 1 12)).1 ∨
       (isNumericType (⟨"x", .TREATS, 0, false, Option.none, 1, 6⟩ : Symbol).data_type = true ∧
         isNumericType (visit_expression witnessAnalyzerX (.intLit 2 1 12)).1 = true) ∨
       (⟨"x", .TREATS, 0, false, Option.none, 1, 6⟩ : Symbol).data_type = DataType.UNKNOWN ∨
       (visit_expression witnessAnalyzerX (.intLit 2 1 12)).1 = DataType.UNKNOWN)) :=
  ⟨by decide,
    C3_assignment_accepts_iff witnessAnalyzerX "x" (.intLit 2 1 12) 1 1
      ⟨"x", .TREATS, 0, false, Option.none, 1, 6⟩ (by decide) rfl⟩

/-! ## Claim C7 -/

/-- C7 counterexample: for an if statement with a present but **empty** else
block — source `Wake Purr (1) { Meow(1) } Hiss { } Sleep` — the claim's
shape would be `if_false 1 goto L0; print 1; goto L1; L0:; L1:`, but
`if node.else_block:` is false for the empty Python list, so the generator
takes the no-else shape and emits only `if_false 1 goto L0; print 1; L0:`. -/
theorem C7_counterexample :
    pipelineTAC 300 "Wake Purr (1) { Meow(1) } Hiss { } Sleep" =
      some [⟨"if_false", some "1", Option.none, some "L0"⟩,
            ⟨"print", some "1", Option.none, Option.none⟩,
            ⟨"label", Option.none, Option.none, some "L0"⟩] ∧
    ([⟨"if_false", some "1", Option.none, some "L0"⟩,
      ⟨"print", some "1", Option.none, Option.none⟩,
      ⟨"label", Option.none, Option.none, some "L0"⟩] : List TACInstruction) ≠
    [⟨"if_false", some "1", Option.none, some "L0"⟩,
     ⟨"print", some "1", Option.none, Option.none⟩,
     ⟨"goto", Option.none, Option.none, some "L1"⟩,
     ⟨"label", Option.none, Option.none, some "L0"⟩,
     ⟨"label", Option.none, Option.none, some "L1"⟩] := by decide

/-- C7 amended: for every if statement with a **non-empty** else block,
lowering first lowers the condition to `C`, then allocates `L_else` and
`L_end` in that order, and emits exactly `if_false C goto L_else`, the
lowered then-block, `goto L_end`, `label L_else`, the lowered else-block,
`label L_end`; the claim's concrete example compiles to exactly the claimed
sequence. -/
theorem C7_if_else_lowering :
    (∀ (cg : CodeGenerator) (cond : Expr) (thenB : List Stmt) (e1 : Stmt)
        (es : List Stmt) (l c : Nat),
      Codegen.visit_statement cg (.ifStmt cond thenB (some (e1 :: es)) l c) =
        (match Codegen.visit_expression cg cond with
         | (cv, cg1) =>
           let elseL := labelName cg1.label_counter
           let endL := labelName (cg1.label_counter + 1)
           let cg3 := { cg1 with label_counter := cg1.label_counter + 2 }
           let cg4 := emit cg3 "if_false" (some cv) Option.none (some elseL)
           let cg5 := Codegen.visit_statement_list cg4 thenB
           let cg6 := emit cg5 "goto" Option.none Option.none (some endL)
           let cg7 := emit cg6 "label" Option.none Option.none (some elseL)
           let cg8 := Codegen.visit_statement_list cg7 (e1 :: es)
           emit cg8 "label" Option.none Option.none (some endL))) ∧
    pipelineTAC 300 "Wake Purr (1) { Meow(1) } Hiss { Meow(2) } Sleep" =
      some [⟨"if_false", some "1", Option.none, some "L0"⟩,
            ⟨"print", some "1", Option.none, Option.none⟩,
            ⟨"goto", Option.none, Option.none, some "L1"⟩,
            ⟨"label", Option.none, Option.none, some "L0"⟩,
            ⟨"print", some "2", Option.none, Option.none⟩,
            ⟨"label", Option.none, Option.none, some "L1"⟩] := by
  constructor
  · intro cg cond thenB e1 es l c
    rcases hpc : Codegen.visit_expression cg cond with ⟨cv, cg1⟩
    simp only [Codegen.visit_statement, hpc, new_label]
  · decide

/-! ## Claim C1 -/

/-- C1 (code bug): the claim — and §4.2/§7 of the spec — say a parse error
recovered by panic mode still fails the compilation with a non-zero status.
In the source, `parse_statement_list` only *prints* the caught error: no
diagnostic is recorded, no flag is set, and `parse` returns a `ProgramNode`
missing the offending statement.  On the token stream of
`Wake ; Meow(1) Sleep` the parser raises on the stray `;`, recovers, and
returns a one-statement program; the driver then runs to completion and
exits with status 0 (`compileTokens … = true`).  The recovered error is
silently dropped from the compilation result. -/
theorem C1_recovered_error_pipeline_succeeds :
    compileTokens 300 c1Tokens = true ∧
    (parseTokens 300 c1Tokens).toOption.map (fun p => p.statements.length) =
      some 1 := by decide

/-! ### Supporting lemmas for the generator invariants (claims C5 and C6) -/

theorem tempName_eq_iff (m n : Nat) : tempName m = tempName n ↔ m = n :=
  ⟨tempName_injective m n, fun h => by rw [h]⟩

theorem labelName_eq_iff (m n : Nat) : labelName m = labelName n ↔ m = n :=
  ⟨labelName_injective m n, fun h => by rw [h]⟩

theorem floatRender_ne_tempName (ip fr n : Nat) : floatRender ip fr ≠ tempName n := by
  intro h
  have hd : (floatRender ip fr).data = (tempName n).data := by rw [h]
  have h2 : (floatRender ip fr).data =
      (Nat.repr ip).data ++ (("." : String).data ++ (Nat.repr fr).data) := by
    simp [floatRender]
  rw [h2, natRepr_data, tempName_data] at hd
  obtain ⟨d, l, hdl, hlt⟩ := decDigits_shape ip
  rw [hdl, List.cons_append] at hd
  exact digitChar_lt_ne_t d hlt (List.head_eq_of_cons_eq hd)

theorem strRender_ne_tempName (s : String) (n : Nat) : strRender s ≠ tempName n := by
  intro h
  have hd : (strRender s).data = (tempName n).data := by rw [h]
  have h2 : (strRender s).data =
      ("\"" : String).data ++ (s.data ++ ("\"" : String).data) := by
    simp [strRender]
  rw [h2, tempName_data] at hd
  have hh : ("\"" : String).data = ['"'] := rfl
  rw [hh, List.cons_append] at hd
  exact absurd (List.head_eq_of_cons_eq hd) (by decide)

theorem definedIn_append (l Δ : List TACInstruction) (n : Nat) (h : definedIn l n) :
    definedIn (l ++ Δ) n := by
  obtain ⟨i, hi, hdef⟩ := h
  refine ⟨i, by simp; omega, ?_⟩
  simpa [List.get_eq_getElem, List.getElem_append_left hi] using hdef

theorem definedIn_snoc_self (l : List TACInstruction) (ins : TACInstruction) (n : Nat)
    (h : ins.result = some (tempName n)) : definedIn (l ++ [ins]) n := by
  refine ⟨l.length, by simp, ?_⟩
  simpa [definesOperand, List.get_eq_getElem] using h

theorem definedIn_occurs (l : List TACInstruction) (n : Nat) (h : definedIn l n) :
    occursTemp l n := by
  obtain ⟨i, hi, hdef⟩ := h
  exact ⟨l.get ⟨i, hi⟩, List.get_mem l i hi, Or.inl hdef⟩

theorem resCount_append (l1 l2 : List TACInstruction) (s : String) :
    resCount (l1 ++ l2) s = resCount l1 s + resCount l2 s := by
  simp [resCount, List.countP_append]

theorem resCount_singleton (ins : TACInstruction) (s : String) :
    resCount [ins] s = if ins.result = some s then 1 else 0 := by
  simp [resCount, List.countP_cons]

theorem resCount_eq_zero_of_not_occurs (l : List TACInstruction) (n : Nat)
    (h : ¬occursTemp l n) : resCount l (tempName n) = 0 := by
  rw [resCount, List.countP_eq_zero]
  intro i hi hbeq
  exact h ⟨i, hi, Or.inl (by simpa using hbeq)⟩

theorem two_le_countP (l : List TACInstruction) (p : TACInstruction → Bool) :
    ∀ i j, i < j → ∀ hj : j < l.length, ∀ hi : i < l.length,
      p (l.get ⟨i, hi⟩) → p (l.get ⟨j, hj⟩) → 2 ≤ l.countP p := by
  induction l with
  | nil => intro i j _ hj; simp at hj
  | cons a l ih =>
    intro i j hij hj hi hpi hpj
    match i, j with
    | 0, j + 1 =>
      have hpa : p a := hpi
      have hjl : j < l.length := by simpa using hj
      have hpos : 0 < l.countP p :=
        List.countP_pos_iff.mpr ⟨l.get ⟨j, hjl⟩, List.get_mem l j hjl, hpj⟩
      rw [List.countP_cons, if_pos hpa]
      omega
    | i + 1, j + 1 =>
      have hil : i < l.length := by simpa using hi
      have hjl : j < l.length := by simpa using hj
      have := ih i j (by omega) hjl hil hpi hpj
      rw [List.countP_cons]
      omega

theorem countP_one_index_unique (l : List TACInstruction) (p : TACInstruction → Bool)
    (h : l.countP p = 1) (i j : Nat) (hi : i < l.length) (hj : j < l.length)
    (hpi : p (l.get ⟨i, hi⟩)) (hpj : p (l.get ⟨j, hj⟩)) : i = j := by
  rcases Nat.lt_trichotomy i j with hlt | heq | hgt
  · exact absurd (two_le_countP l p i j hlt hj hi hpi hpj) (by omega)
  · exact heq
  · exact absurd (two_le_countP l p j i hgt hi hj hpj hpi) (by omega)

theorem TempInvL_nil : TempInvL [] 0 := by
  refine ⟨?_, ?_, ?_⟩
  · rintro n ⟨i, hi, -⟩
    simp at hi
  · intro n
    simp [resCount]
  · intro n j hj
    simp at hj

theorem TempInvL_mono (l : List TACInstruction) (tc tc2 : Nat) (h : tc ≤ tc2)
    (hInv : TempInvL l tc) : TempInvL l tc2 := by
  obtain ⟨hA, hB, hC⟩ := hInv
  exact ⟨fun n hocc => lt_of_lt_of_le (hA n hocc) h, hB, hC⟩

theorem get_append_sing_left (l : List TACInstruction) (ins : TACInstruction)
    (i : Nat) (hi : i < l.length) (h : i < (l ++ [ins]).length) :
    (l ++ [ins]).get ⟨i, h⟩ = l.get ⟨i, hi⟩ := by
  simp [List.get_eq_getElem, List.getElem_append_left hi]

theorem get_append_sing_last (l : List TACInstruction) (ins : TACInstruction)
    (h : l.length < (l ++ [ins]).length) :
    (l ++ [ins]).get ⟨l.length, h⟩ = ins := by
  simp [List.get_eq_getElem]

theorem TempInvL_snoc_nonTemp (l : List TACInstruction) (tc : Nat) (ins : TACInstruction)
    (hres : ∀ n, ins.result ≠ some (tempName n))
    (h1 : ∀ n, ins.arg1 = some (tempName n) → definedIn l n)
    (h2 : ∀ n, ins.arg2 = some (tempName n) → definedIn l n)
    (hInv : TempInvL l tc) : TempInvL (l ++ [ins]) tc := by
  obtain ⟨hA, hB, hC⟩ := hInv
  refine ⟨?_, ?_, ?_⟩
  · rintro n ⟨i, hmem, hcase⟩
    rcases List.mem_append.1 hmem with hml | hms
    · exact hA n ⟨i, hml, hcase⟩
    · have hieq : i = ins := by simpa using hms
      subst hieq
      rcases hcase with hd | ha | ha
      · exact absurd hd (hres n)
      · exact hA n (definedIn_occurs l n (h1 n ha))
      · exact hA n (definedIn_occurs l n (h2 n ha))
  · intro n
    rw [resCount_append, resCount_singleton, if_neg (hres n)]
    have := hB n
    omega
  · intro n j hj hu
    by_cases hjl : j < l.length
    · rw [get_append_sing_left l ins j hjl hj] at hu
      obtain ⟨i, hij, hi, hd⟩ := hC n j hjl hu
      exact ⟨i, hij, by simp; omega,
        by rw [get_append_sing_left l ins i hi (by simp; omega)]; exact hd⟩
    · have hje : j = l.length := by simp at hj; omega
      subst hje
      rw [get_append_sing_last l ins hj] at hu
      have hdef : definedIn l n := by
        rcases hu with ha | ha
        · exact h1 n ha
        · exact h2 n ha
      obtain ⟨i, hi, hd⟩ := hdef
      exact ⟨i, hi, by simp; omega,
        by rw [get_append_sing_left l ins i hi (by simp; omega)]; exact hd⟩

theorem TempInvL_snoc_newTemp (l : List TACInstruction) (tc : Nat)
    (op : String) (a1 a2 : Option String)
    (h1 : ∀ n, a1 = some (tempName n) → definedIn l n)
    (h2 : ∀ n, a2 = some (tempName n) → definedIn l n)
    (hInv : TempInvL l tc) :
    TempInvL (l ++ [⟨op, a1, a2, some (tempName tc)⟩]) (tc + 1) := by
  obtain ⟨hA, hB, hC⟩ := hInv
  refine ⟨?_, ?_, ?_⟩
  · rintro n ⟨i, hmem, hcase⟩
    rcases List.mem_append.1 hmem with hml | hms
    · exact lt_trans (hA n ⟨i, hml, hcase⟩) (by omega)
    · have hieq : i = (⟨op, a1, a2, some (tempName tc)⟩ : TACInstruction) := by
        simpa using hms
      subst hieq
      rcases hcase with hd | ha | ha
      · have heq : tc = n := (tempName_eq_iff tc n).1 (by simpa [definesOperand] using hd)
        omega
      · exact lt_trans (hA n (definedIn_occurs l n (h1 n ha))) (by omega)
      · exact lt_trans (hA n (definedIn_occurs l n (h2 n ha))) (by omega)
  · intro n
    rw [resCount_append, resCount_singleton]
    by_cases hne : n = tc
    · subst hne
      have hz : resCount l (tempName n) = 0 :=
        resCount_eq_zero_of_not_occurs l n (fun hocc => absurd (hA n hocc) (by omega))
      simp [hz]
    · have hne2 : (⟨op, a1, a2, some (tempName tc)⟩ : TACInstruction).result ≠
          some (tempName n) := by
        simp [tempName_eq_iff]
        omega
      rw [if_neg hne2]
      have := hB n
      omega
  · intro n j hj hu
    by_cases hjl : j < l.length
    · rw [get_append_sing_left l _ j hjl hj] at hu
      obtain ⟨i, hij, hi, hd⟩ := hC n j hjl hu
      exact ⟨i, hij, by simp; omega,
        by rw [get_append_sing_left l _ i hi (by simp; omega)]; exact hd⟩
    · have hje : j = l.length := by simp at hj; omega
      subst hje
      rw [get_append_sing_last l _ hj] at hu
      have hdef : definedIn l n := by
        rcases hu with ha | ha
        · exact h1 n (by simpa using ha)
        · exact h2 n (by simpa using ha)
      obtain ⟨i, hi, hd⟩ := hdef
      exact ⟨i, hi, by simp; omega,
        by rw [get_append_sing_left l _ i hi (by simp; omega)]; exact hd⟩

theorem LabelSpec_noControl (Δ : List TACInstruction) (h : noControl Δ) (lc : Nat) :
    LabelSpec Δ lc lc := by
  refine ⟨?_, ?_, ?_, ?_, ?_⟩
  · rw [Nat.sub_self, List.countP_eq_zero]
    intro i hi
    simpa using (h i hi).1
  · intro i hi hop
    exact absurd hop (h i hi).1
  · intro m hm1 hm2
    omega
  · intro i hi hop
    rcases hop with hg | hf
    · exact absurd hg (h i hi).2.1
    · exact absurd hf (h i hi).2.2
  · intro m hm1 hm2
    omega

theorem LabelSpec_nil (lc : Nat) : LabelSpec [] lc lc :=
  LabelSpec_noControl [] (by intro i hi; simp at hi) lc

theorem labelCount_zero_of_out (Δ : List TACInstruction) (lc lc2 : Nat)
    (hmem : ∀ i ∈ Δ, i.operation = "label" →
      ∃ m, lc ≤ m ∧ m < lc2 ∧ i.result = some (labelName m))
    (m : Nat) (hm : m < lc ∨ lc2 ≤ m) :
    Δ.countP (fun i => i.operation == "label" && i.result == some (labelName m)) = 0 := by
  rw [List.countP_eq_zero]
  intro i hi hb
  simp only [Bool.and_eq_true, beq_iff_eq] at hb
  obtain ⟨m2, hm1, hm2, hres⟩ := hmem i hi hb.1
  rw [hres] at hb
  have : m2 = m := labelName_injective m2 m (by simpa using hb.2)
  omega

theorem LabelSpec_append (Δ1 Δ2 : List TACInstruction) (a b c : Nat)
    (h1 : LabelSpec Δ1 a b) (h2 : LabelSpec Δ2 b c) (hab : a ≤ b) (hbc : b ≤ c) :
    LabelSpec (Δ1 ++ Δ2) a c := by
  obtain ⟨hA1, hB1, hC1, hD1, hE1⟩ := h1
  obtain ⟨hA2, hB2, hC2, hD2, hE2⟩ := h2
  refine ⟨?_, ?_, ?_, ?_, ?_⟩
  · rw [List.countP_append, hA1, hA2]
    omega
  · intro i hi hop
    rcases List.mem_append.1 hi with hm | hm
    · obtain ⟨m, hx, hy, hz⟩ := hB1 i hm hop
      exact ⟨m, by omega, by omega, hz⟩
    · obtain ⟨m, hx, hy, hz⟩ := hB2 i hm hop
      exact ⟨m, by omega, by omega, hz⟩
  · intro m hm1 hm2
    rw [List.countP_append]
    by_cases hmb : m < b
    · rw [hC1 m hm1 hmb, labelCount_zero_of_out Δ2 b c hB2 m (Or.inl hmb)]
    · rw [hC2 m (by omega) hm2, labelCount_zero_of_out Δ1 a b hB1 m (Or.inr (by omega))]
  · intro i hi hop
    rcases List.mem_append.1 hi with hm | hm
    · obtain ⟨m, hx, hy, hz⟩ := hD1 i hm hop
      exact ⟨m, by omega, by omega, hz⟩
    · obtain ⟨m, hx, hy, hz⟩ := hD2 i hm hop
      exact ⟨m, by omega, by omega, hz⟩
  · intro m hm1 hm2
    by_cases hmb : m < b
    · obtain ⟨i, hi, hp⟩ := hE1 m hm1 hmb
      exact ⟨i, List.mem_append.2 (Or.inl hi), hp⟩
    · obtain ⟨i, hi, hp⟩ := hE2 m (by omega) hm2
      exact ⟨i, List.mem_append.2 (Or.inr hi), hp⟩

theorem LabelSpec_perm (Δ Δ2 : List TACInstruction) (h : Δ.Perm Δ2) (lc lc2 : Nat)
    (hL : LabelSpec Δ2 lc lc2) : LabelSpec Δ lc lc2 := by
  obtain ⟨hA, hB, hC, hD, hE⟩ := hL
  refine ⟨?_, ?_, ?_, ?_, ?_⟩
  · rw [h.countP_eq]
    exact hA
  · intro i hi
    exact hB i (h.mem_iff.1 hi)
  · intro m h1 h2
    rw [h.countP_eq]
    exact hC m h1 h2
  · intro i hi
    exact hD i (h.mem_iff.1 hi)
  · intro m h1 h2
    obtain ⟨i, hi, hp⟩ := hE m h1 h2
    exact ⟨i, h.mem_iff.2 hi, hp⟩

theorem LabelSpec_pair (opJ : String) (a1 : Option String) (lc : Nat)
    (hop : opJ = "goto" ∨ opJ = "if_false") :
    LabelSpec [⟨opJ, a1, Option.none, some (labelName lc)⟩,
      ⟨"label", Option.none, Option.none, some (labelName lc)⟩] lc (lc + 1) := by
  have hopL : (opJ == "label") = false := by
    rcases hop with h | h <;> subst h <;> decide
  have hopP : opJ ≠ "label" := by
    rcases hop with h | h <;> subst h <;> decide
  refine ⟨?_, ?_, ?_, ?_, ?_⟩
  · simp [List.countP_cons, hopL]
  · intro i hi hl
    rcases List.mem_pair.1 hi with hi | hi
    · rw [hi] at hl
      exact absurd hl hopP
    · rw [hi]
      exact ⟨lc, le_refl lc, by omega, rfl⟩
  · intro m hm1 hm2
    have hme : m = lc := by omega
    rw [hme]
    simp [List.countP_cons, hopL]
  · intro i hi hl
    rcases List.mem_pair.1 hi with hi | hi
    · rw [hi]
      exact ⟨lc, le_refl lc, by omega, rfl⟩
    · rw [hi] at hl
      simp at hl
  · intro m hm1 hm2
    have hme : m = lc := by omega
    exact ⟨⟨opJ, a1, Option.none, some (labelName lc)⟩, by simp, hop, by rw [hme]⟩

theorem LabelSpec_if_shape (Δc Δt : List TACInstruction) (cOp : String) (lc lc2 : Nat)
    (hc : noControl Δc) (ht : LabelSpec Δt (lc + 1) lc2) (hlc : lc + 1 ≤ lc2) :
    LabelSpec (Δc ++ ⟨"if_false", some cOp, Option.none, some (labelName lc)⟩ ::
      (Δt ++ [⟨"label", Option.none, Option.none, some (labelName lc)⟩])) lc lc2 := by
  apply LabelSpec_perm _
    (Δc ++ ([⟨"if_false", some cOp, Option.none, some (labelName lc)⟩,
      ⟨"label", Option.none, Option.none, some (labelName lc)⟩] ++ Δt)) ?_ lc lc2 ?_
  · exact (((List.perm_append_singleton _ _).cons _)).append_left Δc
  · exact LabelSpec_append _ _ lc lc lc2 (LabelSpec_noControl Δc hc lc)
      (LabelSpec_append _ _ lc (lc + 1) lc2
        (LabelSpec_pair "if_false" (some cOp) lc (Or.inr rfl)) ht (by omega) (by omega))
      (le_refl lc) (by omega)

theorem LabelSpec_while_shape (Δc Δb : List TACInstruction) (cOp : String) (lc lc2 : Nat)
    (hc : noControl Δc) (hb : LabelSpec Δb (lc + 2) lc2) (hlc : lc + 2 ≤ lc2) :
    LabelSpec (⟨"label", Option.none, Option.none, some (labelName lc)⟩ ::
      (Δc ++ ⟨"if_false", some cOp, Option.none, some (labelName (lc + 1))⟩ ::
        (Δb ++ [⟨"goto", Option.none, Option.none, some (labelName lc)⟩,
          ⟨"label", Option.none, Option.none, some (labelName (lc + 1))⟩]))) lc lc2 := by
  apply LabelSpec_perm _
    (Δc ++ ([⟨"goto", Option.none, Option.none, some (labelName lc)⟩,
        ⟨"label", Option.none, Option.none, some (labelName lc)⟩] ++
      ([⟨"if_false", some cOp, Option.none, some (labelName (lc + 1))⟩,
        ⟨"label", Option.none, Option.none, some (labelName (lc + 1))⟩] ++ Δb))) ?_ lc lc2 ?_
  · refine List.perm_iff_count.2 ?_
    intro a
    simp only [List.count_cons, List.count_append, List.count_nil,
      List.count_singleton]
    omega
  · exact LabelSpec_append _ _ lc lc lc2 (LabelSpec_noControl Δc hc lc)
      (LabelSpec_append _ _ lc (lc + 1) lc2
        (LabelSpec_pair "goto" Option.none lc (Or.inl rfl))
        (LabelSpec_append _ _ (lc + 1) (lc + 2) lc2
          (LabelSpec_pair "if_false" (some cOp) (lc + 1) (Or.inr rfl)) hb
          (by omega) (by omega))
        (by omega) (by omega))
      (le_refl lc) (by omega)

theorem LabelSpec_ifElse_shape (Δc Δt Δe : List TACInstruction) (cOp : String)
    (lc lcA lc2 : Nat) (hc : noControl Δc) (ht : LabelSpec Δt (lc + 2) lcA)
    (he : LabelSpec Δe lcA lc2) (h1 : lc + 2 ≤ lcA) (h2 : lcA ≤ lc2) :
    LabelSpec (Δc ++ ⟨"if_false", some cOp, Option.none, some (labelName lc)⟩ ::
      (Δt ++ ⟨"goto", Option.none, Option.none, some (labelName (lc + 1))⟩ ::
        ⟨"label", Option.none, Option.none, some (labelName lc)⟩ ::
          (Δe ++ [⟨"label", Option.none, Option.none, some (labelName (lc + 1))⟩]))) lc lc2 := by
  apply LabelSpec_perm _
    (Δc ++ ([⟨"if_false", some cOp, Option.none, some (labelName lc)⟩,
        ⟨"label", Option.none, Option.none, some (labelName lc)⟩] ++
      ([⟨"goto", Option.none, Option.none, some (labelName (lc + 1))⟩,
        ⟨"label", Option.none, Option.none, some (labelName (lc + 1))⟩] ++
        (Δt ++ Δe)))) ?_ lc lc2 ?_
  · refine List.perm_iff_count.2 ?_
    intro a
    simp only [List.count_cons, List.count_append, List.count_nil,
      List.count_singleton]
    omega
  · exact LabelSpec_append _ _ lc lc lc2 (LabelSpec_noControl Δc hc lc)
      (LabelSpec_append _ _ lc (lc + 1) lc2
        (LabelSpec_pair "if_false" (some cOp) lc (Or.inr rfl))
        (LabelSpec_append _ _ (lc + 1) (lc + 2) lc2
          (LabelSpec_pair "goto" Option.none (lc + 1) (Or.inl rfl))
          (LabelSpec_append _ _ (lc + 2) lcA lc2 ht he (by omega) h2)
          (by omega) (by omega))
        (by omega) (by omega))
      (le_refl lc) (by omega)

theorem binOp_str_not_control (op : BinOp) :
    op.str ≠ "label" ∧ op.str ≠ "goto" ∧ op.str ≠ "if_false" := by
  cases op <;> exact ⟨by decide, by decide, by decide⟩

theorem unOp_str_not_control (op : UnOp) :
    op.str ≠ "label" ∧ op.str ≠ "goto" ∧ op.str ≠ "if_false" := by
  cases op <;> exact ⟨by decide, by decide, by decide⟩

theorem noControl_nil : noControl [] := by
  intro i hi
  simp at hi

theorem noControl_append (Δ1 Δ2 : List TACInstruction)
    (h1 : noControl Δ1) (h2 : noControl Δ2) : noControl (Δ1 ++ Δ2) := by
  intro i hi
  rcases List.mem_append.1 hi with h | h
  · exact h1 i h
  · exact h2 i h

theorem noControl_singleton (ins : TACInstruction)
    (h : ins.operation ≠ "label" ∧ ins.operation ≠ "goto" ∧ ins.operation ≠ "if_false") :
    noControl [ins] := by
  intro i hi
  rw [List.mem_singleton.1 hi]
  exact h

theorem exprEmits_binary :
    ∀ (cg : CodeGenerator) (op : BinOp) (a b : Expr) (line col : Nat)
      (lt : String) (cg1 : CodeGenerator),
      Codegen.visit_expression cg a = (lt, cg1) →
      ∀ (rt : String) (cg2 : CodeGenerator),
        Codegen.visit_expression cg1 b = (rt, cg2) →
        ∀ (t : String) (cg3 : CodeGenerator),
          new_temp cg2 = (t, cg3) →
          ExprEmits cg a → ExprEmits cg1 b →
          ExprEmits cg (Expr.binary op a b line col) := by
  intro cg op a b line col lt cg1 hA rt cg2 hB t cg3 hT iha ihb
  rw [new_temp] at hT
  injection hT with ht hcg3
  subst hcg3
  subst ht
  have hv : Codegen.visit_expression cg (Expr.binary op a b line col) =
      (tempName cg2.temp_counter,
       emit { cg2 with temp_counter := cg2.temp_counter + 1 } op.str (some lt)
         (some rt) (some (tempName cg2.temp_counter))) := by
    simp only [Codegen.visit_expression, new_temp]
    rw [hA]
    dsimp only
    rw [hB]
  simp only [ExprEmits] at iha ihb ⊢
  rw [hA] at iha
  rw [hB] at ihb
  dsimp only at iha ihb
  rw [hv]
  dsimp only
  obtain ⟨⟨Δa, hΔa, hnca⟩, hlca, htca, hpa⟩ := iha
  obtain ⟨⟨Δb, hΔb, hncb⟩, hlcb, htcb, hpb⟩ := ihb
  refine ⟨⟨Δa ++ (Δb ++ [⟨op.str, some lt, some rt,
    some (tempName cg2.temp_counter)⟩]), ?_, ?_⟩, ?_, ?_, ?_⟩
  · show cg2.instructions ++ _ = cg.instructions ++ _
    rw [hΔb, hΔa]
    simp [List.append_assoc]
  · exact noControl_append _ _ hnca (noControl_append _ _ hncb
      (noControl_singleton _ (binOp_str_not_control op)))
  · show cg2.label_counter = cg.label_counter
    rw [hlcb, hlca]
  · show cg.temp_counter ≤ cg2.temp_counter + 1
    omega
  · intro hnames hInv
    have hna : ∀ m, tempName m ∉ exprNames a := by
      intro m hm
      exact hnames m (by simp [exprNames]; exact Or.inl hm)
    have hnb : ∀ m, tempName m ∉ exprNames b := by
      intro m hm
      exact hnames m (by simp [exprNames]; exact Or.inr hm)
    obtain ⟨hInv1, hdefa⟩ := hpa hna hInv
    obtain ⟨hInv2, hdefb⟩ := hpb hnb hInv1
    constructor
    · show TempInvL (cg2.instructions ++ _) (cg2.temp_counter + 1)
      exact TempInvL_snoc_newTemp cg2.instructions cg2.temp_counter op.str
        (some lt) (some rt)
        (fun n hn => by
          rw [hΔb]
          exact definedIn_append _ _ _ (hdefa n (by injection hn)))
        (fun n hn => hdefb n (by injection hn))
        hInv2
    · intro n hn
      have hne : cg2.temp_counter = n := tempName_injective _ _ hn
      exact definedIn_snoc_self cg2.instructions _ n (by rw [hne])

theorem exprEmits_unary :
    ∀ (cg : CodeGenerator) (op : UnOp) (e : Expr) (line col : Nat)
      (ot : String) (cg1 : CodeGenerator),
      Codegen.visit_expression cg e = (ot, cg1) →
      ∀ (t : String) (cg2 : CodeGenerator),
        new_temp cg1 = (t, cg2) →
        ExprEmits cg e → ExprEmits cg (Expr.unary op e line col) := by
  intro cg op e line col ot cg1 hA t cg2 hT ihe
  rw [new_temp] at hT
  injection hT with ht hcg2
  subst hcg2
  subst ht
  have hv : Codegen.visit_expression cg (Expr.unary op e line col) =
      (tempName cg1.temp_counter,
       emit { cg1 with temp_counter := cg1.temp_counter + 1 } op.str (some ot)
         Option.none (some (tempName cg1.temp_counter))) := by
    simp only [Codegen.visit_expression, new_temp]
    rw [hA]
  simp only [ExprEmits] at ihe ⊢
  rw [hA] at ihe
  dsimp only at ihe
  rw [hv]
  dsimp only
  obtain ⟨⟨Δe, hΔe, hnce⟩, hlce, htce, hpe⟩ := ihe
  refine ⟨⟨Δe ++ [⟨op.str, some ot, Option.none,
    some (tempName cg1.temp_counter)⟩], ?_, ?_⟩, ?_, ?_, ?_⟩
  · show cg1.instructions ++ _ = cg.instructions ++ _
    rw [hΔe]
    simp [List.append_assoc]
  · exact noControl_append _ _ hnce
      (noControl_singleton _ (unOp_str_not_control op))
  · show cg1.label_counter = cg.label_counter
    rw [hlce]
  · show cg.temp_counter ≤ cg1.temp_counter + 1
    omega
  · intro hnames hInv
    have hne2 : ∀ m, tempName m ∉ exprNames e := by
      intro m hm
      exact hnames m (by simpa [exprNames] using hm)
    obtain ⟨hInv1, hdefe⟩ := hpe hne2 hInv
    constructor
    · show TempInvL (cg1.instructions ++ _) (cg1.temp_counter + 1)
      exact TempInvL_snoc_newTemp cg1.instructions cg1.temp_counter op.str
        (some ot) Option.none
        (fun n hn => hdefe n (by injection hn))
        (fun n hn => by simp at hn)
        hInv1
    · intro n hn
      have hne : cg1.temp_counter = n := tempName_injective _ _ hn
      exact definedIn_snoc_self cg1.instructions _ n (by rw [hne])

theorem exprEmits_intLit :
    ∀ (cg : CodeGenerator) (n line col : Nat),
      ExprEmits cg (Expr.intLit n line col) := by
  intro cg n line col
  simp only [ExprEmits, Codegen.visit_expression]
  refine ⟨⟨[], by simp, noControl_nil⟩, by simp, by simp, ?_⟩
  intro _ hInv
  exact ⟨hInv, fun n2 hn2 => absurd hn2 (natRepr_ne_tempName n n2)⟩

theorem exprEmits_floatLit :
    ∀ (cg : CodeGenerator) (ip fr line col : Nat),
      ExprEmits cg (Expr.floatLit ip fr line col) := by
  intro cg ip fr line col
  simp only [ExprEmits, Codegen.visit_expression]
  refine ⟨⟨[], by simp, noControl_nil⟩, by simp, by simp, ?_⟩
  intro _ hInv
  exact ⟨hInv, fun n2 hn2 => absurd hn2 (floatRender_ne_tempName ip fr n2)⟩

theorem exprEmits_strLit :
    ∀ (cg : CodeGenerator) (s : String) (line col : Nat),
      ExprEmits cg (Expr.strLit s line col) := by
  intro cg s line col
  simp only [ExprEmits, Codegen.visit_expression]
  refine ⟨⟨[], by simp, noControl_nil⟩, by simp, by simp, ?_⟩
  intro _ hInv
  exact ⟨hInv, fun n2 hn2 => absurd hn2 (strRender_ne_tempName s n2)⟩

theorem exprEmits_ident :
    ∀ (cg : CodeGenerator) (name : String) (line col : Nat),
      ExprEmits cg (Expr.ident name line col) := by
  intro cg name line col
  simp only [ExprEmits, Codegen.visit_expression]
  refine ⟨⟨[], by simp, noControl_nil⟩, by simp, by simp, ?_⟩
  intro hnames hInv
  refine ⟨hInv, fun n2 hn2 => ?_⟩
  exact absurd (by simp [exprNames, hn2]) (hnames n2)

theorem exprEmits_call :
    ∀ (cg : CodeGenerator) (name : String) (args : List Expr) (line col : Nat),
      let cg1 := Codegen.visit_call_args cg args;
      ∀ (t : String) (cg2 : CodeGenerator),
        new_temp cg1 = (t, cg2) →
        ExprListEmits cg args → ExprEmits cg (Expr.call name args line col) := by
  intro cg name args line col
  dsimp only
  intro t cg2 hT ihargs
  rw [new_temp] at hT
  injection hT with ht hcg2
  subst hcg2
  subst ht
  have hv : Codegen.visit_expression cg (Expr.call name args line col) =
      (tempName (Codegen.visit_call_args cg args).temp_counter,
       emit { Codegen.visit_call_args cg args with
           temp_counter := (Codegen.visit_call_args cg args).temp_counter + 1 }
         "call" (some name) (some (Nat.repr args.length))
         (some (tempName (Codegen.visit_call_args cg args).temp_counter))) := by
    simp only [Codegen.visit_expression, new_temp]
  simp only [ExprListEmits] at ihargs
  simp only [ExprEmits]
  rw [hv]
  dsimp only
  obtain ⟨⟨Δa, hΔa, hnca⟩, hlca, htca, hpa⟩ := ihargs
  refine ⟨⟨Δa ++ [⟨"call", some name, some (Nat.repr args.length),
    some (tempName (Codegen.visit_call_args cg args).temp_counter)⟩], ?_, ?_⟩,
    ?_, ?_, ?_⟩
  · show (Codegen.visit_call_args cg args).instructions ++ _ = cg.instructions ++ _
    rw [hΔa]
    simp [List.append_assoc]
  · exact noControl_append _ _ hnca
      (noControl_singleton _ ⟨by simp, by simp, by simp⟩)
  · show (Codegen.visit_call_args cg args).label_counter = cg.label_counter
    rw [hlca]
  · show cg.temp_counter ≤ (Codegen.visit_call_args cg args).temp_counter + 1
    omega
  · intro hnames hInv
    have hna : ∀ m, tempName m ∉ exprNamesList args := by
      intro m hm
      exact hnames m (by simp [exprNames]; exact Or.inr hm)
    have hInv1 := hpa hna hInv
    constructor
    · show TempInvL ((Codegen.visit_call_args cg args).instructions ++ _)
        ((Codegen.visit_call_args cg args).temp_counter + 1)
      refine TempInvL_snoc_newTemp (Codegen.visit_call_args cg args).instructions
        (Codegen.visit_call_args cg args).temp_counter "call"
        (some name) (some (Nat.repr args.length)) ?_ ?_ hInv1
      · intro n hn
        have : name = tempName n := by injection hn
        exact absurd (by simp [exprNames, this]) (hnames n)
      · intro n hn
        have : Nat.repr args.length = tempName n := by injection hn
        exact absurd this (natRepr_ne_tempName args.length n)
    · intro n hn
      have hne : (Codegen.visit_call_args cg args).temp_counter = n :=
        tempName_injective _ _ hn
      exact definedIn_snoc_self (Codegen.visit_call_args cg args).instructions _ n
        (by rw [hne])

theorem exprListEmits_nil :
    ∀ (cg : CodeGenerator), ExprListEmits cg [] := by
  intro cg
  simp only [ExprListEmits, Codegen.visit_call_args]
  exact ⟨⟨[], by simp, noControl_nil⟩, by simp, by simp, fun _ hInv => hInv⟩

theorem exprListEmits_cons :
    ∀ (cg : CodeGenerator) (e : Expr) (es : List Expr) (v : String)
      (cg1 : CodeGenerator),
      Codegen.visit_expression cg e = (v, cg1) →
      ExprEmits cg e →
      ExprListEmits (emit cg1 "param" (some v) Option.none Option.none) es →
      ExprListEmits cg (e :: es) := by
  intro cg e es v cg1 hA ihe ihes
  have hv : Codegen.visit_call_args cg (e :: es) =
      Codegen.visit_call_args (emit cg1 "param" (some v) Option.none Option.none) es := by
    simp only [Codegen.visit_call_args]
    rw [hA]
  simp only [ExprEmits] at ihe
  rw [hA] at ihe
  dsimp only at ihe
  simp only [ExprListEmits] at ihes ⊢
  rw [hv]
  obtain ⟨⟨Δe, hΔe, hnce⟩, hlce, htce, hpe⟩ := ihe
  obtain ⟨⟨Δs, hΔs, hncs⟩, hlcs, htcs, hps⟩ := ihes
  refine ⟨⟨Δe ++ ([⟨"param", some v, Option.none, Option.none⟩] ++ Δs), ?_, ?_⟩,
    ?_, ?_, ?_⟩
  · rw [hΔs]
    show cg1.instructions ++ _ ++ _ = _
    rw [hΔe]
    simp [List.append_assoc]
  · exact noControl_append _ _ hnce (noControl_append _ _
      (noControl_singleton _ ⟨by simp, by simp, by simp⟩) hncs)
  · rw [hlcs]
    show cg1.label_counter = cg.label_counter
    rw [hlce]
  · have : cg1.temp_counter ≤ _ := htcs
    omega
  · intro hnames hInv
    have hne2 : ∀ m, tempName m ∉ exprNames e := by
      intro m hm
      exact hnames m (by simp [exprNamesList]; exact Or.inl hm)
    have hns : ∀ m, tempName m ∉ exprNamesList es := by
      intro m hm
      exact hnames m (by simp [exprNamesList]; exact Or.inr hm)
    obtain ⟨hInv1, hdefe⟩ := hpe hne2 hInv
    refine hps hns ?_
    show TempInvL (cg1.instructions ++ _) cg1.temp_counter
    exact TempInvL_snoc_nonTemp cg1.instructions cg1.temp_counter _
      (fun n => by simp)
      (fun n hn => hdefe n (by injection hn))
      (fun n hn => by simp at hn)
      hInv1

theorem expr_emits_all (cg : CodeGenerator) (e : Expr) : ExprEmits cg e := by
  refine Codegen.visit_expression.induct (fun cg e => ExprEmits cg e)
    (fun cg es => ExprListEmits cg es) ?_ ?_ ?_ ?_ ?_ ?_ ?_ ?_ ?_ cg e
  · exact exprEmits_binary
  · exact exprEmits_unary
  · exact exprEmits_intLit
  · exact exprEmits_floatLit
  · exact exprEmits_strLit
  · exact exprEmits_ident
  · exact exprEmits_call
  · exact exprListEmits_nil
  · exact exprListEmits_cons

theorem exprlist_emits_all (cg : CodeGenerator) (es : List Expr) :
    ExprListEmits cg es := by
  refine Codegen.visit_call_args.induct (fun cg e => ExprEmits cg e)
    (fun cg es => ExprListEmits cg es) ?_ ?_ ?_ ?_ ?_ ?_ ?_ ?_ ?_ cg es
  · exact exprEmits_binary
  · exact exprEmits_unary
  · exact exprEmits_intLit
  · exact exprEmits_floatLit
  · exact exprEmits_strLit
  · exact exprEmits_ident
  · exact exprEmits_call
  · exact exprListEmits_nil
  · exact exprListEmits_cons

theorem emitAfterExpr_spec (cg cg1 : CodeGenerator) (value : Expr) (v : String)
    (hE : Codegen.visit_expression cg value = (v, cg1))
    (opStr : String) (res : Option String)
    (hop : opStr ≠ "label" ∧ opStr ≠ "goto" ∧ opStr ≠ "if_false") :
    (∃ Δ, (emit cg1 opStr (some v) Option.none res).instructions =
      cg.instructions ++ Δ ∧ noControl Δ) ∧
    (emit cg1 opStr (some v) Option.none res).label_counter = cg.label_counter ∧
    cg.temp_counter ≤ (emit cg1 opStr (some v) Option.none res).temp_counter ∧
    ((∀ m, tempName m ∉ exprNames value) → (∀ n, res ≠ some (tempName n)) →
      TempInv cg → TempInv (emit cg1 opStr (some v) Option.none res)) := by
  have ih := expr_emits_all cg value
  simp only [ExprEmits] at ih
  rw [hE] at ih
  dsimp only at ih
  obtain ⟨⟨Δe, hΔe, hnce⟩, hlce, htce, hpe⟩ := ih
  refine ⟨⟨Δe ++ [⟨opStr, some v, Option.none, res⟩], ?_, ?_⟩, ?_, ?_, ?_⟩
  · show cg1.instructions ++ _ = _
    rw [hΔe]
    simp [List.append_assoc]
  · exact noControl_append _ _ hnce (noControl_singleton _ hop)
  · exact hlce
  · exact htce
  · intro hnames hres hInv
    obtain ⟨hInv1, hdefe⟩ := hpe hnames hInv
    show TempInvL (cg1.instructions ++ _) cg1.temp_counter
    exact TempInvL_snoc_nonTemp cg1.instructions cg1.temp_counter _ hres
      (fun n hn => hdefe n (by injection hn))
      (fun n hn => by simp at hn) hInv1

theorem stmtEmits_varDecl :
    ∀ (cg : CodeGenerator) (name : String) (value : Expr) (line col : Nat),
      StmtEmits cg (Stmt.varDecl name value line col) := by
  intro cg name value line col
  rcases hE : Codegen.visit_expression cg value with ⟨v, cg1⟩
  have hv : Codegen.visit_statement cg (Stmt.varDecl name value line col) =
      emit cg1 "=" (some v) Option.none (some name) := by
    simp only [Codegen.visit_statement, Codegen.visit_var_declaration]
    rw [hE]
  obtain ⟨hΔ, hlc, htc, hinv⟩ :=
    emitAfterExpr_spec cg cg1 value v hE "=" (some name)
      ⟨by decide, by decide, by decide⟩
  simp only [StmtEmits]
  rw [hv]
  refine ⟨?_, htc, by rw [hlc], ?_⟩
  · obtain ⟨Δ, hΔe, hnc⟩ := hΔ
    exact ⟨Δ, hΔe, by rw [hlc]; exact LabelSpec_noControl Δ hnc cg.label_counter⟩
  · intro hnames hInv
    refine hinv (fun m hm => hnames m (by simp [stmtNames]; exact Or.inr hm)) ?_ hInv
    intro n hn
    have hne : name = tempName n := by injection hn
    exact hnames n (by simp [stmtNames, hne])

theorem stmtEmits_assign :
    ∀ (cg : CodeGenerator) (name : String) (value : Expr) (line col : Nat),
      StmtEmits cg (Stmt.assign name value line col) := by
  intro cg name value line col
  rcases hE : Codegen.visit_expression cg value with ⟨v, cg1⟩
  have hv : Codegen.visit_statement cg (Stmt.assign name value line col) =
      emit cg1 "=" (some v) Option.none (some name) := by
    simp only [Codegen.visit_statement, Codegen.visit_assignment]
    rw [hE]
  obtain ⟨hΔ, hlc, htc, hinv⟩ :=
    emitAfterExpr_spec cg cg1 value v hE "=" (some name)
      ⟨by decide, by decide, by decide⟩
  simp only [StmtEmits]
  rw [hv]
  refine ⟨?_, htc, by rw [hlc], ?_⟩
  · obtain ⟨Δ, hΔe, hnc⟩ := hΔ
    exact ⟨Δ, hΔe, by rw [hlc]; exact LabelSpec_noControl Δ hnc cg.label_counter⟩
  · intro hnames hInv
    refine hinv (fun m hm => hnames m (by simp [stmtNames]; exact Or.inr hm)) ?_ hInv
    intro n hn
    have hne : name = tempName n := by injection hn
    exact hnames n (by simp [stmtNames, hne])

theorem stmtEmits_ret :
    ∀ (cg : CodeGenerator) (value : Expr) (line col : Nat),
      StmtEmits cg (Stmt.ret value line col) := by
  intro cg value line col
  rcases hE : Codegen.visit_expression cg value with ⟨v, cg1⟩
  have hv : Codegen.visit_statement cg (Stmt.ret value line col) =
      emit cg1 "return" (some v) Option.none Option.none := by
    simp only [Codegen.visit_statement, Codegen.visit_return_statement]
    rw [hE]
  obtain ⟨hΔ, hlc, htc, hinv⟩ :=
    emitAfterExpr_spec cg cg1 value v hE "return" Option.none
      ⟨by decide, by decide, by decide⟩
  simp only [StmtEmits]
  rw [hv]
  refine ⟨?_, htc, by rw [hlc], ?_⟩
  · obtain ⟨Δ, hΔe, hnc⟩ := hΔ
    exact ⟨Δ, hΔe, by rw [hlc]; exact LabelSpec_noControl Δ hnc cg.label_counter⟩
  · intro hnames hInv
    exact hinv (fun m hm => hnames m (by simpa [stmtNames] using hm))
      (fun n => by simp) hInv

theorem stmtEmits_print :
    ∀ (cg : CodeGenerator) (value : Expr) (line col : Nat),
      StmtEmits cg (Stmt.printStmt value line col) := by
  intro cg value line col
  rcases hE : Codegen.visit_expression cg value with ⟨v, cg1⟩
  have hv : Codegen.visit_statement cg (Stmt.printStmt value line col) =
      emit cg1 "print" (some v) Option.none Option.none := by
    simp only [Codegen.visit_statement, Codegen.visit_print_statement]
    rw [hE]
  obtain ⟨hΔ, hlc, htc, hinv⟩ :=
    emitAfterExpr_spec cg cg1 value v hE "print" Option.none
      ⟨by decide, by decide, by decide⟩
  simp only [StmtEmits]
  rw [hv]
  refine ⟨?_, htc, by rw [hlc], ?_⟩
  · obtain ⟨Δ, hΔe, hnc⟩ := hΔ
    exact ⟨Δ, hΔe, by rw [hlc]; exact LabelSpec_noControl Δ hnc cg.label_counter⟩
  · intro hnames hInv
    exact hinv (fun m hm => hnames m (by simpa [stmtNames] using hm))
      (fun n => by simp) hInv

theorem stmtEmits_callStmt :
    ∀ (cg : CodeGenerator) (name : String) (args : List Expr) (line col : Nat),
      StmtEmits cg (Stmt.callStmt name args line col) := by
  intro cg name args line col
  have hv : Codegen.visit_statement cg (Stmt.callStmt name args line col) =
      emit { Codegen.visit_call_args cg args with
          temp_counter := (Codegen.visit_call_args cg args).temp_counter + 1 }
        "call" (some name) (some (Nat.repr args.length))
        (some (tempName (Codegen.visit_call_args cg args).temp_counter)) := by
    simp only [Codegen.visit_statement, Codegen.visit_function_call, new_temp]
  have ih := exprlist_emits_all cg args
  simp only [ExprListEmits] at ih
  obtain ⟨⟨Δa, hΔa, hnca⟩, hlca, htca, hpa⟩ := ih
  simp only [StmtEmits]
  rw [hv]
  refine ⟨⟨Δa ++ [⟨"call", some name, some (Nat.repr args.length),
    some (tempName (Codegen.visit_call_args cg args).temp_counter)⟩], ?_, ?_⟩,
    ?_, ?_, ?_⟩
  · show (Codegen.visit_call_args cg args).instructions ++ _ = cg.instructions ++ _
    rw [hΔa]
    simp [List.append_assoc]
  · show LabelSpec _ cg.label_counter (Codegen.visit_call_args cg args).label_counter
    rw [hlca]
    exact LabelSpec_noControl _ (noControl_append _ _ hnca
      (noControl_singleton _ ⟨by simp, by simp, by simp⟩)) cg.label_counter
  · show cg.temp_counter ≤ (Codegen.visit_call_args cg args).temp_counter + 1
    omega
  · show cg.label_counter ≤ (Codegen.visit_call_args cg args).label_counter
    rw [hlca]
  · intro hnames hInv
    have hna : ∀ m, tempName m ∉ exprNamesList args := by
      intro m hm
      exact hnames m (by simp [stmtNames]; exact Or.inr hm)
    have hInv1 := hpa hna hInv
    show TempInvL ((Codegen.visit_call_args cg args).instructions ++ _)
      ((Codegen.visit_call_args cg args).temp_counter + 1)
    refine TempInvL_snoc_newTemp (Codegen.visit_call_args cg args).instructions
      (Codegen.visit_call_args cg args).temp_counter "call"
      (some name) (some (Nat.repr args.length)) ?_ ?_ hInv1
    · intro n hn
      have hne : name = tempName n := by injection hn
      exact absurd (by simp [stmtNames, hne]) (hnames n)
    · intro n hn
      have hne : Nat.repr args.length = tempName n := by injection hn
      exact absurd hne (natRepr_ne_tempName args.length n)

theorem stmtEmits_funcDef :
    ∀ (cg : CodeGenerator) (name : String) (parameters : List String)
      (body : List Stmt) (line col : Nat),
      StmtListEmits
        (emit
          { instructions := cg.instructions, temp_counter := cg.temp_counter,
            label_counter := cg.label_counter, current_function := some name }
          "begin_func" (some name) Option.none Option.none) body →
      StmtEmits cg (Stmt.funcDef name parameters body line col) := by
  intro cg name parameters body line col ih
  simp only [StmtListEmits] at ih
  obtain ⟨⟨Δb, hΔb, hLSb⟩, htcb, hlcb, hpb⟩ := ih
  have hv : Codegen.visit_statement cg (Stmt.funcDef name parameters body line col) =
      { emit
          (Codegen.visit_statement_list
            (emit
              { instructions := cg.instructions, temp_counter := cg.temp_counter,
                label_counter := cg.label_counter, current_function := some name }
              "begin_func" (some name) Option.none Option.none) body)
          "end_func" (some name) Option.none Option.none with
        current_function := cg.current_function } := by rfl
  simp only [StmtEmits]
  rw [hv]
  refine ⟨⟨⟨"begin_func", some name, Option.none, Option.none⟩ ::
    (Δb ++ [⟨"end_func", some name, Option.none, Option.none⟩]), ?_, ?_⟩, ?_, ?_, ?_⟩
  · show (Codegen.visit_statement_list _ body).instructions ++ _ = _
    rw [hΔb]
    simp [emit, List.append_assoc]
  · show LabelSpec _ cg.label_counter
      (Codegen.visit_statement_list _ body).label_counter
    have h1 : LabelSpec [⟨"begin_func", some name, Option.none, Option.none⟩]
        cg.label_counter cg.label_counter :=
      LabelSpec_noControl _ (noControl_singleton _ ⟨by simp, by simp, by simp⟩) _
    have h3 : LabelSpec [⟨"end_func", some name, Option.none, Option.none⟩]
        (Codegen.visit_statement_list
          (emit
            { instructions := cg.instructions, temp_counter := cg.temp_counter,
              label_counter := cg.label_counter, current_function := some name }
            "begin_func" (some name) Option.none Option.none) body).label_counter
        (Codegen.visit_statement_list
          (emit
            { instructions := cg.instructions, temp_counter := cg.temp_counter,
              label_counter := cg.label_counter, current_function := some name }
            "begin_func" (some name) Option.none Option.none) body).label_counter :=
      LabelSpec_noControl _ (noControl_singleton _ ⟨by simp, by simp, by simp⟩) _
    exact LabelSpec_append _ _ _ _ _ h1
      (LabelSpec_append _ _ _ _ _ hLSb h3 hlcb (le_refl _)) (le_refl _) hlcb
  · exact htcb
  · exact hlcb
  · intro hnames hInv
    have hbody : ∀ m, tempName m ∉ stmtNamesList body := by
      intro m hm
      refine hnames m ?_
      simp [stmtNames]
      exact Or.inr (Or.inr hm)
    have hname : ∀ n, some name ≠ some (tempName n) → True := fun _ _ => trivial
    have hInvB : TempInvL (cg.instructions ++
        [⟨"begin_func", some name, Option.none, Option.none⟩]) cg.temp_counter := by
      refine TempInvL_snoc_nonTemp cg.instructions cg.temp_counter _
        (fun n => by simp) ?_ (fun n hn => by simp at hn) hInv
      intro n hn
      have hne : name = tempName n := by injection hn
      exact absurd (by simp [stmtNames, hne]) (hnames n)
    have hInvL := hpb hbody hInvB
    show TempInvL ((Codegen.visit_statement_list _ body).instructions ++ _)
      (Codegen.visit_statement_list _ body).temp_counter
    refine TempInvL_snoc_nonTemp _ _ _ (fun n => by simp) ?_
      (fun n hn => by simp at hn) hInvL
    intro n hn
    have hne : name = tempName n := by injection hn
    exact absurd (by simp [stmtNames, hne]) (hnames n)

theorem stmtListEmits_nil :
    ∀ (cg : CodeGenerator), StmtListEmits cg [] := by
  intro cg
  simp only [StmtListEmits, Codegen.visit_statement_list]
  exact ⟨⟨[], by simp, LabelSpec_nil _⟩, by simp, by simp, fun _ h => h⟩

theorem stmtListEmits_cons :
    ∀ (cg : CodeGenerator) (s : Stmt) (ss : List Stmt),
      StmtEmits cg s → StmtListEmits (Codegen.visit_statement cg s) ss →
      StmtListEmits cg (s :: ss) := by
  intro cg s ss ih1 ih2
  have hv : Codegen.visit_statement_list cg (s :: ss) =
      Codegen.visit_statement_list (Codegen.visit_statement cg s) ss := by
    simp only [Codegen.visit_statement_list]
  simp only [StmtEmits] at ih1
  simp only [StmtListEmits] at ih2 ⊢
  rw [hv]
  obtain ⟨⟨Δ1, hΔ1, hLS1⟩, htc1, hlc1, hp1⟩ := ih1
  obtain ⟨⟨Δ2, hΔ2, hLS2⟩, htc2, hlc2, hp2⟩ := ih2
  refine ⟨⟨Δ1 ++ Δ2, ?_, ?_⟩, ?_, ?_, ?_⟩
  · rw [hΔ2, hΔ1, List.append_assoc]
  · exact LabelSpec_append Δ1 Δ2 _ _ _ hLS1 hLS2 hlc1 hlc2
  · omega
  · omega
  · intro hnames hInv
    have hn1 : ∀ m, tempName m ∉ stmtNames s := by
      intro m hm
      exact hnames m (by simp [stmtNamesList]; exact Or.inl hm)
    have hn2 : ∀ m, tempName m ∉ stmtNamesList ss := by
      intro m hm
      exact hnames m (by simp [stmtNamesList]; exact Or.inr hm)
    exact hp2 hn2 (hp1 hn1 hInv)

theorem stmtEmits_ifEmptyElse :
    ∀ (cg : CodeGenerator) (cond : Expr) (thenB : List Stmt) (line col : Nat)
      (c : String) (cg1 : CodeGenerator),
      Codegen.visit_expression cg cond = (c, cg1) →
      ∀ (endL : String) (cg2 : CodeGenerator),
        new_label cg1 = (endL, cg2) →
        StmtListEmits (emit cg2 "if_false" (some c) Option.none (some endL)) thenB →
        StmtEmits cg (Stmt.ifStmt cond thenB (some []) line col) := by
  intro cg cond thenB line col c cg1 hE endL cg2 hL ih
  rw [new_label] at hL
  injection hL with hendL hcg2
  subst hcg2
  subst hendL
  have ihe := expr_emits_all cg cond
  simp only [ExprEmits] at ihe
  rw [hE] at ihe
  dsimp only at ihe
  obtain ⟨⟨Δc, hΔc, hncc⟩, hlcc, htcc, hpc⟩ := ihe
  set K : CodeGenerator := emit { cg1 with label_counter := cg1.label_counter + 1 }
    "if_false" (some c) Option.none (some (labelName cg1.label_counter)) with hK
  set T : CodeGenerator := Codegen.visit_statement_list K thenB with hT
  simp only [StmtListEmits] at ih
  obtain ⟨⟨Δt, hΔt, hLSt⟩, htct, hlct, hpt⟩ := ih
  rw [← hT] at hΔt hLSt htct hlct hpt
  have hv : Codegen.visit_statement cg (Stmt.ifStmt cond thenB (some []) line col) =
      emit T "label" Option.none Option.none (some (labelName cg1.label_counter)) := by
    rw [hT, hK]
    simp only [Codegen.visit_statement, new_label]
    rw [hE]
  simp only [StmtEmits]
  rw [hv]
  have hlcK : K.label_counter = cg.label_counter + 1 := by
    rw [hK]
    simp only [emit]
    omega
  have htcK : K.temp_counter = cg1.temp_counter := by
    rw [hK]
    simp only [emit]
  rw [hlcK] at hLSt hlct
  refine ⟨⟨Δc ++ ⟨"if_false", some c, Option.none, some (labelName cg.label_counter)⟩ ::
    (Δt ++ [⟨"label", Option.none, Option.none, some (labelName cg.label_counter)⟩]),
    ?_, ?_⟩, ?_, ?_, ?_⟩
  · show T.instructions ++ _ = _
    rw [hΔt, hK]
    simp only [emit]
    rw [hΔc, hlcc]
    simp [List.append_assoc]
  · show LabelSpec _ cg.label_counter T.label_counter
    exact LabelSpec_if_shape Δc Δt c cg.label_counter T.label_counter hncc hLSt hlct
  · show cg.temp_counter ≤ T.temp_counter
    omega
  · show cg.label_counter ≤ T.label_counter
    omega
  · intro hnames hInv
    have hnc2 : ∀ m, tempName m ∉ exprNames cond := by
      intro m hm
      exact hnames m (by simp [stmtNames, stmtNamesList]; exact Or.inl hm)
    have hnt : ∀ m, tempName m ∉ stmtNamesList thenB := by
      intro m hm
      exact hnames m (by simp [stmtNames, stmtNamesList]; exact Or.inr hm)
    obtain ⟨hInvC, hdefc⟩ := hpc hnc2 hInv
    have hInvK : TempInv K := by
      rw [hK]
      show TempInvL (cg1.instructions ++ _) cg1.temp_counter
      refine TempInvL_snoc_nonTemp _ _ _ ?_ ?_ (fun n hn => by simp at hn) hInvC
      · intro n hn
        injection hn with h
        exact labelName_ne_tempName _ _ h
      · intro n hn
        exact hdefc n (by injection hn)
    have hInvT := hpt hnt hInvK
    show TempInvL (T.instructions ++ _) T.temp_counter
    refine TempInvL_snoc_nonTemp _ _ _ ?_ (fun n hn => by simp at hn)
      (fun n hn => by simp at hn) hInvT
    intro n hn
    injection hn with h
    exact labelName_ne_tempName _ _ h

theorem stmtEmits_ifNone :
    ∀ (cg : CodeGenerator) (cond : Expr) (thenB : List Stmt) (line col : Nat)
      (c : String) (cg1 : CodeGenerator),
      Codegen.visit_expression cg cond = (c, cg1) →
      ∀ (endL : String) (cg2 : CodeGenerator),
        new_label cg1 = (endL, cg2) →
        StmtListEmits (emit cg2 "if_false" (some c) Option.none (some endL)) thenB →
        StmtEmits cg (Stmt.ifStmt cond thenB Option.none line col) := by
  intro cg cond thenB line col c cg1 hE endL cg2 hL ih
  rw [new_label] at hL
  injection hL with hendL hcg2
  subst hcg2
  subst hendL
  have ihe := expr_emits_all cg cond
  simp only [ExprEmits] at ihe
  rw [hE] at ihe
  dsimp only at ihe
  obtain ⟨⟨Δc, hΔc, hncc⟩, hlcc, htcc, hpc⟩ := ihe
  set K : CodeGenerator := emit { cg1 with label_counter := cg1.label_counter + 1 }
    "if_false" (some c) Option.none (some (labelName cg1.label_counter)) with hK
  set T : CodeGenerator := Codegen.visit_statement_list K thenB with hT
  simp only [StmtListEmits] at ih
  obtain ⟨⟨Δt, hΔt, hLSt⟩, htct, hlct, hpt⟩ := ih
  rw [← hT] at hΔt hLSt htct hlct hpt
  have hv : Codegen.visit_statement cg (Stmt.ifStmt cond thenB Option.none line col) =
      emit T "label" Option.none Option.none (some (labelName cg1.label_counter)) := by
    rw [hT, hK]
    simp only [Codegen.visit_statement, new_label]
    rw [hE]
  simp only [StmtEmits]
  rw [hv]
  have hlcK : K.label_counter = cg.label_counter + 1 := by
    rw [hK]
    simp only [emit]
    omega
  have htcK : K.temp_counter = cg1.temp_counter := by
    rw [hK]
    simp only [emit]
  rw [hlcK] at hLSt hlct
  refine ⟨⟨Δc ++ ⟨"if_false", some c, Option.none, some (labelName cg.label_counter)⟩ ::
    (Δt ++ [⟨"label", Option.none, Option.none, some (labelName cg.label_counter)⟩]),
    ?_, ?_⟩, ?_, ?_, ?_⟩
  · show T.instructions ++ _ = _
    rw [hΔt, hK]
    simp only [emit]
    rw [hΔc, hlcc]
    simp [List.append_assoc]
  · show LabelSpec _ cg.label_counter T.label_counter
    exact LabelSpec_if_shape Δc Δt c cg.label_counter T.label_counter hncc hLSt hlct
  · show cg.temp_counter ≤ T.temp_counter
    omega
  · show cg.label_counter ≤ T.label_counter
    omega
  · intro hnames hInv
    have hnc2 : ∀ m, tempName m ∉ exprNames cond := by
      intro m hm
      exact hnames m (by simp [stmtNames, stmtNamesList]; exact Or.inl hm)
    have hnt : ∀ m, tempName m ∉ stmtNamesList thenB := by
      intro m hm
      exact hnames m (by simp [stmtNames, stmtNamesList]; exact Or.inr hm)
    obtain ⟨hInvC, hdefc⟩ := hpc hnc2 hInv
    have hInvK : TempInv K := by
      rw [hK]
      show TempInvL (cg1.instructions ++ _) cg1.temp_counter
      refine TempInvL_snoc_nonTemp _ _ _ ?_ ?_ (fun n hn => by simp at hn) hInvC
      · intro n hn
        injection hn with h
        exact labelName_ne_tempName _ _ h
      · intro n hn
        exact hdefc n (by injection hn)
    have hInvT := hpt hnt hInvK
    show TempInvL (T.instructions ++ _) T.temp_counter
    refine TempInvL_snoc_nonTemp _ _ _ ?_ (fun n hn => by simp at hn)
      (fun n hn => by simp at hn) hInvT
    intro n hn
    injection hn with h
    exact labelName_ne_tempName _ _ h

theorem stmtEmits_ifConsElse :
    ∀ (cg : CodeGenerator) (cond : Expr) (thenB : List Stmt) (line col : Nat)
      (c : String) (cg1 : CodeGenerator),
      Codegen.visit_expression cg cond = (c, cg1) →
      ∀ (head : Stmt) (tail : List Stmt) (elseL : String) (cg2 : CodeGenerator),
        new_label cg1 = (elseL, cg2) →
        ∀ (endL : String) (cg3 : CodeGenerator),
          new_label cg2 = (endL, cg3) →
          StmtListEmits (emit cg3 "if_false" (some c) Option.none (some elseL)) thenB →
          StmtListEmits (emit (emit (Codegen.visit_statement_list
              (emit cg3 "if_false" (some c) Option.none (some elseL)) thenB)
              "goto" Option.none Option.none (some endL))
            "label" Option.none Option.none (some elseL)) (head :: tail) →
          StmtEmits cg (Stmt.ifStmt cond thenB (some (head :: tail)) line col) := by
  intro cg cond thenB line col c cg1 hE head tail elseL cg2 hL1 endL cg3 hL2 ih1 ih2
  rw [new_label] at hL1
  injection hL1 with helseL hcg2
  subst hcg2
  subst helseL
  rw [new_label] at hL2
  injection hL2 with hendL hcg3
  subst hcg3
  subst hendL
  dsimp only at ih1 ih2
  have ihe := expr_emits_all cg cond
  simp only [ExprEmits] at ihe
  rw [hE] at ihe
  dsimp only at ihe
  obtain ⟨⟨Δc, hΔc, hncc⟩, hlcc, htcc, hpc⟩ := ihe
  set K : CodeGenerator := emit { cg1 with label_counter := cg1.label_counter + 1 + 1 }
    "if_false" (some c) Option.none (some (labelName cg1.label_counter)) with hK
  set T : CodeGenerator := Codegen.visit_statement_list K thenB with hT
  set G : CodeGenerator :=
    emit T "goto" Option.none Option.none (some (labelName (cg1.label_counter + 1))) with hG
  set L2 : CodeGenerator :=
    emit G "label" Option.none Option.none (some (labelName cg1.label_counter)) with hL2e
  set E : CodeGenerator := Codegen.visit_statement_list L2 (head :: tail) with hEe
  simp only [StmtListEmits] at ih1 ih2
  obtain ⟨⟨Δt, hΔt, hLSt⟩, htct, hlct, hpt⟩ := ih1
  rw [← hT] at hΔt hLSt htct hlct hpt
  obtain ⟨⟨Δe, hΔe, hLSe⟩, htce, hlce, hpe⟩ := ih2
  rw [← hEe] at hΔe hLSe htce hlce hpe
  have hv : Codegen.visit_statement cg (Stmt.ifStmt cond thenB (some (head :: tail)) line col) =
      emit E "label" Option.none Option.none (some (labelName (cg1.label_counter + 1))) := by
    rw [hEe, hL2e, hG, hT, hK]
    simp only [Codegen.visit_statement, new_label]
    rw [hE]
  simp only [StmtEmits]
  rw [hv]
  have hlcK : K.label_counter = cg.label_counter + 2 := by
    rw [hK]
    simp only [emit]
    omega
  have htcK : K.temp_counter = cg1.temp_counter := by
    rw [hK]
    simp only [emit]
  have hlcL2 : L2.label_counter = T.label_counter := by
    rw [hL2e, hG]
    simp only [emit]
  have htcL2 : L2.temp_counter = T.temp_counter := by
    rw [hL2e, hG]
    simp only [emit]
  rw [hlcK] at hLSt hlct
  rw [hlcL2] at hLSe hlce
  refine ⟨⟨Δc ++ ⟨"if_false", some c, Option.none, some (labelName cg.label_counter)⟩ ::
    (Δt ++ ⟨"goto", Option.none, Option.none, some (labelName (cg.label_counter + 1))⟩ ::
      ⟨"label", Option.none, Option.none, some (labelName cg.label_counter)⟩ ::
        (Δe ++ [⟨"label", Option.none, Option.none,
          some (labelName (cg.label_counter + 1))⟩])), ?_, ?_⟩, ?_, ?_, ?_⟩
  · show E.instructions ++ _ = cg.instructions ++ _
    rw [hΔe, hL2e, hG]
    simp only [emit]
    rw [hΔt, hK]
    simp only [emit]
    rw [hΔc, hlcc]
    simp [List.append_assoc]
  · show LabelSpec _ cg.label_counter E.label_counter
    exact LabelSpec_ifElse_shape Δc Δt Δe c cg.label_counter T.label_counter
      E.label_counter hncc hLSt hLSe hlct hlce
  · show cg.temp_counter ≤ E.temp_counter
    omega
  · show cg.label_counter ≤ E.label_counter
    omega
  · intro hnames hInv
    have hsplit : stmtNames (Stmt.ifStmt cond thenB (some (head :: tail)) line col) =
        exprNames cond ++ stmtNamesList thenB ++ stmtNamesList (head :: tail) := by
      simp [stmtNames]
    have hnc2 : ∀ m, tempName m ∉ exprNames cond := by
      intro m hm
      exact hnames m (by
        rw [hsplit]
        exact List.mem_append.2 (Or.inl (List.mem_append.2 (Or.inl hm))))
    have hnt : ∀ m, tempName m ∉ stmtNamesList thenB := by
      intro m hm
      exact hnames m (by
        rw [hsplit]
        exact List.mem_append.2 (Or.inl (List.mem_append.2 (Or.inr hm))))
    have hne2 : ∀ m, tempName m ∉ stmtNamesList (head :: tail) := by
      intro m hm
      exact hnames m (by
        rw [hsplit]
        exact List.mem_append.2 (Or.inr hm))
    obtain ⟨hInvC, hdefc⟩ := hpc hnc2 hInv
    have hInvK : TempInv K := by
      rw [hK]
      show TempInvL (cg1.instructions ++ _) cg1.temp_counter
      refine TempInvL_snoc_nonTemp _ _ _ ?_ ?_ (fun n hn => by simp at hn) hInvC
      · intro n hn
        injection hn with h
        exact labelName_ne_tempName _ _ h
      · intro n hn
        exact hdefc n (by injection hn)
    have hInvT := hpt hnt hInvK
    have hInvL2 : TempInv L2 := by
      rw [hL2e, hG]
      show TempInvL ((T.instructions ++ _) ++ _) T.temp_counter
      refine TempInvL_snoc_nonTemp _ _ _ ?_ (fun n hn => by simp at hn)
        (fun n hn => by simp at hn) ?_
      · intro n hn
        injection hn with h
        exact labelName_ne_tempName _ _ h
      · refine TempInvL_snoc_nonTemp _ _ _ ?_ (fun n hn => by simp at hn)
          (fun n hn => by simp at hn) hInvT
        intro n hn
        injection hn with h
        exact labelName_ne_tempName _ _ h
    have hInvE := hpe hne2 hInvL2
    show TempInvL (E.instructions ++ _) E.temp_counter
    refine TempInvL_snoc_nonTemp _ _ _ ?_ (fun n hn => by simp at hn)
      (fun n hn => by simp at hn) hInvE
    intro n hn
    injection hn with h
    exact labelName_ne_tempName _ _ h

theorem stmtEmits_while :
    ∀ (cg : CodeGenerator) (cond : Expr) (body : List Stmt) (line col : Nat)
      (startL : String) (cg1 : CodeGenerator),
      new_label cg = (startL, cg1) →
      ∀ (endL : String) (cg2 : CodeGenerator),
        new_label cg1 = (endL, cg2) →
        ∀ (c : String) (cg4 : CodeGenerator),
          Codegen.visit_expression
            (emit cg2 "label" Option.none Option.none (some startL)) cond = (c, cg4) →
          StmtListEmits (emit cg4 "if_false" (some c) Option.none (some endL)) body →
          StmtEmits cg (Stmt.whileLoop cond body line col) := by
  intro cg cond body line col startL cg1 hL1 endL cg2 hL2 c cg4 hE ih
  rw [new_label] at hL1
  injection hL1 with hstartL hcg1
  subst hcg1
  subst hstartL
  rw [new_label] at hL2
  injection hL2 with hendL hcg2
  subst hcg2
  subst hendL
  dsimp only at hE ih
  set M : CodeGenerator := emit { cg with label_counter := cg.label_counter + 1 + 1 }
    "label" Option.none Option.none (some (labelName cg.label_counter)) with hM
  have ihe := expr_emits_all M cond
  simp only [ExprEmits] at ihe
  rw [hE] at ihe
  dsimp only at ihe
  obtain ⟨⟨Δc, hΔc, hncc⟩, hlcc, htcc, hpc⟩ := ihe
  set K : CodeGenerator := emit cg4 "if_false" (some c) Option.none
    (some (labelName (cg.label_counter + 1))) with hK
  set B : CodeGenerator := Codegen.visit_statement_list K body with hB
  simp only [StmtListEmits] at ih
  obtain ⟨⟨Δb, hΔb, hLSb⟩, htcb, hlcb, hpb⟩ := ih
  rw [← hB] at hΔb hLSb htcb hlcb hpb
  have hv : Codegen.visit_statement cg (Stmt.whileLoop cond body line col) =
      emit (emit B "goto" Option.none Option.none (some (labelName cg.label_counter)))
        "label" Option.none Option.none (some (labelName (cg.label_counter + 1))) := by
    rw [hB, hK]
    simp only [Codegen.visit_statement, new_label]
    rw [← hM]
    rw [hE]
  simp only [StmtEmits]
  rw [hv]
  have hlcM : M.label_counter = cg.label_counter + 2 := by
    rw [hM]
    simp only [emit]
  have htcM : M.temp_counter = cg.temp_counter := by
    rw [hM]
    simp only [emit]
  have hlcK : K.label_counter = cg.label_counter + 2 := by
    rw [hK]
    simp only [emit]
    omega
  have htcK : K.temp_counter = cg4.temp_counter := by
    rw [hK]
    simp only [emit]
  rw [hlcK] at hLSb hlcb
  refine ⟨⟨⟨"label", Option.none, Option.none, some (labelName cg.label_counter)⟩ ::
    (Δc ++ ⟨"if_false", some c, Option.none, some (labelName (cg.label_counter + 1))⟩ ::
      (Δb ++ [⟨"goto", Option.none, Option.none, some (labelName cg.label_counter)⟩,
        ⟨"label", Option.none, Option.none,
          some (labelName (cg.label_counter + 1))⟩])), ?_, ?_⟩, ?_, ?_, ?_⟩
  · show (B.instructions ++ _) ++ _ = cg.instructions ++ _
    rw [hΔb, hK]
    simp only [emit]
    rw [hΔc, hM]
    simp only [emit]
    simp [List.append_assoc]
  · show LabelSpec _ cg.label_counter B.label_counter
    exact LabelSpec_while_shape Δc Δb c cg.label_counter B.label_counter
      hncc hLSb hlcb
  · show cg.temp_counter ≤ B.temp_counter
    omega
  · show cg.label_counter ≤ B.label_counter
    omega
  · intro hnames hInv
    have hnc2 : ∀ m, tempName m ∉ exprNames cond := by
      intro m hm
      exact hnames m (by simp [stmtNames]; exact Or.inl hm)
    have hnb : ∀ m, tempName m ∉ stmtNamesList body := by
      intro m hm
      exact hnames m (by simp [stmtNames]; exact Or.inr hm)
    have hInvM : TempInv M := by
      rw [hM]
      show TempInvL (cg.instructions ++ _) cg.temp_counter
      refine TempInvL_snoc_nonTemp _ _ _ ?_ (fun n hn => by simp at hn)
        (fun n hn => by simp at hn) hInv
      intro n hn
      injection hn with h
      exact labelName_ne_tempName _ _ h
    obtain ⟨hInvC, hdefc⟩ := hpc hnc2 hInvM
    have hInvK : TempInv K := by
      rw [hK]
      show TempInvL (cg4.instructions ++ _) cg4.temp_counter
      refine TempInvL_snoc_nonTemp _ _ _ ?_ ?_ (fun n hn => by simp at hn) hInvC
      · intro n hn
        injection hn with h
        exact labelName_ne_tempName _ _ h
      · intro n hn
        exact hdefc n (by injection hn)
    have hInvB := hpb hnb hInvK
    show TempInvL ((B.instructions ++ _) ++ _) B.temp_counter
    refine TempInvL_snoc_nonTemp _ _ _ ?_ (fun n hn => by simp at hn)
      (fun n hn => by simp at hn) ?_
    · intro n hn
      injection hn with h
      exact labelName_ne_tempName _ _ h
    · refine TempInvL_snoc_nonTemp _ _ _ ?_ (fun n hn => by simp at hn)
        (fun n hn => by simp at hn) hInvB
      intro n hn
      injection hn with h
      exact labelName_ne_tempName _ _ h

theorem stmtlist_emits_all (cg : CodeGenerator) (ss : List Stmt) :
    StmtListEmits cg ss := by
  refine Codegen.visit_statement_list.induct (fun cg s => StmtEmits cg s)
    (fun cg ss => StmtListEmits cg ss) ?_ ?_ ?_ ?_ ?_ ?_ ?_ ?_ ?_ ?_ ?_ ?_ cg ss
  · exact stmtEmits_varDecl
  · exact stmtEmits_assign
  · exact stmtEmits_funcDef
  · exact stmtEmits_ifEmptyElse
  · exact stmtEmits_ifConsElse
  · exact stmtEmits_ifNone
  · exact stmtEmits_while
  · exact stmtEmits_ret
  · exact stmtEmits_print
  · exact stmtEmits_callStmt
  · exact stmtListEmits_nil
  · exact stmtListEmits_cons

/-- C5, counterexample: the program `Box t0 paws 1 Box y paws 1 + 2` is
accepted by semantic analysis, the temporary `t0` occurs in its TAC, and `t0`
is the result of two instructions (the user declaration of the variable named
`t0` and the generated temporary collide). -/
theorem C5_counterexample :
    semanticOk c5Program = true ∧
    occursTemp (generate c5Program) 0 ∧
    resCount (generate c5Program) (tempName 0) = 2 :=
  ⟨by decide, by decide, by decide⟩

/-- C5 (amended): for a program accepted by semantic analysis in which no
source name has the shape `tN` of a generator temporary, every temporary that
occurs in the generated TAC is the result of exactly one instruction, and that
defining instruction precedes every instruction using the temporary as an
argument. -/
theorem C5_temp_single_assignment (p : Program) (_hs : semanticOk p = true)
    (hn : ∀ m, tempName m ∉ progNames p) (n : Nat)
    (hocc : occursTemp (generate p) n) :
    resCount (generate p) (tempName n) = 1 ∧
    ∀ i j, ∀ hi : i < (generate p).length, ∀ hj : j < (generate p).length,
      definesOperand ((generate p).get ⟨i, hi⟩) (tempName n) →
      usesOperand ((generate p).get ⟨j, hj⟩) (tempName n) → i < j := by
  have h := stmtlist_emits_all initCodeGenerator p.statements
  simp only [StmtListEmits] at h
  obtain ⟨-, -, -, hp⟩ := h
  have hInv0 : TempInv initCodeGenerator := TempInvL_nil
  have hInv := hp hn hInv0
  obtain ⟨hA, hB, hC⟩ := hInv
  have hB2 : ∀ k, resCount (generate p) (tempName k) ≤ 1 := hB
  have hC2 : ∀ k j, ∀ hj : j < (generate p).length,
      usesOperand ((generate p).get ⟨j, hj⟩) (tempName k) →
      ∃ i, i < j ∧ ∃ hi : i < (generate p).length,
        definesOperand ((generate p).get ⟨i, hi⟩) (tempName k) := hC
  have hcount : resCount (generate p) (tempName n) = 1 := by
    have hle := hB2 n
    have hge : 0 < resCount (generate p) (tempName n) := by
      obtain ⟨ins, hmem, hcase⟩ := hocc
      rcases hcase with hd | hu
      · exact List.countP_pos_iff.mpr ⟨ins, hmem, by simp [definesOperand] at hd; simp [hd]⟩
      · obtain ⟨⟨j, hj⟩, hget⟩ := List.mem_iff_get.1 hmem
        obtain ⟨i, hij, hi, hd⟩ := hC2 n j hj (by rw [hget]; exact hu)
        exact List.countP_pos_iff.mpr ⟨(generate p).get ⟨i, hi⟩, List.get_mem _ _ _,
          by simp [definesOperand] at hd; simp [hd]⟩
    omega
  refine ⟨hcount, ?_⟩
  intro i j hi hj hdef huse
  obtain ⟨i2, hij2, hi2, hdef2⟩ := hC2 n j hj huse
  have huniq : i = i2 := by
    refine countP_one_index_unique (generate p) _ hcount i i2 hi hi2 ?_ ?_
    · simp [definesOperand] at hdef
      simp [hdef]
    · simp [definesOperand] at hdef2
      simp [hdef2]
  omega

/-- C5, witness: a concrete accepted program with no `tN`-shaped source name;
its only temporary `t0` occurs, is assigned exactly once, and is defined
before its single use. -/
theorem C5_witness :
    semanticOk c5WitnessProgram = true ∧
    (∀ m, tempName m ∉ progNames c5WitnessProgram) ∧
    occursTemp (generate c5WitnessProgram) 0 ∧
    (resCount (generate c5WitnessProgram) (tempName 0) = 1 ∧
     ∀ i j, ∀ hi : i < (generate c5WitnessProgram).length,
       ∀ hj : j < (generate c5WitnessProgram).length,
       definesOperand ((generate c5WitnessProgram).get ⟨i, hi⟩) (tempName 0) →
       usesOperand ((generate c5WitnessProgram).get ⟨j, hj⟩) (tempName 0) →
         i < j) := by
  have hname : ∀ m, tempName m ∉ progNames c5WitnessProgram := by
    intro m hm
    have hpn : progNames c5WitnessProgram = ["y"] := by
      simp [c5WitnessProgram, progNames, stmtNamesList, stmtNames, exprNames]
    rw [hpn] at hm
    simp only [List.mem_singleton] at hm
    have hd := congrArg String.data hm
    rw [tempName_data] at hd
    have hy : ("y" : String).data = ['y'] := rfl
    rw [hy] at hd
    exact absurd (List.head_eq_of_cons_eq hd) (by decide)
  exact ⟨by decide, hname, by decide,
    C5_temp_single_assignment c5WitnessProgram (by decide) hname 0 (by decide)⟩

/-- C6: for every program accepted by semantic analysis, the number of `label`
instructions in the generated TAC equals the number of distinct label names
appearing as `goto`/`if_false` targets, and each such target name is the
destination of exactly one `label` instruction. -/
theorem C6_label_structure (p : Program) (_hs : semanticOk p = true) :
    labelOpCount (generate p) = (jumpTargets (generate p)).dedup.length ∧
    ∀ s ∈ jumpTargets (generate p), labelDefCount (generate p) s = 1 := by
  have h := stmtlist_emits_all initCodeGenerator p.statements
  simp only [StmtListEmits] at h
  obtain ⟨⟨Δ, hΔ, hLS⟩, -, -, -⟩ := h
  have hgen : generate p = Δ := by
    have hg : generate p =
        (Codegen.visit_statement_list initCodeGenerator p.statements).instructions :=
      rfl
    rw [hg, hΔ]
    simp [initCodeGenerator]
  have hLS0 : LabelSpec Δ 0
      (Codegen.visit_statement_list initCodeGenerator p.statements).label_counter :=
    hLS
  obtain ⟨cA, cB, cC, cD, cE⟩ := hLS0
  rw [hgen]
  have hmemJT : ∀ s, s ∈ jumpTargets Δ ↔ ∃ m,
      m < (Codegen.visit_statement_list initCodeGenerator p.statements).label_counter ∧
      s = labelName m := by
    intro s
    constructor
    · intro hs2
      simp only [jumpTargets, List.mem_filterMap] at hs2
      obtain ⟨ins, hins, hres⟩ := hs2
      rw [List.mem_filter] at hins
      obtain ⟨hmem, hq⟩ := hins
      have hops : ins.operation = "goto" ∨ ins.operation = "if_false" := by
        simpa using hq
      obtain ⟨m, hm0, hmLC, hr⟩ := cD ins hmem hops
      rw [hr] at hres
      exact ⟨m, hmLC, by injection hres with h2; exact h2.symm⟩
    · rintro ⟨m, hmLC, rfl⟩
      obtain ⟨ins, hins, hops, hr⟩ := cE m (Nat.zero_le m) hmLC
      simp only [jumpTargets, List.mem_filterMap]
      refine ⟨ins, ?_, hr⟩
      rw [List.mem_filter]
      exact ⟨hins, by rcases hops with h2 | h2 <;> simp [h2]⟩
  constructor
  · have h1 : labelOpCount Δ =
        (Codegen.visit_statement_list initCodeGenerator p.statements).label_counter := by
      simp only [labelOpCount]
      rw [cA]
      omega
    rw [h1]
    have h2 : (jumpTargets Δ).toFinset =
        (Finset.range
          (Codegen.visit_statement_list initCodeGenerator p.statements).label_counter).image
          labelName := by
      ext s
      simp only [List.mem_toFinset, Finset.mem_image, Finset.mem_range]
      rw [hmemJT s]
      constructor
      · rintro ⟨m, hm, rfl⟩
        exact ⟨m, hm, rfl⟩
      · rintro ⟨m, hm, rfl⟩
        exact ⟨m, hm, rfl⟩
    have h3 : (jumpTargets Δ).dedup.length = (jumpTargets Δ).toFinset.card :=
      (List.card_toFinset _).symm
    rw [h3, h2,
      Finset.card_image_of_injective _ (fun a b hab => labelName_injective a b hab),
      Finset.card_range]
  · intro s hs2
    rw [hmemJT s] at hs2
    obtain ⟨m, hmLC, rfl⟩ := hs2
    have hc := cC m (Nat.zero_le m) hmLC
    simpa [labelDefCount] using hc

/-- C6, witness: a concrete accepted program with a while loop; its TAC has
two labels, each targeted, and each target labelled exactly once. -/
theorem C6_witness :
    semanticOk c6WitnessProgram = true ∧
    (labelOpCount (generate c6WitnessProgram) =
      (jumpTargets (generate c6WitnessProgram)).dedup.length ∧
     ∀ s ∈ jumpTargets (generate c6WitnessProgram),
       labelDefCount (generate c6WitnessProgram) s = 1) :=
  ⟨by decide, C6_label_structure c6WitnessProgram (by decide)⟩

end MeowScript
